import Mathlib

/-!
# Assimp math kernel and bounding volumes

A shallow embedding of `matrix4x4.inl`, `vector3.inl` and `quaternion.inl`
(templates over the scalar type `TReal`), of the integer-key interpolators of
`anim.h`, and of `aabb.cpp`, `boundingSphere.cpp` and `intersectData.h`,
followed by theorems about them.

Conventions of the embedding:

* the scalar type is a parameter; the theorems read it as a commutative ring, a
  field, an ordered field, or the real numbers, as each of them says;
* the libm functions `sqrt`, `cos`, `sin`, `acos` are passed as parameters to the
  functions that call them, and instantiated with `Real.sqrt`, `Real.cos`,
  `Real.sin`, `Real.arccos` in the theorems;
* a scalar slot that may hold the quiet NaN written by `Inverse()` has type
  `Option TReal`, with `none` for NaN;
* methods that mutate the receiver or an out-parameter return the new value;
* `unsigned int` key values are natural numbers (the code only copies them);
* where a theorem is about a square root or a division being defined, a second
  version of the function with these operations checked (`Option`) is compared
  with the function itself;
* `matrix3x3.h` and `math3d.h` are not among the sources: the members of
  `aiMatrix3x3t` and the class `Vector3f` with its operations are modelled from
  the specification.
-/

namespace Assimp

/-! ## Data model -/

/-- Class `aiVector3t<TReal>` of `vector3.h`: the members `x, y, z`. -/
structure aiVector3t (TReal : Type) where
  x : TReal
  y : TReal
  z : TReal
  deriving DecidableEq

/-- Modelled from the spec: class `aiMatrix3x3t<TReal>` of `matrix3x3.h`, whose
declaration is not among the sources. Its nine members are named by row (a, b, c)
and column (1..3), row-major, as the spec's data model says and as
`matrix4x4.inl` and `quaternion.inl` use them; the nine-argument constructor
takes them in that order. -/
structure aiMatrix3x3t (TReal : Type) where
  a1 : TReal
  a2 : TReal
  a3 : TReal
  b1 : TReal
  b2 : TReal
  b3 : TReal
  c1 : TReal
  c2 : TReal
  c3 : TReal
  deriving DecidableEq

/-- Class `aiMatrix4x4t<TReal>` of `matrix4x4.h`: sixteen members in row-major
order; the sixteen-argument constructor takes them in this order. -/
structure aiMatrix4x4t (TReal : Type) where
  a1 : TReal
  a2 : TReal
  a3 : TReal
  a4 : TReal
  b1 : TReal
  b2 : TReal
  b3 : TReal
  b4 : TReal
  c1 : TReal
  c2 : TReal
  c3 : TReal
  c4 : TReal
  d1 : TReal
  d2 : TReal
  d3 : TReal
  d4 : TReal
  deriving DecidableEq

/-- Class `aiQuaterniont<TReal>` of `quaternion.h`: the members `w, x, y, z`; the
four-argument constructor takes them in this order. -/
structure aiQuaterniont (TReal : Type) where
  w : TReal
  x : TReal
  y : TReal
  z : TReal
  deriving DecidableEq

/-! ## vector3.inl -/

namespace aiVector3t

variable {TReal : Type}

/-- Method `SquareLength()`. -/
def SquareLength [CommRing TReal] (v : aiVector3t TReal) : TReal :=
  v.x * v.x + v.y * v.y + v.z * v.z

/-- Method `Length()`: `sqrt(SquareLength())`. -/
def Length [CommRing TReal] (sqrt : TReal → TReal) (v : aiVector3t TReal) : TReal :=
  sqrt v.SquareLength

/-- Operator `/=` with a scalar. -/
def divAssign [Field TReal] (v : aiVector3t TReal) (f : TReal) : aiVector3t TReal :=
  ⟨v.x / f, v.y / f, v.z / f⟩

/-- Method `Normalize()`: `*this /= Length()`. -/
def Normalize [Field TReal] (sqrt : TReal → TReal) (v : aiVector3t TReal) : aiVector3t TReal :=
  v.divAssign (v.Length sqrt)

end aiVector3t

/-! ## matrix4x4.inl -/

namespace aiMatrix4x4t

variable {TReal : Type}

/-- Entrywise image of a matrix (the shape of the converting cast operator). -/
def map {S : Type} (f : TReal → S) (M : aiMatrix4x4t TReal) : aiMatrix4x4t S :=
  ⟨f M.a1, f M.a2, f M.a3, f M.a4,
   f M.b1, f M.b2, f M.b3, f M.b4,
   f M.c1, f M.c2, f M.c3, f M.c4,
   f M.d1, f M.d2, f M.d3, f M.d4⟩

/-- Default constructor `aiMatrix4x4t()`: the identity. -/
def identity [CommRing TReal] : aiMatrix4x4t TReal :=
  ⟨1, 0, 0, 0,
   0, 1, 0, 0,
   0, 0, 1, 0,
   0, 0, 0, 1⟩

/-- Operator `*=`: the receiver `A` after `A *= m`. -/
def mulAssign [CommRing TReal] : aiMatrix4x4t TReal → aiMatrix4x4t TReal → aiMatrix4x4t TReal
  | ⟨a1, a2, a3, a4, b1, b2, b3, b4, c1, c2, c3, c4, d1, d2, d3, d4⟩, m =>
    ⟨m.a1 * a1 + m.b1 * a2 + m.c1 * a3 + m.d1 * a4,
     m.a2 * a1 + m.b2 * a2 + m.c2 * a3 + m.d2 * a4,
     m.a3 * a1 + m.b3 * a2 + m.c3 * a3 + m.d3 * a4,
     m.a4 * a1 + m.b4 * a2 + m.c4 * a3 + m.d4 * a4,
     m.a1 * b1 + m.b1 * b2 + m.c1 * b3 + m.d1 * b4,
     m.a2 * b1 + m.b2 * b2 + m.c2 * b3 + m.d2 * b4,
     m.a3 * b1 + m.b3 * b2 + m.c3 * b3 + m.d3 * b4,
     m.a4 * b1 + m.b4 * b2 + m.c4 * b3 + m.d4 * b4,
     m.a1 * c1 + m.b1 * c2 + m.c1 * c3 + m.d1 * c4,
     m.a2 * c1 + m.b2 * c2 + m.c2 * c3 + m.d2 * c4,
     m.a3 * c1 + m.b3 * c2 + m.c3 * c3 + m.d3 * c4,
     m.a4 * c1 + m.b4 * c2 + m.c4 * c3 + m.d4 * c4,
     m.a1 * d1 + m.b1 * d2 + m.c1 * d3 + m.d1 * d4,
     m.a2 * d1 + m.b2 * d2 + m.c2 * d3 + m.d2 * d4,
     m.a3 * d1 + m.b3 * d2 + m.c3 * d3 + m.d3 * d4,
     m.a4 * d1 + m.b4 * d2 + m.c4 * d3 + m.d4 * d4⟩

/-- Operator `*`: copies the receiver into `temp`, runs `temp *= m`, returns `temp`. -/
def mul [CommRing TReal] (A m : aiMatrix4x4t TReal) : aiMatrix4x4t TReal :=
  let temp := A
  temp.mulAssign m

/-- Method `Determinant()`. -/
def Determinant [CommRing TReal] : aiMatrix4x4t TReal → TReal
  | ⟨a1, a2, a3, a4, b1, b2, b3, b4, c1, c2, c3, c4, d1, d2, d3, d4⟩ =>
    a1*b2*c3*d4 - a1*b2*c4*d3 + a1*b3*c4*d2 - a1*b3*c2*d4
      + a1*b4*c2*d3 - a1*b4*c3*d2 - a2*b3*c4*d1 + a2*b3*c1*d4
      - a2*b4*c1*d3 + a2*b4*c3*d1 - a2*b1*c3*d4 + a2*b1*c4*d3
      + a3*b4*c1*d2 - a3*b4*c2*d1 + a3*b1*c2*d4 - a3*b1*c4*d2
      + a3*b2*c4*d1 - a3*b2*c1*d4 - a4*b1*c2*d3 + a4*b1*c3*d2
      - a4*b2*c3*d1 + a4*b2*c1*d3 - a4*b3*c1*d2 + a4*b3*c2*d1

/-- Method `Inverse()`: the sixteen entries of the receiver afterwards. A slot holds
`none` when the code writes the quiet NaN into it and `some v` when it writes the
scalar `v`. -/
def Inverse [Field TReal] [DecidableEq TReal] (M : aiMatrix4x4t TReal) :
    aiMatrix4x4t (Option TReal) :=
  let det := M.Determinant
  if det = 0 then
    let nan : Option TReal := none
    ⟨nan, nan, nan, nan,
     nan, nan, nan, nan,
     nan, nan, nan, nan,
     nan, nan, nan, nan⟩
  else
    let invdet := 1 / det
    match M with
    | ⟨a1, a2, a3, a4, b1, b2, b3, b4, c1, c2, c3, c4, d1, d2, d3, d4⟩ =>
      let res : aiMatrix4x4t TReal :=
        { a1 := invdet  * (b2 * (c3 * d4 - c4 * d3) + b3 * (c4 * d2 - c2 * d4) + b4 * (c2 * d3 - c3 * d2))
          a2 := -invdet * (a2 * (c3 * d4 - c4 * d3) + a3 * (c4 * d2 - c2 * d4) + a4 * (c2 * d3 - c3 * d2))
          a3 := invdet  * (a2 * (b3 * d4 - b4 * d3) + a3 * (b4 * d2 - b2 * d4) + a4 * (b2 * d3 - b3 * d2))
          a4 := -invdet * (a2 * (b3 * c4 - b4 * c3) + a3 * (b4 * c2 - b2 * c4) + a4 * (b2 * c3 - b3 * c2))
          b1 := -invdet * (b1 * (c3 * d4 - c4 * d3) + b3 * (c4 * d1 - c1 * d4) + b4 * (c1 * d3 - c3 * d1))
          b2 := invdet  * (a1 * (c3 * d4 - c4 * d3) + a3 * (c4 * d1 - c1 * d4) + a4 * (c1 * d3 - c3 * d1))
          b3 := -invdet * (a1 * (b3 * d4 - b4 * d3) + a3 * (b4 * d1 - b1 * d4) + a4 * (b1 * d3 - b3 * d1))
          b4 := invdet  * (a1 * (b3 * c4 - b4 * c3) + a3 * (b4 * c1 - b1 * c4) + a4 * (b1 * c3 - b3 * c1))
          c1 := invdet  * (b1 * (c2 * d4 - c4 * d2) + b2 * (c4 * d1 - c1 * d4) + b4 * (c1 * d2 - c2 * d1))
          c2 := -invdet * (a1 * (c2 * d4 - c4 * d2) + a2 * (c4 * d1 - c1 * d4) + a4 * (c1 * d2 - c2 * d1))
          c3 := invdet  * (a1 * (b2 * d4 - b4 * d2) + a2 * (b4 * d1 - b1 * d4) + a4 * (b1 * d2 - b2 * d1))
          c4 := -invdet * (a1 * (b2 * c4 - b4 * c2) + a2 * (b4 * c1 - b1 * c4) + a4 * (b1 * c2 - b2 * c1))
          d1 := -invdet * (b1 * (c2 * d3 - c3 * d2) + b2 * (c3 * d1 - c1 * d3) + b3 * (c1 * d2 - c2 * d1))
          d2 := invdet  * (a1 * (c2 * d3 - c3 * d2) + a2 * (c3 * d1 - c1 * d3) + a3 * (c1 * d2 - c2 * d1))
          d3 := -invdet * (a1 * (b2 * d3 - b3 * d2) + a2 * (b3 * d1 - b1 * d3) + a3 * (b1 * d2 - b2 * d1))
          d4 := invdet  * (a1 * (b2 * c3 - b3 * c2) + a2 * (b3 * c1 - b1 * c3) + a3 * (b1 * c2 - b2 * c1)) }
      res.map some

/-- Operator `[]` twice, `M[i][j]`: the scalar `4 * i + j` places after `a1`, which is
the entry in row `i` and column `j` (both counted from 0). -/
def entry (M : aiMatrix4x4t TReal) : Fin 4 → Fin 4 → TReal
  | 0, 0 => M.a1 | 0, 1 => M.a2 | 0, 2 => M.a3 | 0, 3 => M.a4
  | 1, 0 => M.b1 | 1, 1 => M.b2 | 1, 2 => M.b3 | 1, 3 => M.b4
  | 2, 0 => M.c1 | 2, 1 => M.c2 | 2, 2 => M.c3 | 2, 3 => M.c4
  | 3, 0 => M.d1 | 3, 1 => M.d2 | 3, 2 => M.d3 | 3, 3 => M.d4

/-- Static `RotationX(a, out)`: the value written to `out`. -/
def RotationX [CommRing TReal] (cos sin : TReal → TReal) (a : TReal) : aiMatrix4x4t TReal :=
  let out : aiMatrix4x4t TReal := identity
  let out := { out with c3 := cos a }
  let out := { out with b2 := out.c3 }
  let out := { out with c2 := sin a }
  { out with b3 := -out.c2 }

/-- Static `RotationY(a, out)`: the value written to `out`. -/
def RotationY [CommRing TReal] (cos sin : TReal → TReal) (a : TReal) : aiMatrix4x4t TReal :=
  let out : aiMatrix4x4t TReal := identity
  let out := { out with c3 := cos a }
  let out := { out with a1 := out.c3 }
  let out := { out with a3 := sin a }
  { out with c1 := -out.a3 }

/-- Static `RotationZ(a, out)`: the value written to `out`. -/
def RotationZ [CommRing TReal] (cos sin : TReal → TReal) (a : TReal) : aiMatrix4x4t TReal :=
  let out : aiMatrix4x4t TReal := identity
  let out := { out with b2 := cos a }
  let out := { out with a1 := out.b2 }
  let out := { out with b1 := sin a }
  { out with a2 := -out.b1 }

/-- Static `Rotation(a, axis, out)`: the value written to `out` (all sixteen members
are assigned). -/
def Rotation [CommRing TReal] (cos sin : TReal → TReal) (a : TReal) (axis : aiVector3t TReal) :
    aiMatrix4x4t TReal :=
  let c := cos a
  let s := sin a
  let t := 1 - c
  let x := axis.x
  let y := axis.y
  let z := axis.z
  { a1 := t*x*x + c,   a2 := t*x*y - s*z, a3 := t*x*z + s*y
    b1 := t*x*y + s*z, b2 := t*y*y + c,   b3 := t*y*z - s*x
    c1 := t*x*z - s*y, c2 := t*y*z + s*x, c3 := t*z*z + c
    a4 := 0, b4 := 0, c4 := 0
    d1 := 0, d2 := 0, d3 := 0
    d4 := 1 }

/-- Static `Translation(v, out)`: the value written to `out`. -/
def Translation [CommRing TReal] (v : aiVector3t TReal) : aiMatrix4x4t TReal :=
  let out : aiMatrix4x4t TReal := identity
  { out with a4 := v.x, b4 := v.y, c4 := v.z }

/-- Static `Scaling(v, out)`: the value written to `out`. -/
def Scaling [CommRing TReal] (v : aiVector3t TReal) : aiMatrix4x4t TReal :=
  let out : aiMatrix4x4t TReal := identity
  { out with a1 := v.x, b2 := v.y, c3 := v.z }

end aiMatrix4x4t

/-! ## quaternion.inl -/

namespace aiQuaterniont

variable {TReal : Type}

/-- Constructor `aiQuaterniont(const aiMatrix3x3t&)`: quaternion of a rotation matrix. -/
def ofMatrix [LinearOrderedField TReal] (sqrt : TReal → TReal) (pRotMatrix : aiMatrix3x3t TReal) :
    aiQuaterniont TReal :=
  let t := 1 + pRotMatrix.a1 + pRotMatrix.b2 + pRotMatrix.c3
  if t > 0.001 then
    let s := sqrt t * 2
    { x := (pRotMatrix.c2 - pRotMatrix.b3) / s
      y := (pRotMatrix.a3 - pRotMatrix.c1) / s
      z := (pRotMatrix.b1 - pRotMatrix.a2) / s
      w := 0.25 * s }
  else if pRotMatrix.a1 > pRotMatrix.b2 ∧ pRotMatrix.a1 > pRotMatrix.c3 then
    let s := sqrt (1 + pRotMatrix.a1 - pRotMatrix.b2 - pRotMatrix.c3) * 2
    { x := 0.25 * s
      y := (pRotMatrix.b1 + pRotMatrix.a2) / s
      z := (pRotMatrix.a3 + pRotMatrix.c1) / s
      w := (pRotMatrix.c2 - pRotMatrix.b3) / s }
  else if pRotMatrix.b2 > pRotMatrix.c3 then
    let s := sqrt (1 + pRotMatrix.b2 - pRotMatrix.a1 - pRotMatrix.c3) * 2
    { x := (pRotMatrix.b1 + pRotMatrix.a2) / s
      y := 0.25 * s
      z := (pRotMatrix.c2 + pRotMatrix.b3) / s
      w := (pRotMatrix.a3 - pRotMatrix.c1) / s }
  else
    let s := sqrt (1 + pRotMatrix.c3 - pRotMatrix.a1 - pRotMatrix.b2) * 2
    { x := (pRotMatrix.a3 + pRotMatrix.c1) / s
      y := (pRotMatrix.c2 + pRotMatrix.b3) / s
      z := 0.25 * s
      w := (pRotMatrix.b1 - pRotMatrix.a2) / s }

/-- Constructor `aiQuaterniont(aiVector3t axis, TReal angle)`: axis-angle pair. -/
def ofAxisAngle [Field TReal] (sqrt cos sin : TReal → TReal) (axis : aiVector3t TReal)
    (angle : TReal) : aiQuaterniont TReal :=
  let axis := axis.Normalize sqrt
  let sin_a := sin (angle / 2)
  let cos_a := cos (angle / 2)
  { x := axis.x * sin_a
    y := axis.y * sin_a
    z := axis.z * sin_a
    w := cos_a }

/-- Method `GetMatrix()`: matrix representation of the quaternion. -/
def GetMatrix [CommRing TReal] : aiQuaterniont TReal → aiMatrix3x3t TReal
  | ⟨w, x, y, z⟩ =>
    { a1 := 1 - 2 * (y * y + z * z)
      a2 := 2 * (x * y - z * w)
      a3 := 2 * (x * z + y * w)
      b1 := 2 * (x * y + z * w)
      b2 := 1 - 2 * (x * x + z * z)
      b3 := 2 * (y * z - x * w)
      c1 := 2 * (x * z - y * w)
      c2 := 2 * (y * z + x * w)
      c3 := 1 - 2 * (x * x + y * y) }

end aiQuaterniont

/-! ## matrix4x4.inl: decomposition -/

/-- The three out-parameters of `Decompose`. -/
structure DecomposeResult (TReal : Type) where
  scaling : aiVector3t TReal
  rotation : aiQuaterniont TReal
  position : aiVector3t TReal

namespace aiMatrix4x4t

variable {TReal : Type}

/-- The array `vRows` of `Decompose` as first filled in. -/
def vRows (M : aiMatrix4x4t TReal) : Fin 3 → aiVector3t TReal
  | 0 => ⟨M.entry 0 0, M.entry 1 0, M.entry 2 0⟩
  | 1 => ⟨M.entry 0 1, M.entry 1 1, M.entry 2 1⟩
  | 2 => ⟨M.entry 0 2, M.entry 1 2, M.entry 2 2⟩

/-- Method `Decompose(scaling, rotation, position)`: the values of the three
out-parameters. -/
def Decompose [LinearOrderedField TReal] (sqrt : TReal → TReal) (M : aiMatrix4x4t TReal) :
    DecomposeResult TReal :=
  -- extract translation
  let position : aiVector3t TReal := ⟨M.entry 0 3, M.entry 1 3, M.entry 2 3⟩
  -- extract the rows of the matrix
  let vRows0 := M.vRows 0
  let vRows1 := M.vRows 1
  let vRows2 := M.vRows 2
  -- extract the scaling factors
  let scaling : aiVector3t TReal := ⟨vRows0.Length sqrt, vRows1.Length sqrt, vRows2.Length sqrt⟩
  -- and the sign of the scaling
  let scaling : aiVector3t TReal :=
    if M.Determinant < 0 then ⟨-scaling.x, -scaling.y, -scaling.z⟩ else scaling
  -- and remove all scaling from the matrix
  let vRows0 := if scaling.x ≠ 0 then vRows0.divAssign scaling.x else vRows0
  let vRows1 := if scaling.y ≠ 0 then vRows1.divAssign scaling.y else vRows1
  let vRows2 := if scaling.z ≠ 0 then vRows2.divAssign scaling.z else vRows2
  -- build a 3x3 rotation matrix
  let m : aiMatrix3x3t TReal :=
    ⟨vRows0.x, vRows1.x, vRows2.x,
     vRows0.y, vRows1.y, vRows2.y,
     vRows0.z, vRows1.z, vRows2.z⟩
  -- and generate the rotation quaternion from it
  { scaling := scaling, rotation := aiQuaterniont.ofMatrix sqrt m, position := position }

end aiMatrix4x4t

/-! ## matrix4x4.inl: identity test -/

namespace aiMatrix4x4t

variable {TReal : Type}

/-- Method `IsIdentity()`. -/
def IsIdentity [LinearOrderedField TReal] (M : aiMatrix4x4t TReal) : Bool :=
  -- Use a small epsilon to solve floating-point inaccuracies
  let epsilon : TReal := 10e-3
  decide
    (M.a2 ≤ epsilon ∧ M.a2 ≥ -epsilon ∧
     M.a3 ≤ epsilon ∧ M.a3 ≥ -epsilon ∧
     M.a4 ≤ epsilon ∧ M.a4 ≥ -epsilon ∧
     M.b1 ≤ epsilon ∧ M.b1 ≥ -epsilon ∧
     M.b3 ≤ epsilon ∧ M.b3 ≥ -epsilon ∧
     M.b4 ≤ epsilon ∧ M.b4 ≥ -epsilon ∧
     M.c1 ≤ epsilon ∧ M.c1 ≥ -epsilon ∧
     M.c2 ≤ epsilon ∧ M.c2 ≥ -epsilon ∧
     M.c4 ≤ epsilon ∧ M.c4 ≥ -epsilon ∧
     M.d1 ≤ epsilon ∧ M.d1 ≥ -epsilon ∧
     M.d2 ≤ epsilon ∧ M.d2 ≥ -epsilon ∧
     M.d3 ≤ epsilon ∧ M.d3 ≥ -epsilon ∧
     M.a1 ≤ 1 + epsilon ∧ M.a1 ≥ 1 - epsilon ∧
     M.b2 ≤ 1 + epsilon ∧ M.b2 ≥ 1 - epsilon ∧
     M.c3 ≤ 1 + epsilon ∧ M.c3 ≥ 1 - epsilon ∧
     M.d4 ≤ 1 + epsilon ∧ M.d4 ≥ 1 - epsilon)

end aiMatrix4x4t

/-! ## vector3.inl: transformation by a 3x3 matrix -/

/-- Operator `*` of a 3x3 matrix and a vector. -/
def aiMatrix3x3t.mulVec {TReal : Type} [CommRing TReal] (pMatrix : aiMatrix3x3t TReal)
    (pVector : aiVector3t TReal) : aiVector3t TReal :=
  { x := pMatrix.a1 * pVector.x + pMatrix.a2 * pVector.y + pMatrix.a3 * pVector.z
    y := pMatrix.b1 * pVector.x + pMatrix.b2 * pVector.y + pMatrix.b3 * pVector.z
    z := pMatrix.c1 * pVector.x + pMatrix.c2 * pVector.y + pMatrix.c3 * pVector.z }

/-! ## quaternion.inl: product, conjugate, rotation, interpolation -/

namespace aiQuaterniont

variable {TReal : Type}

/-- Operator `*` of two quaternions. -/
def mul [CommRing TReal] : aiQuaterniont TReal → aiQuaterniont TReal → aiQuaterniont TReal
  | ⟨w, x, y, z⟩, t =>
    ⟨w*t.w - x*t.x - y*t.y - z*t.z,
     w*t.x + x*t.w + y*t.z - z*t.y,
     w*t.y + y*t.w + z*t.x - x*t.z,
     w*t.z + z*t.w + x*t.y - y*t.x⟩

/-- Method `Conjugate()`: the receiver afterwards. -/
def Conjugate [CommRing TReal] : aiQuaterniont TReal → aiQuaterniont TReal
  | ⟨w, x, y, z⟩ => { w := w, x := -x, y := -y, z := -z }

/-- Method `Rotate(v)`. The locals are those of the source: `qinv` is a copy of the
receiver, and `Conjugate()` is called on `q`. -/
def Rotate [CommRing TReal] (self : aiQuaterniont TReal) (v : aiVector3t TReal) :
    aiVector3t TReal :=
  let q2 : aiQuaterniont TReal := ⟨0, v.x, v.y, v.z⟩
  let q := self
  let qinv := q
  let q := q.Conjugate
  let q := (q.mul q2).mul qinv
  ⟨q.x, q.y, q.z⟩

/-- Static `Interpolate(pOut, pStart, pEnd, pFactor)`: the value written to `pOut`.
The local `end` of the source is `endQ` here. -/
def Interpolate [LinearOrderedField TReal] (acos sin : TReal → TReal)
    (pStart pEnd : aiQuaterniont TReal) (pFactor : TReal) : aiQuaterniont TReal :=
  -- calc cosine theta
  let cosom0 := pStart.x * pEnd.x + pStart.y * pEnd.y + pStart.z * pEnd.z + pStart.w * pEnd.w
  -- adjust signs (if necessary)
  let cosom := if cosom0 < 0 then -cosom0 else cosom0
  let endQ : aiQuaterniont TReal :=
    if cosom0 < 0 then { w := -pEnd.w, x := -pEnd.x, y := -pEnd.y, z := -pEnd.z } else pEnd
  -- Calculate coefficients
  let sclp :=
    if 1 - cosom > 0.0001 then
      let omega := acos cosom
      let sinom := sin omega
      sin ((1 - pFactor) * omega) / sinom
    else 1 - pFactor
  let sclq :=
    if 1 - cosom > 0.0001 then
      let omega := acos cosom
      let sinom := sin omega
      sin (pFactor * omega) / sinom
    else pFactor
  { x := sclp * pStart.x + sclq * endQ.x
    y := sclp * pStart.y + sclq * endQ.y
    z := sclp * pStart.z + sclq * endQ.z
    w := sclp * pStart.w + sclq * endQ.w }

end aiQuaterniont

/-! ## intersectData.h, aabb.cpp, boundingSphere.cpp -/

/-- Modelled from the spec: class `Vector3f` of `math3d.h`, which is not among the
sources. A plain tuple of three scalars, as the spec's data model has it. -/
structure Vector3f (T : Type) where
  x : T
  y : T
  z : T
  deriving DecidableEq

namespace Vector3f

variable {T : Type}

/-- Modelled from the spec: operator `-` of `Vector3f` (`math3d.h`, not among the
sources), the componentwise subtraction. -/
def sub [LinearOrderedField T] (v r : Vector3f T) : Vector3f T :=
  ⟨v.x - r.x, v.y - r.y, v.z - r.z⟩

/-- Modelled from the spec: `Max(r)` of `Vector3f` (`math3d.h`, not among the sources),
the componentwise maximum of two vectors. -/
def Max [LinearOrderedField T] (v r : Vector3f T) : Vector3f T :=
  ⟨max v.x r.x, max v.y r.y, max v.z r.z⟩

/-- Modelled from the spec: `Max()` without argument of `Vector3f` (`math3d.h`, not
among the sources), the maximum component across the three axes. -/
def MaxComponent [LinearOrderedField T] (v : Vector3f T) : T :=
  max (max v.x v.y) v.z

/-- Modelled from the spec: `Length()` of `Vector3f` (`math3d.h`, not among the
sources), the square root of the squared length. -/
def Length [LinearOrderedField T] (sqrt : T → T) (v : Vector3f T) : T :=
  sqrt (v.x * v.x + v.y * v.y + v.z * v.z)

end Vector3f

/-- Class `IntersectData` of `intersectData.h`. -/
structure IntersectData (T : Type) where
  m_doesIntersect : Bool
  m_distance : T
  deriving DecidableEq

/-- Getter `GetDoesIntersect()`. -/
def IntersectData.GetDoesIntersect {T : Type} (d : IntersectData T) : Bool :=
  d.m_doesIntersect

/-- Getter `GetDistance()`. -/
def IntersectData.GetDistance {T : Type} (d : IntersectData T) : T :=
  d.m_distance

/-- Class `AABB` of `aabb.h`. -/
structure AABB (T : Type) where
  m_minExtents : Vector3f T
  m_maxExtents : Vector3f T
  deriving DecidableEq

namespace AABB

variable {T : Type}

/-- Getter `GetMinExtents()`. -/
def GetMinExtents (b : AABB T) : Vector3f T := b.m_minExtents

/-- Getter `GetMaxExtents()`. -/
def GetMaxExtents (b : AABB T) : Vector3f T := b.m_maxExtents

/-- Method `IntersectAABB(other)` of `aabb.cpp`. -/
def IntersectAABB [LinearOrderedField T] (self other : AABB T) : IntersectData T :=
  let distances1 := other.GetMinExtents.sub self.m_maxExtents
  let distances2 := self.m_minExtents.sub other.GetMaxExtents
  -- The correct distances will be whichever distance is larger for each axis.
  let distances := distances1.Max distances2
  -- Find the maximum distance from the distances vector.
  let maxDistance := distances.MaxComponent
  ⟨decide (maxDistance < 0), maxDistance⟩

end AABB

/-- Class `BoundingSphere` of `boundingSphere.h`. -/
structure BoundingSphere (T : Type) where
  m_center : Vector3f T
  m_radius : T
  deriving DecidableEq

namespace BoundingSphere

variable {T : Type}

/-- Getter `GetCenter()`. -/
def GetCenter (s : BoundingSphere T) : Vector3f T := s.m_center

/-- Getter `GetRadius()`. -/
def GetRadius (s : BoundingSphere T) : T := s.m_radius

/-- Method `IntersectBoundingSphere(other)` of `boundingSphere.cpp`. -/
def IntersectBoundingSphere [LinearOrderedField T] (sqrt : T → T) (self other : BoundingSphere T) :
    IntersectData T :=
  let radiusDistance := self.m_radius + other.GetRadius
  let centerDistance := (other.GetCenter.sub self.m_center).Length sqrt
  let distance := centerDistance - radiusDistance
  ⟨decide (distance < 0), distance⟩

end BoundingSphere

/-! ## Geometric readings used by the theorems -/

/-- The box is well-formed: `min <= max` on every axis. -/
def AABB.WellFormed {T : Type} [LinearOrderedField T] (b : AABB T) : Prop :=
  b.m_minExtents.x ≤ b.m_maxExtents.x ∧ b.m_minExtents.y ≤ b.m_maxExtents.y ∧
    b.m_minExtents.z ≤ b.m_maxExtents.z

/-- The point `p` lies in the closed box. -/
def AABB.Contains {T : Type} [LinearOrderedField T] (b : AABB T) (p : Vector3f T) : Prop :=
  (b.m_minExtents.x ≤ p.x ∧ p.x ≤ b.m_maxExtents.x) ∧
  (b.m_minExtents.y ≤ p.y ∧ p.y ≤ b.m_maxExtents.y) ∧
  (b.m_minExtents.z ≤ p.z ∧ p.z ≤ b.m_maxExtents.z)

/-- The Euclidean distance of two points, `|p - c|`. -/
def Vector3f.dist {T : Type} [LinearOrderedField T] (sqrt : T → T) (p c : Vector3f T) : T :=
  (p.sub c).Length sqrt

/-- The quaternion `(0, v)`: `w = 0` and vector part `v`. -/
def aiQuaterniont.pure {T : Type} [CommRing T] (v : aiVector3t T) : aiQuaterniont T :=
  ⟨0, v.x, v.y, v.z⟩

/-- The vector part `(x, y, z)` of a quaternion. -/
def aiQuaterniont.vectorPart {T : Type} (q : aiQuaterniont T) : aiVector3t T :=
  ⟨q.x, q.y, q.z⟩

/-- The componentwise negation `-q` of a quaternion. -/
def aiQuaterniont.negate {T : Type} [CommRing T] (q : aiQuaterniont T) : aiQuaterniont T :=
  ⟨-q.w, -q.x, -q.y, -q.z⟩

/-! ## quaternion.inl: normalisation and the remaining constructors -/

namespace aiQuaterniont

variable {TReal : Type}

/-- Constructor `aiQuaterniont(TReal fPitch, TReal fYaw, TReal fRoll)`: construction from
euler angles. The header declares the parameters as `(rotx, roty, rotz)`. -/
def ofEulerAngles [Field TReal] (cos sin : TReal → TReal) (fPitch fYaw fRoll : TReal) :
    aiQuaterniont TReal :=
  let fSinPitch := sin (fPitch * 0.5)
  let fCosPitch := cos (fPitch * 0.5)
  let fSinYaw := sin (fYaw * 0.5)
  let fCosYaw := cos (fYaw * 0.5)
  let fSinRoll := sin (fRoll * 0.5)
  let fCosRoll := cos (fRoll * 0.5)
  let fCosPitchCosYaw := fCosPitch * fCosYaw
  let fSinPitchSinYaw := fSinPitch * fSinYaw
  { x := fSinRoll * fCosPitchCosYaw     - fCosRoll * fSinPitchSinYaw
    y := fCosRoll * fSinPitch * fCosYaw + fSinRoll * fCosPitch * fSinYaw
    z := fCosRoll * fCosPitch * fSinYaw - fSinRoll * fSinPitch * fCosYaw
    w := fCosRoll * fCosPitchCosYaw     + fSinRoll * fSinPitchSinYaw }

/-- Constructor `aiQuaterniont(aiVector3t normalized)`: construction from a normalized
quaternion stored in a vector. -/
def ofNormalized [LinearOrderedField TReal] (sqrt : TReal → TReal)
    (normalized : aiVector3t TReal) : aiQuaterniont TReal :=
  let x := normalized.x
  let y := normalized.y
  let z := normalized.z
  let t := 1 - (x*x) - (y*y) - (z*z)
  if t < 0 then
    { x := x, y := y, z := z, w := 0 }
  else
    { x := x, y := y, z := z, w := sqrt t }

/-- Method `Normalize()`: the receiver afterwards. -/
def Normalize [LinearOrderedField TReal] (sqrt : TReal → TReal) :
    aiQuaterniont TReal → aiQuaterniont TReal
  | ⟨w, x, y, z⟩ =>
    -- compute the magnitude and divide through it
    let mag := sqrt (x*x + y*y + z*z + w*w)
    if mag ≠ 0 then
      let invMag := 1 / mag
      { x := x * invMag, y := y * invMag, z := z * invMag, w := w * invMag }
    else
      { x := x, y := y, z := z, w := w }

end aiQuaterniont

/-! ## matrix4x4.inl: euler angles -/

namespace aiMatrix4x4t

variable {TReal : Type}

/-- Method `FromEulerAnglesXYZ(x, y, z)`: the receiver afterwards. -/
def FromEulerAnglesXYZ [CommRing TReal] (cos sin : TReal → TReal) (_this : aiMatrix4x4t TReal)
    (x y z : TReal) : aiMatrix4x4t TReal :=
  let cr := cos x
  let sr := sin x
  let cp := cos y
  let sp := sin y
  let cy := cos z
  let sy := sin z
  let srsp := sr*sp
  let crsp := cr*sp
  { _this with
    a1 := cp*cy
    a2 := cp*sy
    a3 := -sp
    b1 := srsp*cy-cr*sy
    b2 := srsp*sy+cr*cy
    b3 := sr*cp
    c1 := crsp*cy+sr*sy
    c2 := crsp*sy-sr*cy
    c3 := cr*cp }

end aiMatrix4x4t

/-! ## anim.h: interpolators of integer keys -/

/-- Struct `aiMeshKey` of `anim.h`: the members `mTime` and `mValue`. -/
structure aiMeshKey (T : Type) where
  mTime : T
  mValue : Nat

/-- Specialisation `Interpolator<unsigned int>`: the value written to `out`. -/
def Interpolator_unsigned {T : Type} [LinearOrderedField T] (a b : Nat) (d : T) : Nat :=
  if d > 0.5 then b else a

/-- Specialisation `Interpolator<aiMeshKey>`: the value written to `out`. -/
def Interpolator_aiMeshKey {T : Type} [LinearOrderedField T] (a b : aiMeshKey T) (d : T) : Nat :=
  Interpolator_unsigned a.mValue b.mValue d

/-! ## Partial operations made explicit -/

/-- Square root that fails on a negative argument. -/
def checkedSqrt {T : Type} [LinearOrderedField T] (sqrt : T → T) (x : T) : Option T :=
  if x < 0 then none else some (sqrt x)

/-- Division that fails on a zero divisor. -/
def checkedDiv {T : Type} [LinearOrderedField T] (a b : T) : Option T :=
  if b = 0 then none else some (a / b)

/-- The constructor `aiQuaterniont(const aiMatrix3x3t&)` with every square root and every
division checked: it returns `none` as soon as a negative number reaches `sqrt` or a
division has a zero divisor. -/
def aiQuaterniont.ofMatrixChecked {TReal : Type} [LinearOrderedField TReal]
    (sqrt : TReal → TReal) (pRotMatrix : aiMatrix3x3t TReal) : Option (aiQuaterniont TReal) :=
  let t := 1 + pRotMatrix.a1 + pRotMatrix.b2 + pRotMatrix.c3
  if t > 0.001 then do
    let r ← checkedSqrt sqrt t
    let s := r * 2
    let x ← checkedDiv (pRotMatrix.c2 - pRotMatrix.b3) s
    let y ← checkedDiv (pRotMatrix.a3 - pRotMatrix.c1) s
    let z ← checkedDiv (pRotMatrix.b1 - pRotMatrix.a2) s
    some { x := x, y := y, z := z, w := 0.25 * s }
  else if pRotMatrix.a1 > pRotMatrix.b2 ∧ pRotMatrix.a1 > pRotMatrix.c3 then do
    let r ← checkedSqrt sqrt (1 + pRotMatrix.a1 - pRotMatrix.b2 - pRotMatrix.c3)
    let s := r * 2
    let y ← checkedDiv (pRotMatrix.b1 + pRotMatrix.a2) s
    let z ← checkedDiv (pRotMatrix.a3 + pRotMatrix.c1) s
    let w ← checkedDiv (pRotMatrix.c2 - pRotMatrix.b3) s
    some { x := 0.25 * s, y := y, z := z, w := w }
  else if pRotMatrix.b2 > pRotMatrix.c3 then do
    let r ← checkedSqrt sqrt (1 + pRotMatrix.b2 - pRotMatrix.a1 - pRotMatrix.c3)
    let s := r * 2
    let x ← checkedDiv (pRotMatrix.b1 + pRotMatrix.a2) s
    let z ← checkedDiv (pRotMatrix.c2 + pRotMatrix.b3) s
    let w ← checkedDiv (pRotMatrix.a3 - pRotMatrix.c1) s
    some { x := x, y := 0.25 * s, z := z, w := w }
  else do
    let r ← checkedSqrt sqrt (1 + pRotMatrix.c3 - pRotMatrix.a1 - pRotMatrix.b2)
    let s := r * 2
    let x ← checkedDiv (pRotMatrix.a3 + pRotMatrix.c1) s
    let y ← checkedDiv (pRotMatrix.c2 + pRotMatrix.b3) s
    let w ← checkedDiv (pRotMatrix.b1 - pRotMatrix.a2) s
    some { x := x, y := y, z := 0.25 * s, w := w }

/-- The constructor `aiQuaterniont(aiVector3t normalized)` with its square root checked. -/
def aiQuaterniont.ofNormalizedChecked {TReal : Type} [LinearOrderedField TReal]
    (sqrt : TReal → TReal) (normalized : aiVector3t TReal) : Option (aiQuaterniont TReal) :=
  let x := normalized.x
  let y := normalized.y
  let z := normalized.z
  let t := 1 - (x*x) - (y*y) - (z*z)
  if t < 0 then
    some { x := x, y := y, z := z, w := 0 }
  else do
    let w ← checkedSqrt sqrt t
    some { x := x, y := y, z := z, w := w }

/-- The Mathlib quaternion `w + x i + y j + z k`. -/
def aiQuaterniont.toQuaternion {R : Type} [CommRing R] (q : aiQuaterniont R) : Quaternion R :=
  ⟨q.w, q.x, q.y, q.z⟩

/-- The squared norm `w^2 + x^2 + y^2 + z^2` of a quaternion. -/
def aiQuaterniont.normSq {R : Type} [CommRing R] (q : aiQuaterniont R) : R :=
  q.w ^ 2 + q.x ^ 2 + q.y ^ 2 + q.z ^ 2

/-! ## vector3.inl: transformation by a 4x4 matrix -/

/-- Operator `*` of a 4x4 matrix and a vector. -/
def aiMatrix4x4t.mulVec {TReal : Type} [CommRing TReal] (pMatrix : aiMatrix4x4t TReal)
    (pVector : aiVector3t TReal) : aiVector3t TReal :=
  { x := pMatrix.a1 * pVector.x + pMatrix.a2 * pVector.y + pMatrix.a3 * pVector.z + pMatrix.a4
    y := pMatrix.b1 * pVector.x + pMatrix.b2 * pVector.y + pMatrix.b3 * pVector.z + pMatrix.b4
    z := pMatrix.c1 * pVector.x + pMatrix.c2 * pVector.y + pMatrix.c3 * pVector.z + pMatrix.c4 }

/-- The matrix is affine: its bottom row `d1..d4` is `0, 0, 0, 1`. -/
def aiMatrix4x4t.IsAffine {TReal : Type} [CommRing TReal] (M : aiMatrix4x4t TReal) : Prop :=
  M.d1 = 0 ∧ M.d2 = 0 ∧ M.d3 = 0 ∧ M.d4 = 1

/-! ## Locals of `Decompose` and `Interpolate`, and their checked versions -/

/-- The local `m` of `Decompose`: the 3x3 matrix handed to the quaternion constructor. -/
def aiMatrix4x4t.Decompose_m {TReal : Type} [LinearOrderedField TReal] (sqrt : TReal → TReal)
    (M : aiMatrix4x4t TReal) : aiMatrix3x3t TReal :=
  let vRows0 := M.vRows 0
  let vRows1 := M.vRows 1
  let vRows2 := M.vRows 2
  let scaling : aiVector3t TReal := ⟨vRows0.Length sqrt, vRows1.Length sqrt, vRows2.Length sqrt⟩
  let scaling : aiVector3t TReal :=
    if M.Determinant < 0 then ⟨-scaling.x, -scaling.y, -scaling.z⟩ else scaling
  let vRows0 := if scaling.x ≠ 0 then vRows0.divAssign scaling.x else vRows0
  let vRows1 := if scaling.y ≠ 0 then vRows1.divAssign scaling.y else vRows1
  let vRows2 := if scaling.z ≠ 0 then vRows2.divAssign scaling.z else vRows2
  ⟨vRows0.x, vRows1.x, vRows2.x,
   vRows0.y, vRows1.y, vRows2.y,
   vRows0.z, vRows1.z, vRows2.z⟩

/-- Operator `/=` of a vector with a scalar, each of the three divisions checked. -/
def aiVector3t.checkedDivAssign {TReal : Type} [LinearOrderedField TReal] (v : aiVector3t TReal)
    (f : TReal) : Option (aiVector3t TReal) := do
  let x ← checkedDiv v.x f
  let y ← checkedDiv v.y f
  let z ← checkedDiv v.z f
  some ⟨x, y, z⟩

/-- Method `Decompose` with the divisions of the axis vectors by the scale components
checked: it returns `none` as soon as one of them has a zero divisor. -/
def aiMatrix4x4t.DecomposeChecked {TReal : Type} [LinearOrderedField TReal]
    (sqrt : TReal → TReal) (M : aiMatrix4x4t TReal) : Option (DecomposeResult TReal) := do
  let position : aiVector3t TReal := ⟨M.entry 0 3, M.entry 1 3, M.entry 2 3⟩
  let vRows0 := M.vRows 0
  let vRows1 := M.vRows 1
  let vRows2 := M.vRows 2
  let scaling : aiVector3t TReal := ⟨vRows0.Length sqrt, vRows1.Length sqrt, vRows2.Length sqrt⟩
  let scaling : aiVector3t TReal :=
    if M.Determinant < 0 then ⟨-scaling.x, -scaling.y, -scaling.z⟩ else scaling
  let vRows0 ← if scaling.x ≠ 0 then vRows0.checkedDivAssign scaling.x else some vRows0
  let vRows1 ← if scaling.y ≠ 0 then vRows1.checkedDivAssign scaling.y else some vRows1
  let vRows2 ← if scaling.z ≠ 0 then vRows2.checkedDivAssign scaling.z else some vRows2
  let m : aiMatrix3x3t TReal :=
    ⟨vRows0.x, vRows1.x, vRows2.x,
     vRows0.y, vRows1.y, vRows2.y,
     vRows0.z, vRows1.z, vRows2.z⟩
  some { scaling := scaling, rotation := aiQuaterniont.ofMatrix sqrt m, position := position }

/-- The local `cosom` of `Interpolate` after the sign adjustment. -/
def aiQuaterniont.Interpolate_cosom {TReal : Type} [LinearOrderedField TReal]
    (pStart pEnd : aiQuaterniont TReal) : TReal :=
  let cosom0 := pStart.x * pEnd.x + pStart.y * pEnd.y + pStart.z * pEnd.z + pStart.w * pEnd.w
  if cosom0 < 0 then -cosom0 else cosom0

/-- Arc cosine that fails outside `[-1, 1]`. -/
def checkedAcos {T : Type} [LinearOrderedField T] (acos : T → T) (x : T) : Option T :=
  if x < -1 ∨ 1 < x then none else some (acos x)

/-- Static `Interpolate` with the arc cosine and the two divisions checked: it returns
`none` as soon as `acos` gets an argument outside `[-1, 1]` or a division has a zero
divisor. The linear branch has no such operation. -/
def aiQuaterniont.InterpolateChecked {TReal : Type} [LinearOrderedField TReal]
    (acos sin : TReal → TReal) (pStart pEnd : aiQuaterniont TReal) (pFactor : TReal) :
    Option (aiQuaterniont TReal) :=
  let cosom0 := pStart.x * pEnd.x + pStart.y * pEnd.y + pStart.z * pEnd.z + pStart.w * pEnd.w
  let cosom := if cosom0 < 0 then -cosom0 else cosom0
  let endQ : aiQuaterniont TReal :=
    if cosom0 < 0 then { w := -pEnd.w, x := -pEnd.x, y := -pEnd.y, z := -pEnd.z } else pEnd
  if 1 - cosom > 0.0001 then do
    let omega ← checkedAcos acos cosom
    let sinom := sin omega
    let sclp ← checkedDiv (sin ((1 - pFactor) * omega)) sinom
    let sclq ← checkedDiv (sin (pFactor * omega)) sinom
    some { x := sclp * pStart.x + sclq * endQ.x
           y := sclp * pStart.y + sclq * endQ.y
           z := sclp * pStart.z + sclq * endQ.z
           w := sclp * pStart.w + sclq * endQ.w }
  else
    let sclp := 1 - pFactor
    let sclq := pFactor
    some { x := sclp * pStart.x + sclq * endQ.x
           y := sclp * pStart.y + sclq * endQ.y
           z := sclp * pStart.z + sclq * endQ.z
           w := sclp * pStart.w + sclq * endQ.w }

/-- The dot product of two vectors (operator `*` of `vector3.inl`). -/
def aiVector3t.dot {TReal : Type} [CommRing TReal] (v1 v2 : aiVector3t TReal) : TReal :=
  v1.x * v2.x + v1.y * v2.y + v1.z * v2.z

/-- The three rows of a 3x3 matrix as vectors. -/
def aiMatrix3x3t.row {TReal : Type} (m : aiMatrix3x3t TReal) : Fin 3 → aiVector3t TReal
  | 0 => ⟨m.a1, m.a2, m.a3⟩
  | 1 => ⟨m.b1, m.b2, m.b3⟩
  | 2 => ⟨m.c1, m.c2, m.c3⟩

/-- The three columns of a 3x3 matrix as vectors. -/
def aiMatrix3x3t.col {TReal : Type} (m : aiMatrix3x3t TReal) : Fin 3 → aiVector3t TReal
  | 0 => ⟨m.a1, m.b1, m.c1⟩
  | 1 => ⟨m.a2, m.b2, m.c2⟩
  | 2 => ⟨m.a3, m.b3, m.c3⟩

/-- The upper-left 3x3 block of a 4x4 matrix. -/
def aiMatrix4x4t.block3 {TReal : Type} (M : aiMatrix4x4t TReal) : aiMatrix3x3t TReal :=
  ⟨M.a1, M.a2, M.a3,
   M.b1, M.b2, M.b3,
   M.c1, M.c2, M.c3⟩

/-! ## Reading a matrix as a Mathlib matrix -/

/-- The matrix with rows `(a1..a4)`, `(b1..b4)`, `(c1..c4)`, `(d1..d4)`. -/
def toMatrix {R : Type} (M : aiMatrix4x4t R) : Matrix (Fin 4) (Fin 4) R :=
  !![M.a1, M.a2, M.a3, M.a4;
     M.b1, M.b2, M.b3, M.b4;
     M.c1, M.c2, M.c3, M.c4;
     M.d1, M.d2, M.d3, M.d4]

/-- Row `i` of a matrix (counted from 0), as a function of the column. -/
def row {R : Type} (M : aiMatrix4x4t R) (i : Fin 4) : Fin 4 → R :=
  fun k => M.entry i k

/-- Column `j` of a matrix (counted from 0), as a function of the row. -/
def col {R : Type} (M : aiMatrix4x4t R) (j : Fin 4) : Fin 4 → R :=
  fun k => M.entry k j

/-- The matrix all of whose sixteen entries are the quiet NaN. -/
def nanMatrix (R : Type) : aiMatrix4x4t (Option R) :=
  ⟨none, none, none, none,
   none, none, none, none,
   none, none, none, none,
   none, none, none, none⟩

/-! ## Theorems -/

open aiMatrix4x4t

/-- The hand-expanded determinant is the determinant of the matrix of rows. -/
theorem toMatrix_det {R : Type} [CommRing R] (M : aiMatrix4x4t R) :
    (toMatrix M).det = M.Determinant := by
  obtain ⟨a1, a2, a3, a4, b1, b2, b3, b4, c1, c2, c3, c4, d1, d2, d3, d4⟩ := M
  have h00 : (0 : Fin 4).succAbove (0 : Fin 3) = 1 := by decide
  have h01 : (0 : Fin 4).succAbove (1 : Fin 3) = 2 := by decide
  have h02 : (0 : Fin 4).succAbove (2 : Fin 3) = 3 := by decide
  have h10 : (1 : Fin 4).succAbove (0 : Fin 3) = 0 := by decide
  have h11 : (1 : Fin 4).succAbove (1 : Fin 3) = 2 := by decide
  have h12 : (1 : Fin 4).succAbove (2 : Fin 3) = 3 := by decide
  have h20 : (2 : Fin 4).succAbove (0 : Fin 3) = 0 := by decide
  have h21 : (2 : Fin 4).succAbove (1 : Fin 3) = 1 := by decide
  have h22 : (2 : Fin 4).succAbove (2 : Fin 3) = 3 := by decide
  have h30 : (3 : Fin 4).succAbove (0 : Fin 3) = 0 := by decide
  have h31 : (3 : Fin 4).succAbove (1 : Fin 3) = 1 := by decide
  have h32 : (3 : Fin 4).succAbove (2 : Fin 3) = 2 := by decide
  have s0 : Fin.succ (0 : Fin 3) = 1 := rfl
  have s1 : Fin.succ (1 : Fin 3) = 2 := rfl
  have s2 : Fin.succ (2 : Fin 3) = 3 := rfl
  have v3 : ((3 : Fin 4) : ℕ) = 3 := rfl
  simp only [toMatrix, Determinant]
  rw [Matrix.det_succ_row_zero]
  simp only [Fin.sum_univ_four, Matrix.det_fin_three, Matrix.submatrix_apply, h00, h01, h02,
    h10, h11, h12, h20, h21, h22, h30, h31, h32, s0, s1, s2]
  simp [v3, pow_succ]
  ring

/-- Operator `*` is the product of the matrices of rows, receiver on the left. -/
theorem toMatrix_mul {R : Type} [CommRing R] (A B : aiMatrix4x4t R) :
    toMatrix (A.mul B) = toMatrix A * toMatrix B := by
  obtain ⟨a1, a2, a3, a4, b1, b2, b3, b4, c1, c2, c3, c4, d1, d2, d3, d4⟩ := A
  ext i j
  fin_cases i <;> fin_cases j <;>
    simp [toMatrix, mul, mulAssign, Matrix.mul_apply, Fin.sum_univ_four] <;> ring

theorem toMatrix_identity {R : Type} [CommRing R] :
    toMatrix (identity : aiMatrix4x4t R) = 1 := by
  ext i j
  fin_cases i <;> fin_cases j <;> rfl

theorem toMatrix_injective {R : Type} {A B : aiMatrix4x4t R} (h : toMatrix A = toMatrix B) :
    A = B := by
  obtain ⟨a1, a2, a3, a4, b1, b2, b3, b4, c1, c2, c3, c4, d1, d2, d3, d4⟩ := A
  obtain ⟨x1, x2, x3, x4, y1, y2, y3, y4, z1, z2, z3, z4, w1, w2, w3, w4⟩ := B
  have e := fun i j => congrFun (congrFun h i) j
  have e00 := e 0 0; have e01 := e 0 1; have e02 := e 0 2; have e03 := e 0 3
  have e10 := e 1 0; have e11 := e 1 1; have e12 := e 1 2; have e13 := e 1 3
  have e20 := e 2 0; have e21 := e 2 1; have e22 := e 2 2; have e23 := e 2 3
  have e30 := e 3 0; have e31 := e 3 1; have e32 := e 3 2; have e33 := e 3 3
  simp [toMatrix] at e00 e01 e02 e03 e10 e11 e12 e13 e20 e21 e22 e23 e30 e31 e32 e33
  simp [*]

/-- For a non-zero determinant `Inverse()` writes sixteen ordinary scalars, and the
matrix they form is a two-sided inverse under operator `*`. -/
theorem Inverse_of_det_ne_zero {K : Type} [Field K] [DecidableEq K] (M : aiMatrix4x4t K)
    (h : M.Determinant ≠ 0) :
    ∃ N : aiMatrix4x4t K, M.Inverse = N.map some ∧ M.mul N = identity ∧ N.mul M = identity := by
  obtain ⟨a1, a2, a3, a4, b1, b2, b3, b4, c1, c2, c3, c4, d1, d2, d3, d4⟩ := M
  simp only [Inverse, if_neg h]
  refine ⟨_, rfl, ?_, ?_⟩
  all_goals
    have hmul : 1 / Determinant ⟨a1, a2, a3, a4, b1, b2, b3, b4, c1, c2, c3, c4, d1, d2, d3, d4⟩
        * Determinant ⟨a1, a2, a3, a4, b1, b2, b3, b4, c1, c2, c3, c4, d1, d2, d3, d4⟩ = 1 :=
      one_div_mul_cancel h
    generalize 1 / Determinant ⟨a1, a2, a3, a4, b1, b2, b3, b4, c1, c2, c3, c4, d1, d2, d3, d4⟩
      = invdet at hmul ⊢
    simp only [Determinant] at hmul
    simp only [mul, mulAssign, identity, aiMatrix4x4t.mk.injEq]
    refine ⟨?_, ?_, ?_, ?_, ?_, ?_, ?_, ?_, ?_, ?_, ?_, ?_, ?_, ?_, ?_, ?_⟩ <;>
      first
      | ring1
      | linear_combination hmul

/-- A matrix of ordinary scalars is never the all-NaN matrix. -/
theorem map_some_ne_nanMatrix {K : Type} (N : aiMatrix4x4t K) : N.map some ≠ nanMatrix K := by
  intro h
  have := congrArg aiMatrix4x4t.a1 h
  simp [aiMatrix4x4t.map, nanMatrix] at this

theorem Inverse_of_det_eq_zero {K : Type} [Field K] [DecidableEq K] (M : aiMatrix4x4t K)
    (h : M.Determinant = 0) : M.Inverse = nanMatrix K := by
  simp [Inverse, h, nanMatrix]

/-- Two matrices whose product under operator `*` is the identity have determinants
whose product is 1. -/
theorem det_mul_det_of_mul_eq_identity {R : Type} [CommRing R] (A B : aiMatrix4x4t R)
    (h : A.mul B = identity) : A.Determinant * B.Determinant = 1 := by
  have h1 := congrArg (fun X => (toMatrix X).det) h
  simp only [toMatrix_mul, Matrix.det_mul, toMatrix_identity, Matrix.det_one, toMatrix_det] at h1
  exact h1

/-! ### Inverse and determinant -/

/-- C1: for every matrix `M` over a field (the reals among them) whose `Determinant()`
is non-zero, `Inverse()` writes sixteen ordinary scalars, and the matrix `N` they form
satisfies `M * N = identity` and `N * M = identity` entry for entry, with the code's
operator `*`. -/
theorem Inverse_mul_eq_identity {K : Type} [Field K] [DecidableEq K] (M : aiMatrix4x4t K)
    (h : M.Determinant ≠ 0) :
    ∃ N : aiMatrix4x4t K, M.Inverse = N.map some ∧ M.mul N = identity ∧ N.mul M = identity :=
  Inverse_of_det_ne_zero M h

theorem Inverse_mul_eq_identity_witness :
    (⟨1, 2, 0, 0, 0, 1, 0, 3, 0, 0, 2, 0, 0, 0, 0, 1⟩ : aiMatrix4x4t ℚ).Determinant ≠ 0 ∧
    ∃ N : aiMatrix4x4t ℚ,
      (⟨1, 2, 0, 0, 0, 1, 0, 3, 0, 0, 2, 0, 0, 0, 0, 1⟩ : aiMatrix4x4t ℚ).Inverse = N.map some ∧
      (⟨1, 2, 0, 0, 0, 1, 0, 3, 0, 0, 2, 0, 0, 0, 0, 1⟩ : aiMatrix4x4t ℚ).mul N = identity ∧
      N.mul ⟨1, 2, 0, 0, 0, 1, 0, 3, 0, 0, 2, 0, 0, 0, 0, 1⟩ = identity :=
  ⟨by norm_num [Determinant], Inverse_mul_eq_identity _ (by norm_num [Determinant])⟩

/-- C2: for every matrix `M` over a field with non-zero `Determinant()`, the matrix `N`
written by `Inverse()` consists of ordinary scalars, has non-zero `Determinant()` again,
and `Inverse()` applied to `N` writes exactly `M`. -/
theorem Inverse_Inverse {K : Type} [Field K] [DecidableEq K] (M : aiMatrix4x4t K)
    (h : M.Determinant ≠ 0) :
    ∃ N : aiMatrix4x4t K,
      M.Inverse = N.map some ∧ N.Determinant ≠ 0 ∧ N.Inverse = M.map some := by
  obtain ⟨N, hN, hMN, hNM⟩ := Inverse_of_det_ne_zero M h
  have hdet : N.Determinant ≠ 0 := by
    intro h0
    have := det_mul_det_of_mul_eq_identity M N hMN
    rw [h0, mul_zero] at this
    exact zero_ne_one this
  obtain ⟨P, hP, hNP, -⟩ := Inverse_of_det_ne_zero N hdet
  have hPM : P = M := by
    apply toMatrix_injective
    have e1 : toMatrix M * toMatrix N = 1 := by rw [← toMatrix_mul, hMN, toMatrix_identity]
    have e2 : toMatrix N * toMatrix P = 1 := by rw [← toMatrix_mul, hNP, toMatrix_identity]
    calc toMatrix P = (toMatrix M * toMatrix N) * toMatrix P := by rw [e1, one_mul]
      _ = toMatrix M * (toMatrix N * toMatrix P) := by rw [mul_assoc]
      _ = toMatrix M := by rw [e2, mul_one]
  exact ⟨N, hN, hdet, by rw [hP, hPM]⟩

theorem Inverse_Inverse_witness :
    (⟨1, 2, 0, 0, 0, 1, 0, 3, 0, 0, 2, 0, 0, 0, 0, 1⟩ : aiMatrix4x4t ℚ).Determinant ≠ 0 ∧
    ∃ N : aiMatrix4x4t ℚ,
      (⟨1, 2, 0, 0, 0, 1, 0, 3, 0, 0, 2, 0, 0, 0, 0, 1⟩ : aiMatrix4x4t ℚ).Inverse = N.map some ∧
      N.Determinant ≠ 0 ∧
      N.Inverse = (⟨1, 2, 0, 0, 0, 1, 0, 3, 0, 0, 2, 0, 0, 0, 0, 1⟩ : aiMatrix4x4t ℚ).map some :=
  ⟨by norm_num [Determinant], Inverse_Inverse _ (by norm_num [Determinant])⟩

/-- C3: with the all-NaN matrix as the error result, `Inverse()` writes the all-NaN
matrix (every one of the sixteen entries the sentinel) if and only if `Determinant()`
is zero, and it writes a matrix of sixteen ordinary scalars if and only if
`Determinant()` is non-zero. -/
theorem Inverse_eq_nanMatrix_iff {K : Type} [Field K] [DecidableEq K] (M : aiMatrix4x4t K) :
    (M.Inverse = nanMatrix K ↔ M.Determinant = 0) ∧
    ((∃ N : aiMatrix4x4t K, M.Inverse = N.map some) ↔ M.Determinant ≠ 0) := by
  constructor
  · constructor
    · intro hnan
      by_contra hdet
      obtain ⟨N, hN, -, -⟩ := Inverse_of_det_ne_zero M hdet
      exact map_some_ne_nanMatrix N (hN ▸ hnan)
    · exact Inverse_of_det_eq_zero M
  · constructor
    · rintro ⟨N, hN⟩ hdet
      exact map_some_ne_nanMatrix N (hN ▸ Inverse_of_det_eq_zero M hdet)
    · intro hdet
      obtain ⟨N, hN, -, -⟩ := Inverse_of_det_ne_zero M hdet
      exact ⟨N, hN⟩

/-- C4: over every commutative ring, the 24-term expression returned by `Determinant()`
equals the (Leibniz) determinant of the matrix with rows `(a1..a4)`, `(b1..b4)`,
`(c1..c4)`, `(d1..d4)`. -/
theorem Determinant_eq_det {R : Type} [CommRing R] (M : aiMatrix4x4t R) :
    M.Determinant = Matrix.det !![M.a1, M.a2, M.a3, M.a4;
                                  M.b1, M.b2, M.b3, M.b4;
                                  M.c1, M.c2, M.c3, M.c4;
                                  M.d1, M.d2, M.d3, M.d4] :=
  (toMatrix_det M).symm

/-- C5: for every scaling vector `(sx, sy, sz)` the matrix written by `Scaling` has
`Determinant()` equal to `sx * sy * sz`, and the default-constructed matrix has
`Determinant()` equal to 1. -/
theorem Determinant_Scaling {R : Type} [CommRing R] (v : aiVector3t R) :
    (Scaling v).Determinant = v.x * v.y * v.z ∧ (identity : aiMatrix4x4t R).Determinant = 1 := by
  constructor
  · simp only [Scaling, identity, Determinant]
    ring
  · simp only [identity, Determinant]
    ring

/-- C6: for every real angle, the matrices written by `RotationX`, `RotationY` and
`RotationZ` (with the real cosine and sine) each have `Determinant()` equal to 1. -/
theorem Determinant_RotationXYZ (a : ℝ) :
    (RotationX Real.cos Real.sin a).Determinant = 1 ∧
    (RotationY Real.cos Real.sin a).Determinant = 1 ∧
    (RotationZ Real.cos Real.sin a).Determinant = 1 := by
  have h := Real.cos_sq_add_sin_sq a
  refine ⟨?_, ?_, ?_⟩
  · simp only [RotationX, identity, Determinant]
    linear_combination h
  · simp only [RotationY, identity, Determinant]
    linear_combination h
  · simp only [RotationZ, identity, Determinant]
    linear_combination h

/-! ### Composition -/

/-- C7, as stated, fails: with `A` the translation by `(1, 0, 0)` and `B` the uniform
scaling by 2, the entry in row 1, column 4 of `A *= B` is 1, while the dot product of
row 1 of `B` with column 4 of the original `A` is 2. -/
theorem mulAssign_entry_ne_row_right_dot_col_left :
    ((⟨1, 0, 0, 1, 0, 1, 0, 0, 0, 0, 1, 0, 0, 0, 0, 1⟩ : aiMatrix4x4t ℚ).mulAssign
        ⟨2, 0, 0, 0, 0, 2, 0, 0, 0, 0, 2, 0, 0, 0, 0, 1⟩).entry 0 3 = 1 ∧
    Matrix.dotProduct
        (row (⟨2, 0, 0, 0, 0, 2, 0, 0, 0, 0, 2, 0, 0, 0, 0, 1⟩ : aiMatrix4x4t ℚ) 0)
        (col (⟨1, 0, 0, 1, 0, 1, 0, 0, 0, 0, 1, 0, 0, 0, 0, 1⟩ : aiMatrix4x4t ℚ) 3) = 2 ∧
    ((⟨1, 0, 0, 1, 0, 1, 0, 0, 0, 0, 1, 0, 0, 0, 0, 1⟩ : aiMatrix4x4t ℚ).mulAssign
        ⟨2, 0, 0, 0, 0, 2, 0, 0, 0, 0, 2, 0, 0, 0, 0, 1⟩).entry 0 3 ≠
      Matrix.dotProduct
        (row (⟨2, 0, 0, 0, 0, 2, 0, 0, 0, 0, 2, 0, 0, 0, 0, 1⟩ : aiMatrix4x4t ℚ) 0)
        (col (⟨1, 0, 0, 1, 0, 1, 0, 0, 0, 0, 1, 0, 0, 0, 0, 1⟩ : aiMatrix4x4t ℚ) 3) := by
  refine ⟨?_, ?_, ?_⟩ <;>
    norm_num [mulAssign, entry, row, col, Matrix.dotProduct, Fin.sum_univ_four]

/-- C7, amended: for all matrices `A` and `B` over a commutative ring, after `A *= B`,
and likewise for the value of `A * B`, the entry in row `i`, column `j` of the result is
the dot product of row `i` of the original `A` with column `j` of `B`. -/
theorem mulAssign_entry_eq_row_left_dot_col_right {R : Type} [CommRing R]
    (A B : aiMatrix4x4t R) (i j : Fin 4) :
    (A.mulAssign B).entry i j = Matrix.dotProduct (row A i) (col B j) ∧
    (A.mul B).entry i j = Matrix.dotProduct (row A i) (col B j) := by
  obtain ⟨a1, a2, a3, a4, b1, b2, b3, b4, c1, c2, c3, c4, d1, d2, d3, d4⟩ := A
  fin_cases i <;> fin_cases j <;>
    simp [mul, mulAssign, entry, row, col, Matrix.dotProduct, Fin.sum_univ_four] <;>
    ring

/-! ### Decomposition of a translation-rotation-scaling product -/

/-- The product `Translation(t) * Rotation(a, axis) * Scaling(s)` entry by entry: the
rotation block with its columns scaled, the translation in the fourth column. -/
theorem TRS_eq {R : Type} [CommRing R] (cos sin : R → R) (t axis s : aiVector3t R) (a : R) :
    ((Translation t).mul (Rotation cos sin a axis)).mul (Scaling s) =
      ⟨(Rotation cos sin a axis).a1 * s.x, (Rotation cos sin a axis).a2 * s.y,
       (Rotation cos sin a axis).a3 * s.z, t.x,
       (Rotation cos sin a axis).b1 * s.x, (Rotation cos sin a axis).b2 * s.y,
       (Rotation cos sin a axis).b3 * s.z, t.y,
       (Rotation cos sin a axis).c1 * s.x, (Rotation cos sin a axis).c2 * s.y,
       (Rotation cos sin a axis).c3 * s.z, t.z,
       0, 0, 0, 1⟩ := by
  simp only [mul, mulAssign, Translation, Rotation, Scaling, identity, aiMatrix4x4t.mk.injEq]
  refine ⟨?_, ?_, ?_, ?_, ?_, ?_, ?_, ?_, ?_, ?_, ?_, ?_, ?_, ?_, ?_, ?_⟩ <;> ring

/-- The determinant of the product is the product of the three scale factors when the
axis has unit length. -/
theorem TRS_Determinant (t axis s : aiVector3t ℝ) (a : ℝ) (haxis : axis.SquareLength = 1) :
    (((Translation t).mul (Rotation Real.cos Real.sin a axis)).mul (Scaling s)).Determinant
      = s.x * s.y * s.z := by
  have hcs := Real.cos_sq_add_sin_sq a
  rw [TRS_eq]
  simp only [aiVector3t.SquareLength] at haxis
  simp only [Rotation, Determinant]
  obtain ⟨x, y, z⟩ := axis
  simp only at haxis ⊢
  generalize Real.cos a = c at hcs ⊢
  generalize Real.sin a = sn at hcs ⊢
  linear_combination
    (s.x * s.y * s.z) * ((sn ^ 2 + (1 - c) + (1 - c) * sn ^ 2 * (x * x + y * y + z * z - 1)) * haxis
      + (1 + (1 - c) * (x * x + y * y + z * z - 1)) * hcs)

/-- The columns of the rotation block written by `Rotation` have unit length when the
axis has unit length. -/
theorem Rotation_columns_unit (axis : aiVector3t ℝ) (a : ℝ) (haxis : axis.SquareLength = 1) :
    (Rotation Real.cos Real.sin a axis).a1 ^ 2 + (Rotation Real.cos Real.sin a axis).b1 ^ 2
        + (Rotation Real.cos Real.sin a axis).c1 ^ 2 = 1 ∧
    (Rotation Real.cos Real.sin a axis).a2 ^ 2 + (Rotation Real.cos Real.sin a axis).b2 ^ 2
        + (Rotation Real.cos Real.sin a axis).c2 ^ 2 = 1 ∧
    (Rotation Real.cos Real.sin a axis).a3 ^ 2 + (Rotation Real.cos Real.sin a axis).b3 ^ 2
        + (Rotation Real.cos Real.sin a axis).c3 ^ 2 = 1 := by
  have hcs := Real.cos_sq_add_sin_sq a
  simp only [aiVector3t.SquareLength] at haxis
  simp only [Rotation]
  obtain ⟨x, y, z⟩ := axis
  simp only at haxis ⊢
  generalize Real.cos a = c at hcs ⊢
  generalize Real.sin a = sn at hcs ⊢
  refine ⟨?_, ?_, ?_⟩
  · linear_combination ((1 - c) ^ 2 * x ^ 2 + sn ^ 2) * haxis + (1 - x ^ 2) * hcs
  · linear_combination ((1 - c) ^ 2 * y ^ 2 + sn ^ 2) * haxis + (1 - y ^ 2) * hcs
  · linear_combination ((1 - c) ^ 2 * z ^ 2 + sn ^ 2) * haxis + (1 - z ^ 2) * hcs

/-- A scaled unit column has the scale factor as its length. -/
theorem sqrt_scaled_column (p q r k : ℝ) (h : p ^ 2 + q ^ 2 + r ^ 2 = 1) (hk : 0 < k) :
    Real.sqrt (p * k * (p * k) + q * k * (q * k) + r * k * (r * k)) = k := by
  have e : p * k * (p * k) + q * k * (q * k) + r * k * (r * k) = k ^ 2 := by
    linear_combination k ^ 2 * h
  rw [e, Real.sqrt_sq hk.le]

/-- What `Decompose` returns on `Translation(t) * Rotation(a, axis) * Scaling(s)` for a
unit axis and positive scale factors: the scale, the quaternion of the rotation block,
the translation. -/
theorem Decompose_TRS (t axis s : aiVector3t ℝ) (a : ℝ) (haxis : axis.SquareLength = 1)
    (hsx : 0 < s.x) (hsy : 0 < s.y) (hsz : 0 < s.z) :
    Decompose Real.sqrt
        (((Translation t).mul (Rotation Real.cos Real.sin a axis)).mul (Scaling s)) =
      { scaling := s
        rotation := aiQuaterniont.ofMatrix Real.sqrt
          ⟨(Rotation Real.cos Real.sin a axis).a1, (Rotation Real.cos Real.sin a axis).a2,
           (Rotation Real.cos Real.sin a axis).a3,
           (Rotation Real.cos Real.sin a axis).b1, (Rotation Real.cos Real.sin a axis).b2,
           (Rotation Real.cos Real.sin a axis).b3,
           (Rotation Real.cos Real.sin a axis).c1, (Rotation Real.cos Real.sin a axis).c2,
           (Rotation Real.cos Real.sin a axis).c3⟩
        position := t } := by
  have hdet := TRS_Determinant t axis s a haxis
  have hpos : ¬ (((Translation t).mul (Rotation Real.cos Real.sin a axis)).mul
      (Scaling s)).Determinant < 0 := by
    rw [hdet]
    exact not_lt.mpr (by positivity)
  obtain ⟨h1, h2, h3⟩ := Rotation_columns_unit axis a haxis
  simp only [Decompose, if_neg hpos]
  rw [TRS_eq]
  generalize Rotation Real.cos Real.sin a axis = R at h1 h2 h3 ⊢
  simp only [vRows, entry, aiVector3t.Length, aiVector3t.SquareLength,
    sqrt_scaled_column _ _ _ _ h1 hsx, sqrt_scaled_column _ _ _ _ h2 hsy,
    sqrt_scaled_column _ _ _ _ h3 hsz, aiVector3t.divAssign]
  simp [hsx.ne', hsy.ne', hsz.ne']

/-! ### Quaternion of a rotation matrix -/

/-- Twice the square root of `(2 u)^2`. -/
theorem sqrt_mul_two_eq (u E : ℝ) (h : E = (2 * u) ^ 2) : Real.sqrt E * 2 = 4 * |u| := by
  rw [h, Real.sqrt_sq_eq_abs, abs_mul, abs_two]
  ring

/-- The matrix constructor undoes `GetMatrix()` up to sign on unit quaternions. -/
theorem ofMatrix_GetMatrix (q : aiQuaterniont ℝ)
    (hq : q.w ^ 2 + q.x ^ 2 + q.y ^ 2 + q.z ^ 2 = 1) :
    aiQuaterniont.ofMatrix Real.sqrt q.GetMatrix = q ∨
    aiQuaterniont.ofMatrix Real.sqrt q.GetMatrix = ⟨-q.w, -q.x, -q.y, -q.z⟩ := by
  obtain ⟨w, x, y, z⟩ := q
  simp only at hq
  simp only [aiQuaterniont.GetMatrix, aiQuaterniont.ofMatrix]
  split_ifs with h1 h2 h3
  · have hw : w ≠ 0 := by
      rintro rfl
      norm_num at h1
      linarith
    rw [sqrt_mul_two_eq w _ (by linear_combination (-4) * hq)]
    rcases lt_or_gt_of_ne hw with hneg | hpos
    · right
      rw [abs_of_neg hneg]
      simp only [aiQuaterniont.mk.injEq]
      refine ⟨?_, ?_, ?_, ?_⟩ <;> (field_simp; ring1)
    · left
      rw [abs_of_pos hpos]
      simp only [aiQuaterniont.mk.injEq]
      refine ⟨?_, ?_, ?_, ?_⟩ <;> first | (field_simp; ring1) | (norm_num; ring1)
  · have hx : x ≠ 0 := by
      rintro rfl
      nlinarith [h2.1, mul_self_nonneg y]
    rw [sqrt_mul_two_eq x _ (by ring)]
    rcases lt_or_gt_of_ne hx with hneg | hpos
    · right
      rw [abs_of_neg hneg]
      simp only [aiQuaterniont.mk.injEq]
      refine ⟨?_, ?_, ?_, ?_⟩ <;> (field_simp; ring1)
    · left
      rw [abs_of_pos hpos]
      simp only [aiQuaterniont.mk.injEq]
      refine ⟨?_, ?_, ?_, ?_⟩ <;> first | (field_simp; ring1) | (norm_num; ring1)
  · have hy : y ≠ 0 := by
      rintro rfl
      nlinarith [h3, mul_self_nonneg z]
    rw [sqrt_mul_two_eq y _ (by ring)]
    rcases lt_or_gt_of_ne hy with hneg | hpos
    · right
      rw [abs_of_neg hneg]
      simp only [aiQuaterniont.mk.injEq]
      refine ⟨?_, ?_, ?_, ?_⟩ <;> (field_simp; ring1)
    · left
      rw [abs_of_pos hpos]
      simp only [aiQuaterniont.mk.injEq]
      refine ⟨?_, ?_, ?_, ?_⟩ <;> first | (field_simp; ring1) | (norm_num; ring1)
  · have hz : z ≠ 0 := by
      rintro rfl
      have h1a := not_lt.mp h1
      have h3a := not_lt.mp h3
      norm_num at h1a
      rcases not_and_or.mp h2 with h | h
      · have h2a := not_lt.mp h
        nlinarith [mul_self_nonneg x, mul_self_nonneg y, mul_self_nonneg w]
      · have h2a := not_lt.mp h
        nlinarith [mul_self_nonneg x, mul_self_nonneg y, mul_self_nonneg w]
    rw [sqrt_mul_two_eq z _ (by ring)]
    rcases lt_or_gt_of_ne hz with hneg | hpos
    · right
      rw [abs_of_neg hneg]
      simp only [aiQuaterniont.mk.injEq]
      refine ⟨?_, ?_, ?_, ?_⟩ <;> (field_simp; ring1)
    · left
      rw [abs_of_pos hpos]
      simp only [aiQuaterniont.mk.injEq]
      refine ⟨?_, ?_, ?_, ?_⟩ <;> first | (field_simp; ring1) | (norm_num; ring1)

/-- The axis-angle quaternion of a unit axis, component by component. -/
theorem ofAxisAngle_unit (axis : aiVector3t ℝ) (a : ℝ) (haxis : axis.SquareLength = 1) :
    aiQuaterniont.ofAxisAngle Real.sqrt Real.cos Real.sin axis a =
      ⟨Real.cos (a / 2), axis.x * Real.sin (a / 2), axis.y * Real.sin (a / 2),
       axis.z * Real.sin (a / 2)⟩ := by
  simp only [aiQuaterniont.ofAxisAngle, aiVector3t.Normalize, aiVector3t.Length, haxis,
    Real.sqrt_one, aiVector3t.divAssign, div_one]

/-- For a unit axis, `GetMatrix()` of the axis-angle quaternion is the rotation block
written by `Rotation`. -/
theorem GetMatrix_ofAxisAngle (axis : aiVector3t ℝ) (a : ℝ) (haxis : axis.SquareLength = 1) :
    (aiQuaterniont.ofAxisAngle Real.sqrt Real.cos Real.sin axis a).GetMatrix =
      ⟨(Rotation Real.cos Real.sin a axis).a1, (Rotation Real.cos Real.sin a axis).a2,
       (Rotation Real.cos Real.sin a axis).a3,
       (Rotation Real.cos Real.sin a axis).b1, (Rotation Real.cos Real.sin a axis).b2,
       (Rotation Real.cos Real.sin a axis).b3,
       (Rotation Real.cos Real.sin a axis).c1, (Rotation Real.cos Real.sin a axis).c2,
       (Rotation Real.cos Real.sin a axis).c3⟩ := by
  have hc : Real.cos a = 1 - 2 * Real.sin (a / 2) ^ 2 := by
    have e1 := Real.cos_two_mul (a / 2)
    have e2 := Real.sin_sq_add_cos_sq (a / 2)
    rw [show 2 * (a / 2) = a by ring] at e1
    linarith
  have hs : Real.sin a = 2 * Real.sin (a / 2) * Real.cos (a / 2) := by
    have e1 := Real.sin_two_mul (a / 2)
    rwa [show 2 * (a / 2) = a by ring] at e1
  rw [ofAxisAngle_unit axis a haxis]
  simp only [aiVector3t.SquareLength] at haxis
  simp only [aiQuaterniont.GetMatrix, Rotation, hc, hs, aiMatrix3x3t.mk.injEq]
  refine ⟨?_, ?_, ?_, ?_, ?_, ?_, ?_, ?_, ?_⟩ <;>
    first
    | ring1
    | linear_combination (-2 * Real.sin (a / 2) ^ 2) * haxis

/-- The axis-angle quaternion of a unit axis has unit norm. -/
theorem ofAxisAngle_norm (axis : aiVector3t ℝ) (a : ℝ) (haxis : axis.SquareLength = 1) :
    (aiQuaterniont.ofAxisAngle Real.sqrt Real.cos Real.sin axis a).w ^ 2
      + (aiQuaterniont.ofAxisAngle Real.sqrt Real.cos Real.sin axis a).x ^ 2
      + (aiQuaterniont.ofAxisAngle Real.sqrt Real.cos Real.sin axis a).y ^ 2
      + (aiQuaterniont.ofAxisAngle Real.sqrt Real.cos Real.sin axis a).z ^ 2 = 1 := by
  have e := Real.sin_sq_add_cos_sq (a / 2)
  rw [ofAxisAngle_unit axis a haxis]
  simp only [aiVector3t.SquareLength] at haxis
  simp only
  linear_combination e + Real.sin (a / 2) ^ 2 * haxis

/-- A vector of length 1 has squared length 1. -/
theorem SquareLength_of_Length_eq_one (v : aiVector3t ℝ) (h : v.Length Real.sqrt = 1) :
    v.SquareLength = 1 := by
  simp only [aiVector3t.Length] at h
  exact Real.sqrt_eq_one.mp h

/-- C8: for every real vector `t`, every axis of length 1, every angle and every scale
vector `s` with three strictly positive components, `Decompose` applied to
`Translation(t) * Rotation(a, axis) * Scaling(s)` (the code's operator `*`, real
`cos`, `sin`, `sqrt`) returns `position = t` and `scaling = s`. -/
theorem Decompose_TRS_position_scaling (t axis s : aiVector3t ℝ) (a : ℝ)
    (haxis : axis.Length Real.sqrt = 1) (hsx : 0 < s.x) (hsy : 0 < s.y) (hsz : 0 < s.z) :
    (Decompose Real.sqrt
      (((Translation t).mul (Rotation Real.cos Real.sin a axis)).mul (Scaling s))).position = t ∧
    (Decompose Real.sqrt
      (((Translation t).mul (Rotation Real.cos Real.sin a axis)).mul (Scaling s))).scaling = s := by
  rw [Decompose_TRS t axis s a (SquareLength_of_Length_eq_one axis haxis) hsx hsy hsz]
  exact ⟨rfl, rfl⟩

/-- C9: for every real vector `t`, every axis of length 1, every angle and every scale
vector `s` with three strictly positive components, the quaternion returned by
`Decompose` on `Translation(t) * Rotation(a, axis) * Scaling(s)` is the axis-angle
quaternion `q = Quaternion(axis, a)` or its negation `-q`. -/
theorem Decompose_TRS_rotation (t axis s : aiVector3t ℝ) (a : ℝ)
    (haxis : axis.Length Real.sqrt = 1) (hsx : 0 < s.x) (hsy : 0 < s.y) (hsz : 0 < s.z) :
    (Decompose Real.sqrt
      (((Translation t).mul (Rotation Real.cos Real.sin a axis)).mul (Scaling s))).rotation
        = aiQuaterniont.ofAxisAngle Real.sqrt Real.cos Real.sin axis a ∨
    (Decompose Real.sqrt
      (((Translation t).mul (Rotation Real.cos Real.sin a axis)).mul (Scaling s))).rotation
        = ⟨-(aiQuaterniont.ofAxisAngle Real.sqrt Real.cos Real.sin axis a).w,
           -(aiQuaterniont.ofAxisAngle Real.sqrt Real.cos Real.sin axis a).x,
           -(aiQuaterniont.ofAxisAngle Real.sqrt Real.cos Real.sin axis a).y,
           -(aiQuaterniont.ofAxisAngle Real.sqrt Real.cos Real.sin axis a).z⟩ := by
  have hsq := SquareLength_of_Length_eq_one axis haxis
  rw [Decompose_TRS t axis s a hsq hsx hsy hsz]
  simp only
  rw [← GetMatrix_ofAxisAngle axis a hsq]
  exact ofMatrix_GetMatrix _ (ofAxisAngle_norm axis a hsq)

theorem Decompose_TRS_position_scaling_witness :
    (⟨0, 0, 1⟩ : aiVector3t ℝ).Length Real.sqrt = 1 ∧
    (0 : ℝ) < (⟨2, 3, 4⟩ : aiVector3t ℝ).x ∧
    (0 : ℝ) < (⟨2, 3, 4⟩ : aiVector3t ℝ).y ∧
    (0 : ℝ) < (⟨2, 3, 4⟩ : aiVector3t ℝ).z ∧
    (Decompose Real.sqrt
      (((Translation ⟨5, 6, 7⟩).mul (Rotation Real.cos Real.sin 1 ⟨0, 0, 1⟩)).mul
        (Scaling ⟨2, 3, 4⟩))).position = ⟨5, 6, 7⟩ ∧
    (Decompose Real.sqrt
      (((Translation ⟨5, 6, 7⟩).mul (Rotation Real.cos Real.sin 1 ⟨0, 0, 1⟩)).mul
        (Scaling ⟨2, 3, 4⟩))).scaling = ⟨2, 3, 4⟩ :=
  ⟨by norm_num [aiVector3t.Length, aiVector3t.SquareLength], by norm_num, by norm_num,
    by norm_num,
    Decompose_TRS_position_scaling ⟨5, 6, 7⟩ ⟨0, 0, 1⟩ ⟨2, 3, 4⟩ 1
      (by norm_num [aiVector3t.Length, aiVector3t.SquareLength])
      (by norm_num) (by norm_num) (by norm_num)⟩

theorem Decompose_TRS_rotation_witness :
    (⟨1, 0, 0⟩ : aiVector3t ℝ).Length Real.sqrt = 1 ∧
    (0 : ℝ) < (⟨1, 2, 3⟩ : aiVector3t ℝ).x ∧
    (0 : ℝ) < (⟨1, 2, 3⟩ : aiVector3t ℝ).y ∧
    (0 : ℝ) < (⟨1, 2, 3⟩ : aiVector3t ℝ).z ∧
    ((Decompose Real.sqrt
      (((Translation ⟨0, 1, 0⟩).mul (Rotation Real.cos Real.sin 3 ⟨1, 0, 0⟩)).mul
        (Scaling ⟨1, 2, 3⟩))).rotation
        = aiQuaterniont.ofAxisAngle Real.sqrt Real.cos Real.sin ⟨1, 0, 0⟩ 3 ∨
    (Decompose Real.sqrt
      (((Translation ⟨0, 1, 0⟩).mul (Rotation Real.cos Real.sin 3 ⟨1, 0, 0⟩)).mul
        (Scaling ⟨1, 2, 3⟩))).rotation
        = ⟨-(aiQuaterniont.ofAxisAngle Real.sqrt Real.cos Real.sin ⟨1, 0, 0⟩ 3).w,
           -(aiQuaterniont.ofAxisAngle Real.sqrt Real.cos Real.sin ⟨1, 0, 0⟩ 3).x,
           -(aiQuaterniont.ofAxisAngle Real.sqrt Real.cos Real.sin ⟨1, 0, 0⟩ 3).y,
           -(aiQuaterniont.ofAxisAngle Real.sqrt Real.cos Real.sin ⟨1, 0, 0⟩ 3).z⟩) :=
  ⟨by norm_num [aiVector3t.Length, aiVector3t.SquareLength], by norm_num, by norm_num,
    by norm_num,
    Decompose_TRS_rotation ⟨0, 1, 0⟩ ⟨1, 0, 0⟩ ⟨1, 2, 3⟩ 3
      (by norm_num [aiVector3t.Length, aiVector3t.SquareLength])
      (by norm_num) (by norm_num) (by norm_num)⟩

/-- C10: for every real matrix, with `vRows[0] = (a1, b1, c1)`, `vRows[1] = (a2, b2, c2)`,
`vRows[2] = (a3, b3, c3)` the three axis vectors `Decompose` measures: if
`Determinant() < 0` each returned scale component is the negated length of its axis
vector, hence `<= 0`; if `Determinant() >= 0` each is that length itself, hence
`>= 0`; so the three components are all `<= 0` or all `>= 0`. -/
theorem Decompose_scaling_sign (M : aiMatrix4x4t ℝ) :
    (M.Determinant < 0 →
      (Decompose Real.sqrt M).scaling =
        ⟨-(⟨M.a1, M.b1, M.c1⟩ : aiVector3t ℝ).Length Real.sqrt,
         -(⟨M.a2, M.b2, M.c2⟩ : aiVector3t ℝ).Length Real.sqrt,
         -(⟨M.a3, M.b3, M.c3⟩ : aiVector3t ℝ).Length Real.sqrt⟩ ∧
      (Decompose Real.sqrt M).scaling.x ≤ 0 ∧
      (Decompose Real.sqrt M).scaling.y ≤ 0 ∧
      (Decompose Real.sqrt M).scaling.z ≤ 0) ∧
    (0 ≤ M.Determinant →
      (Decompose Real.sqrt M).scaling =
        ⟨(⟨M.a1, M.b1, M.c1⟩ : aiVector3t ℝ).Length Real.sqrt,
         (⟨M.a2, M.b2, M.c2⟩ : aiVector3t ℝ).Length Real.sqrt,
         (⟨M.a3, M.b3, M.c3⟩ : aiVector3t ℝ).Length Real.sqrt⟩ ∧
      0 ≤ (Decompose Real.sqrt M).scaling.x ∧
      0 ≤ (Decompose Real.sqrt M).scaling.y ∧
      0 ≤ (Decompose Real.sqrt M).scaling.z) ∧
    (((Decompose Real.sqrt M).scaling.x ≤ 0 ∧ (Decompose Real.sqrt M).scaling.y ≤ 0 ∧
        (Decompose Real.sqrt M).scaling.z ≤ 0) ∨
      (0 ≤ (Decompose Real.sqrt M).scaling.x ∧ 0 ≤ (Decompose Real.sqrt M).scaling.y ∧
        0 ≤ (Decompose Real.sqrt M).scaling.z)) := by
  have neg : M.Determinant < 0 →
      (Decompose Real.sqrt M).scaling =
        ⟨-(⟨M.a1, M.b1, M.c1⟩ : aiVector3t ℝ).Length Real.sqrt,
         -(⟨M.a2, M.b2, M.c2⟩ : aiVector3t ℝ).Length Real.sqrt,
         -(⟨M.a3, M.b3, M.c3⟩ : aiVector3t ℝ).Length Real.sqrt⟩ ∧
      (Decompose Real.sqrt M).scaling.x ≤ 0 ∧
      (Decompose Real.sqrt M).scaling.y ≤ 0 ∧
      (Decompose Real.sqrt M).scaling.z ≤ 0 := by
    intro h
    simp only [Decompose, if_pos h, vRows, entry, aiVector3t.Length, Left.neg_nonpos_iff,
      Real.sqrt_nonneg, and_self]
  have pos : 0 ≤ M.Determinant →
      (Decompose Real.sqrt M).scaling =
        ⟨(⟨M.a1, M.b1, M.c1⟩ : aiVector3t ℝ).Length Real.sqrt,
         (⟨M.a2, M.b2, M.c2⟩ : aiVector3t ℝ).Length Real.sqrt,
         (⟨M.a3, M.b3, M.c3⟩ : aiVector3t ℝ).Length Real.sqrt⟩ ∧
      0 ≤ (Decompose Real.sqrt M).scaling.x ∧
      0 ≤ (Decompose Real.sqrt M).scaling.y ∧
      0 ≤ (Decompose Real.sqrt M).scaling.z := by
    intro h
    simp only [Decompose, if_neg (not_lt.mpr h), vRows, entry, aiVector3t.Length,
      Real.sqrt_nonneg, and_self]
  refine ⟨neg, pos, ?_⟩
  rcases lt_or_le M.Determinant 0 with h | h
  · exact Or.inl (neg h).2
  · exact Or.inr (pos h).2

theorem Decompose_scaling_sign_witness :
    (Decompose Real.sqrt
      (⟨-1, 0, 0, 0, 0, 1, 0, 0, 0, 0, 1, 0, 0, 0, 0, 1⟩ : aiMatrix4x4t ℝ)).scaling
        = ⟨-1, -1, -1⟩ ∧
    (Decompose Real.sqrt
      (⟨1, 0, 0, 0, 0, 1, 0, 0, 0, 0, 1, 0, 0, 0, 0, 1⟩ : aiMatrix4x4t ℝ)).scaling
        = ⟨1, 1, 1⟩ := by
  constructor
  · have h := ((Decompose_scaling_sign
      ⟨-1, 0, 0, 0, 0, 1, 0, 0, 0, 0, 1, 0, 0, 0, 0, 1⟩).1 (by norm_num [Determinant])).1
    rw [h]
    norm_num [aiVector3t.Length, aiVector3t.SquareLength]
  · have h := ((Decompose_scaling_sign
      ⟨1, 0, 0, 0, 0, 1, 0, 0, 0, 0, 1, 0, 0, 0, 0, 1⟩).2.1 (by norm_num [Determinant])).1
    rw [h]
    norm_num [aiVector3t.Length, aiVector3t.SquareLength]

/-! ### Quaternion round trip, rotation and interpolation -/

/-- C11: for every real unit quaternion `q` (`w^2 + x^2 + y^2 + z^2 = 1`), the quaternion
constructed from `q.GetMatrix()` is `q` or `-q`, whichever of the four branches of the
matrix constructor is taken. -/
theorem ofMatrix_GetMatrix_eq_or_neg (q : aiQuaterniont ℝ)
    (hq : q.w ^ 2 + q.x ^ 2 + q.y ^ 2 + q.z ^ 2 = 1) :
    aiQuaterniont.ofMatrix Real.sqrt q.GetMatrix = q ∨
    aiQuaterniont.ofMatrix Real.sqrt q.GetMatrix = q.negate :=
  ofMatrix_GetMatrix q hq

theorem ofMatrix_GetMatrix_eq_or_neg_witness :
    ((⟨0, 0, 0, 1⟩ : aiQuaterniont ℝ).w ^ 2 + (⟨0, 0, 0, 1⟩ : aiQuaterniont ℝ).x ^ 2
      + (⟨0, 0, 0, 1⟩ : aiQuaterniont ℝ).y ^ 2 + (⟨0, 0, 0, 1⟩ : aiQuaterniont ℝ).z ^ 2 = 1) ∧
    (aiQuaterniont.ofMatrix Real.sqrt (⟨0, 0, 0, 1⟩ : aiQuaterniont ℝ).GetMatrix = ⟨0, 0, 0, 1⟩ ∨
      aiQuaterniont.ofMatrix Real.sqrt (⟨0, 0, 0, 1⟩ : aiQuaterniont ℝ).GetMatrix
        = (⟨0, 0, 0, 1⟩ : aiQuaterniont ℝ).negate) :=
  ⟨by norm_num, ofMatrix_GetMatrix_eq_or_neg ⟨0, 0, 0, 1⟩ (by norm_num)⟩

/-- What `Rotate` computes: the vector part of `conjugate(q) * (0, v) * q`. -/
theorem Rotate_eq_conj_sandwich {R : Type} [CommRing R] (q : aiQuaterniont R)
    (v : aiVector3t R) :
    q.Rotate v = ((q.Conjugate.mul (aiQuaterniont.pure v)).mul q).vectorPart := rfl

/-- C12 at a failing input: for the unit quaternion `q = (w, x, y, z) = (3/5, 0, 0, 4/5)`
and `v = (1, 0, 0)`, `Rotate` returns `(-7/25, -24/25, 0)`, while the vector part of
`q * (0, v) * conjugate(q)` is `(-7/25, 24/25, 0)`, which is also `q.GetMatrix() * v`. -/
theorem Rotate_ne_sandwich_at_input :
    (⟨3/5, 0, 0, 4/5⟩ : aiQuaterniont ℚ).Rotate ⟨1, 0, 0⟩ = ⟨-7/25, -24/25, 0⟩ ∧
    (((⟨3/5, 0, 0, 4/5⟩ : aiQuaterniont ℚ).mul (aiQuaterniont.pure ⟨1, 0, 0⟩)).mul
        (⟨3/5, 0, 0, 4/5⟩ : aiQuaterniont ℚ).Conjugate).vectorPart = ⟨-7/25, 24/25, 0⟩ ∧
    (⟨3/5, 0, 0, 4/5⟩ : aiQuaterniont ℚ).GetMatrix.mulVec ⟨1, 0, 0⟩ = ⟨-7/25, 24/25, 0⟩ ∧
    (⟨3/5, 0, 0, 4/5⟩ : aiQuaterniont ℚ).Rotate ⟨1, 0, 0⟩ ≠
      (((⟨3/5, 0, 0, 4/5⟩ : aiQuaterniont ℚ).mul (aiQuaterniont.pure ⟨1, 0, 0⟩)).mul
        (⟨3/5, 0, 0, 4/5⟩ : aiQuaterniont ℚ).Conjugate).vectorPart := by
  refine ⟨?_, ?_, ?_, ?_⟩ <;>
    norm_num [aiQuaterniont.Rotate, aiQuaterniont.mul, aiQuaterniont.Conjugate,
      aiQuaterniont.pure, aiQuaterniont.vectorPart, aiQuaterniont.GetMatrix,
      aiMatrix3x3t.mulVec]

/-- In the slerp branch the divisor `sin(acos(cosom))` is not zero. -/
theorem sin_arccos_ne_zero (c : ℝ) (h0 : 0 ≤ c) (h1 : 1 - c > 0.0001) :
    Real.sin (Real.arccos c) ≠ 0 := by
  rw [Real.sin_arccos]
  apply ne_of_gt
  apply Real.sqrt_pos.mpr
  norm_num at h1
  nlinarith

/-- The cosine after the sign adjustment is not negative. -/
theorem adjusted_cosom_nonneg (c : ℝ) : 0 ≤ (if c < 0 then -c else c) := by
  split_ifs with h
  · linarith
  · exact not_lt.mp h

/-- What `Interpolate` writes at factor 1: the end quaternion after the sign adjustment. -/
theorem Interpolate_one (q1 q2 : aiQuaterniont ℝ) :
    aiQuaterniont.Interpolate Real.arccos Real.sin q1 q2 1 =
      if q1.x * q2.x + q1.y * q2.y + q1.z * q2.z + q1.w * q2.w < 0 then q2.negate else q2 := by
  obtain ⟨w2, x2, y2, z2⟩ := q2
  simp only [aiQuaterniont.Interpolate, aiQuaterniont.negate]
  have hc := adjusted_cosom_nonneg (q1.x * x2 + q1.y * y2 + q1.z * z2 + q1.w * w2)
  by_cases hs : 1 - (if q1.x * x2 + q1.y * y2 + q1.z * z2 + q1.w * w2 < 0
      then -(q1.x * x2 + q1.y * y2 + q1.z * z2 + q1.w * w2)
      else q1.x * x2 + q1.y * y2 + q1.z * z2 + q1.w * w2) > 0.0001
  · have hne := sin_arccos_ne_zero _ hc hs
    simp only [if_pos hs, sub_self, zero_mul, Real.sin_zero, zero_div, one_mul, div_self hne,
      zero_add]
  · simp only [if_neg hs, sub_self, zero_mul, one_mul, zero_add]

/-- C13, as stated, fails: for `q1 = (1, 0, 0, 0)` and `q2 = (-1, 0, 0, 0)` (components
`w, x, y, z`), `Interpolate(out, q1, q2, 1)` writes `(1, 0, 0, 0)`, which is not `q2`. -/
theorem Interpolate_one_ne_end :
    aiQuaterniont.Interpolate Real.arccos Real.sin ⟨1, 0, 0, 0⟩ ⟨-1, 0, 0, 0⟩ 1
      = ⟨1, 0, 0, 0⟩ ∧
    aiQuaterniont.Interpolate Real.arccos Real.sin ⟨1, 0, 0, 0⟩ ⟨-1, 0, 0, 0⟩ 1
      ≠ ⟨-1, 0, 0, 0⟩ := by
  have h : aiQuaterniont.Interpolate Real.arccos Real.sin ⟨1, 0, 0, 0⟩ ⟨-1, 0, 0, 0⟩ 1
      = ⟨1, 0, 0, 0⟩ := by
    rw [Interpolate_one]
    norm_num [aiQuaterniont.negate]
  refine ⟨h, ?_⟩
  rw [h]
  intro e
  have := congrArg aiQuaterniont.w e
  norm_num at this

/-- C13, amended: for all real quaternions `q1` and `q2`, `Interpolate(out, q1, q2, 1)`
writes `out == q2` when the dot product of `q1` and `q2` is not negative, and
`out == -q2` (all four components negated) when it is negative. -/
theorem Interpolate_one_eq_end_up_to_sign (q1 q2 : aiQuaterniont ℝ) :
    (0 ≤ q1.x * q2.x + q1.y * q2.y + q1.z * q2.z + q1.w * q2.w →
      aiQuaterniont.Interpolate Real.arccos Real.sin q1 q2 1 = q2) ∧
    (q1.x * q2.x + q1.y * q2.y + q1.z * q2.z + q1.w * q2.w < 0 →
      aiQuaterniont.Interpolate Real.arccos Real.sin q1 q2 1 = q2.negate) := by
  rw [Interpolate_one]
  constructor
  · intro h
    rw [if_neg (not_lt.mpr h)]
  · intro h
    rw [if_pos h]

/-- C14: for all real quaternions `q1` and `q2`, unit or not, `Interpolate(out, q1, q2, 0)`
writes `out == q1`, in the slerp branch and in the linear branch alike. -/
theorem Interpolate_zero (q1 q2 : aiQuaterniont ℝ) :
    aiQuaterniont.Interpolate Real.arccos Real.sin q1 q2 0 = q1 := by
  obtain ⟨w1, x1, y1, z1⟩ := q1
  simp only [aiQuaterniont.Interpolate]
  have hc := adjusted_cosom_nonneg (x1 * q2.x + y1 * q2.y + z1 * q2.z + w1 * q2.w)
  by_cases hs : 1 - (if x1 * q2.x + y1 * q2.y + z1 * q2.z + w1 * q2.w < 0
      then -(x1 * q2.x + y1 * q2.y + z1 * q2.z + w1 * q2.w)
      else x1 * q2.x + y1 * q2.y + z1 * q2.z + w1 * q2.w) > 0.0001
  · have hne := sin_arccos_ne_zero _ hc hs
    simp only [if_pos hs, sub_zero, zero_mul, Real.sin_zero, zero_div, one_mul, div_self hne,
      add_zero]
  · simp only [if_neg hs, sub_zero, zero_mul, one_mul, add_zero]

/-- C15: for every real unit quaternion `q`, `Interpolate(out, q, q, 0.5)` writes
`out == q`. -/
theorem Interpolate_self_half (q : aiQuaterniont ℝ)
    (hq : q.w ^ 2 + q.x ^ 2 + q.y ^ 2 + q.z ^ 2 = 1) :
    aiQuaterniont.Interpolate Real.arccos Real.sin q q 0.5 = q := by
  obtain ⟨w, x, y, z⟩ := q
  simp only at hq
  have hdot : x * x + y * y + z * z + w * w = 1 := by linear_combination hq
  simp only [aiQuaterniont.Interpolate, hdot]
  norm_num
  refine ⟨?_, ?_, ?_, ?_⟩ <;> ring

theorem Interpolate_self_half_witness :
    ((⟨3/5, 0, 4/5, 0⟩ : aiQuaterniont ℝ).w ^ 2 + (⟨3/5, 0, 4/5, 0⟩ : aiQuaterniont ℝ).x ^ 2
      + (⟨3/5, 0, 4/5, 0⟩ : aiQuaterniont ℝ).y ^ 2
      + (⟨3/5, 0, 4/5, 0⟩ : aiQuaterniont ℝ).z ^ 2 = 1) ∧
    aiQuaterniont.Interpolate Real.arccos Real.sin ⟨3/5, 0, 4/5, 0⟩ ⟨3/5, 0, 4/5, 0⟩ 0.5
      = ⟨3/5, 0, 4/5, 0⟩ :=
  ⟨by norm_num, Interpolate_self_half ⟨3/5, 0, 4/5, 0⟩ (by norm_num)⟩

/-! ### Axis-aligned boxes -/

/-- The distance returned by `IntersectAABB`, axis by axis. -/
theorem IntersectAABB_m_distance {K : Type} [LinearOrderedField K] (A B : AABB K) :
    (A.IntersectAABB B).m_distance =
      max (max
        (max (B.m_minExtents.x - A.m_maxExtents.x) (A.m_minExtents.x - B.m_maxExtents.x))
        (max (B.m_minExtents.y - A.m_maxExtents.y) (A.m_minExtents.y - B.m_maxExtents.y)))
        (max (B.m_minExtents.z - A.m_maxExtents.z) (A.m_minExtents.z - B.m_maxExtents.z)) :=
  rfl

/-- The flag returned by `IntersectAABB` is the test `distance < 0`. -/
theorem IntersectAABB_m_doesIntersect {K : Type} [LinearOrderedField K] (A B : AABB K) :
    (A.IntersectAABB B).m_doesIntersect = decide ((A.IntersectAABB B).m_distance < 0) :=
  rfl

/-- The returned distance is at most 0 exactly when the boxes overlap on every axis. -/
theorem IntersectAABB_m_distance_le_zero {K : Type} [LinearOrderedField K] (A B : AABB K) :
    (A.IntersectAABB B).m_distance ≤ 0 ↔
      (B.m_minExtents.x ≤ A.m_maxExtents.x ∧ A.m_minExtents.x ≤ B.m_maxExtents.x) ∧
      (B.m_minExtents.y ≤ A.m_maxExtents.y ∧ A.m_minExtents.y ≤ B.m_maxExtents.y) ∧
      (B.m_minExtents.z ≤ A.m_maxExtents.z ∧ A.m_minExtents.z ≤ B.m_maxExtents.z) := by
  rw [IntersectAABB_m_distance]
  simp only [max_le_iff, sub_nonpos]
  tauto

/-- Well-formed boxes share a point exactly when they overlap on every axis. -/
theorem exists_common_point_iff {K : Type} [LinearOrderedField K] (A B : AABB K)
    (hA : A.WellFormed) (hB : B.WellFormed) :
    (∃ p : Vector3f K, A.Contains p ∧ B.Contains p) ↔
      (B.m_minExtents.x ≤ A.m_maxExtents.x ∧ A.m_minExtents.x ≤ B.m_maxExtents.x) ∧
      (B.m_minExtents.y ≤ A.m_maxExtents.y ∧ A.m_minExtents.y ≤ B.m_maxExtents.y) ∧
      (B.m_minExtents.z ≤ A.m_maxExtents.z ∧ A.m_minExtents.z ≤ B.m_maxExtents.z) := by
  obtain ⟨hAx, hAy, hAz⟩ := hA
  obtain ⟨hBx, hBy, hBz⟩ := hB
  constructor
  · rintro ⟨p, ⟨⟨a1, a2⟩, ⟨a3, a4⟩, ⟨a5, a6⟩⟩, ⟨⟨b1, b2⟩, ⟨b3, b4⟩, ⟨b5, b6⟩⟩⟩
    exact ⟨⟨b1.trans a2, a1.trans b2⟩, ⟨b3.trans a4, a3.trans b4⟩, ⟨b5.trans a6, a5.trans b6⟩⟩
  · rintro ⟨⟨x1, x2⟩, ⟨y1, y2⟩, ⟨z1, z2⟩⟩
    refine ⟨⟨max A.m_minExtents.x B.m_minExtents.x, max A.m_minExtents.y B.m_minExtents.y,
      max A.m_minExtents.z B.m_minExtents.z⟩, ?_, ?_⟩
    · exact ⟨⟨le_max_left _ _, max_le hAx x1⟩, ⟨le_max_left _ _, max_le hAy y1⟩,
        ⟨le_max_left _ _, max_le hAz z1⟩⟩
    · exact ⟨⟨le_max_right _ _, max_le x2 hBx⟩, ⟨le_max_right _ _, max_le y2 hBy⟩,
        ⟨le_max_right _ _, max_le z2 hBz⟩⟩

/-- C16: for every pair of boxes over an ordered field, the distance returned by
`IntersectAABB` is the maximum over the three axes `i` of
`max(other.min_i - this.max_i, this.min_i - other.max_i)`, and `doesIntersect` is the
test `distance < 0`. -/
theorem IntersectAABB_eq_max_gap {K : Type} [LinearOrderedField K] (A B : AABB K) :
    (A.IntersectAABB B).m_distance =
      max (max
        (max (B.m_minExtents.x - A.m_maxExtents.x) (A.m_minExtents.x - B.m_maxExtents.x))
        (max (B.m_minExtents.y - A.m_maxExtents.y) (A.m_minExtents.y - B.m_maxExtents.y)))
        (max (B.m_minExtents.z - A.m_maxExtents.z) (A.m_minExtents.z - B.m_maxExtents.z)) ∧
    (A.IntersectAABB B).m_doesIntersect = decide ((A.IntersectAABB B).m_distance < 0) :=
  ⟨IntersectAABB_m_distance A B, IntersectAABB_m_doesIntersect A B⟩

theorem IntersectAABB_eq_max_gap_witness :
    (AABB.IntersectAABB (⟨⟨0, 0, 0⟩, ⟨1, 1, 1⟩⟩ : AABB ℚ) ⟨⟨2, 0, 0⟩, ⟨3, 1, 1⟩⟩ = ⟨false, 1⟩) ∧
    (AABB.IntersectAABB (⟨⟨0, 0, 0⟩, ⟨1, 1, 1⟩⟩ : AABB ℚ) ⟨⟨1/2, 0, 0⟩, ⟨3/2, 1, 1⟩⟩
      = ⟨true, -1/2⟩) := by
  constructor
  · have h := IntersectAABB_eq_max_gap (⟨⟨0, 0, 0⟩, ⟨1, 1, 1⟩⟩ : AABB ℚ) ⟨⟨2, 0, 0⟩, ⟨3, 1, 1⟩⟩
    have hd : (AABB.IntersectAABB (⟨⟨0, 0, 0⟩, ⟨1, 1, 1⟩⟩ : AABB ℚ)
        ⟨⟨2, 0, 0⟩, ⟨3, 1, 1⟩⟩).m_distance = 1 := by
      rw [h.1]
      norm_num
    have hb := h.2
    rw [hd] at hb
    rw [IntersectData.mk.injEq]
    exact ⟨by rw [hb]; norm_num, hd⟩
  · have h := IntersectAABB_eq_max_gap (⟨⟨0, 0, 0⟩, ⟨1, 1, 1⟩⟩ : AABB ℚ)
      ⟨⟨1/2, 0, 0⟩, ⟨3/2, 1, 1⟩⟩
    have hd : (AABB.IntersectAABB (⟨⟨0, 0, 0⟩, ⟨1, 1, 1⟩⟩ : AABB ℚ)
        ⟨⟨1/2, 0, 0⟩, ⟨3/2, 1, 1⟩⟩).m_distance = -1/2 := by
      rw [h.1]
      norm_num
    have hb := h.2
    rw [hd] at hb
    rw [IntersectData.mk.injEq]
    exact ⟨by rw [hb]; norm_num, hd⟩

/-- C17: for all well-formed boxes `A` and `B` (`min <= max` on every axis) over an ordered
field, the distance returned by `IntersectAABB` is `<= 0` if and only if the closed boxes
have a common point; hence `doesIntersect == true` implies that a common point exists,
and boxes without a common point are reported with `doesIntersect == false` and
`distance > 0`. -/
theorem IntersectAABB_sound {K : Type} [LinearOrderedField K] (A B : AABB K)
    (hA : A.WellFormed) (hB : B.WellFormed) :
    ((A.IntersectAABB B).m_distance ≤ 0 ↔ ∃ p : Vector3f K, A.Contains p ∧ B.Contains p) ∧
    ((A.IntersectAABB B).m_doesIntersect = true →
      ∃ p : Vector3f K, A.Contains p ∧ B.Contains p) ∧
    ((¬ ∃ p : Vector3f K, A.Contains p ∧ B.Contains p) →
      (A.IntersectAABB B).m_doesIntersect = false ∧ 0 < (A.IntersectAABB B).m_distance) := by
  have key : (A.IntersectAABB B).m_distance ≤ 0 ↔
      ∃ p : Vector3f K, A.Contains p ∧ B.Contains p := by
    rw [IntersectAABB_m_distance_le_zero, exists_common_point_iff A B hA hB]
  refine ⟨key, ?_, ?_⟩
  · intro h
    rw [IntersectAABB_m_doesIntersect, decide_eq_true_eq] at h
    exact key.mp h.le
  · intro h
    have hpos : 0 < (A.IntersectAABB B).m_distance := not_le.mp (fun hle => h (key.mp hle))
    refine ⟨?_, hpos⟩
    rw [IntersectAABB_m_doesIntersect, decide_eq_false_iff_not]
    exact not_lt.mpr hpos.le

theorem IntersectAABB_sound_witness :
    (⟨⟨0, 0, 0⟩, ⟨1, 1, 1⟩⟩ : AABB ℚ).WellFormed ∧
    (⟨⟨1, 1, 1⟩, ⟨3, 2, 2⟩⟩ : AABB ℚ).WellFormed ∧
    ((AABB.IntersectAABB (⟨⟨0, 0, 0⟩, ⟨1, 1, 1⟩⟩ : AABB ℚ) ⟨⟨1, 1, 1⟩, ⟨3, 2, 2⟩⟩).m_distance ≤ 0 ↔
      ∃ p : Vector3f ℚ, (⟨⟨0, 0, 0⟩, ⟨1, 1, 1⟩⟩ : AABB ℚ).Contains p ∧
        (⟨⟨1, 1, 1⟩, ⟨3, 2, 2⟩⟩ : AABB ℚ).Contains p) :=
  ⟨by norm_num [AABB.WellFormed], by norm_num [AABB.WellFormed],
    (IntersectAABB_sound _ _ (by norm_num [AABB.WellFormed])
      (by norm_num [AABB.WellFormed])).1⟩

/-! ### Bounding spheres -/

/-- The distance returned by `IntersectBoundingSphere`. -/
theorem IntersectBoundingSphere_m_distance (S1 S2 : BoundingSphere ℝ) :
    (S1.IntersectBoundingSphere Real.sqrt S2).m_distance =
      Real.sqrt ((S2.m_center.x - S1.m_center.x) * (S2.m_center.x - S1.m_center.x)
        + (S2.m_center.y - S1.m_center.y) * (S2.m_center.y - S1.m_center.y)
        + (S2.m_center.z - S1.m_center.z) * (S2.m_center.z - S1.m_center.z))
      - (S1.m_radius + S2.m_radius) :=
  rfl

/-- The flag returned by `IntersectBoundingSphere` is the test `distance < 0`. -/
theorem IntersectBoundingSphere_m_doesIntersect (S1 S2 : BoundingSphere ℝ) :
    (S1.IntersectBoundingSphere Real.sqrt S2).m_doesIntersect =
      decide ((S1.IntersectBoundingSphere Real.sqrt S2).m_distance < 0) :=
  rfl

/-- C18: for every pair of real spheres, the distance returned by
`IntersectBoundingSphere` is the Euclidean length of `other.center - this.center` minus
`this.radius + other.radius`, and `doesIntersect` is the test `distance < 0`. -/
theorem IntersectBoundingSphere_eq (S1 S2 : BoundingSphere ℝ) :
    (S1.IntersectBoundingSphere Real.sqrt S2).m_distance =
      Real.sqrt ((S2.m_center.x - S1.m_center.x) ^ 2 + (S2.m_center.y - S1.m_center.y) ^ 2
        + (S2.m_center.z - S1.m_center.z) ^ 2)
      - (S1.m_radius + S2.m_radius) ∧
    (S1.IntersectBoundingSphere Real.sqrt S2).m_doesIntersect =
      decide ((S1.IntersectBoundingSphere Real.sqrt S2).m_distance < 0) := by
  refine ⟨?_, IntersectBoundingSphere_m_doesIntersect S1 S2⟩
  rw [IntersectBoundingSphere_m_distance]
  simp only [sq]

theorem IntersectBoundingSphere_eq_witness :
    (BoundingSphere.IntersectBoundingSphere Real.sqrt (⟨⟨0, 0, 0⟩, 1⟩ : BoundingSphere ℝ)
        ⟨⟨3, 0, 0⟩, 1⟩ = ⟨false, 1⟩) ∧
    (BoundingSphere.IntersectBoundingSphere Real.sqrt (⟨⟨0, 0, 0⟩, 1⟩ : BoundingSphere ℝ)
        ⟨⟨3/2, 0, 0⟩, 1⟩ = ⟨true, -1/2⟩) := by
  constructor
  · have h := IntersectBoundingSphere_eq (⟨⟨0, 0, 0⟩, 1⟩ : BoundingSphere ℝ) ⟨⟨3, 0, 0⟩, 1⟩
    have hd : (BoundingSphere.IntersectBoundingSphere Real.sqrt
        (⟨⟨0, 0, 0⟩, 1⟩ : BoundingSphere ℝ) ⟨⟨3, 0, 0⟩, 1⟩).m_distance = 1 := by
      rw [h.1]
      have e : ((3 : ℝ) - 0) ^ 2 + (0 - 0) ^ 2 + (0 - 0) ^ 2 = 3 ^ 2 := by norm_num
      rw [e, Real.sqrt_sq (by norm_num)]
      norm_num
    have hb := h.2
    rw [hd] at hb
    rw [IntersectData.mk.injEq]
    exact ⟨by rw [hb]; norm_num, hd⟩
  · have h := IntersectBoundingSphere_eq (⟨⟨0, 0, 0⟩, 1⟩ : BoundingSphere ℝ) ⟨⟨3/2, 0, 0⟩, 1⟩
    have hd : (BoundingSphere.IntersectBoundingSphere Real.sqrt
        (⟨⟨0, 0, 0⟩, 1⟩ : BoundingSphere ℝ) ⟨⟨3/2, 0, 0⟩, 1⟩).m_distance = -1/2 := by
      rw [h.1]
      have e : ((3/2 : ℝ) - 0) ^ 2 + (0 - 0) ^ 2 + (0 - 0) ^ 2 = (3/2) ^ 2 := by norm_num
      rw [e, Real.sqrt_sq (by norm_num)]
      norm_num
    have hb := h.2
    rw [hd] at hb
    rw [IntersectData.mk.injEq]
    exact ⟨by rw [hb]; norm_num, hd⟩

/-- The triangle inequality for the Euclidean length of a difference. -/
theorem sqrt_sub_le (a1 a2 a3 b1 b2 b3 : ℝ) :
    Real.sqrt ((a1 - b1) * (a1 - b1) + (a2 - b2) * (a2 - b2) + (a3 - b3) * (a3 - b3)) ≤
      Real.sqrt (a1 * a1 + a2 * a2 + a3 * a3) + Real.sqrt (b1 * b1 + b2 * b2 + b3 * b3) := by
  have hA0 := Real.sqrt_nonneg (a1 * a1 + a2 * a2 + a3 * a3)
  have hB0 := Real.sqrt_nonneg (b1 * b1 + b2 * b2 + b3 * b3)
  have hA2 : Real.sqrt (a1 * a1 + a2 * a2 + a3 * a3) ^ 2 = a1 * a1 + a2 * a2 + a3 * a3 :=
    Real.sq_sqrt (by nlinarith [mul_self_nonneg a1, mul_self_nonneg a2, mul_self_nonneg a3])
  have hB2 : Real.sqrt (b1 * b1 + b2 * b2 + b3 * b3) ^ 2 = b1 * b1 + b2 * b2 + b3 * b3 :=
    Real.sq_sqrt (by nlinarith [mul_self_nonneg b1, mul_self_nonneg b2, mul_self_nonneg b3])
  have cs : (a1 * b1 + a2 * b2 + a3 * b3) ^ 2 ≤
      (Real.sqrt (a1 * a1 + a2 * a2 + a3 * a3) * Real.sqrt (b1 * b1 + b2 * b2 + b3 * b3)) ^ 2 := by
    rw [mul_pow, hA2, hB2]
    nlinarith [sq_nonneg (a1 * b2 - a2 * b1), sq_nonneg (a1 * b3 - a3 * b1),
      sq_nonneg (a2 * b3 - a3 * b2)]
  have hab := abs_le_of_sq_le_sq' cs (mul_nonneg hA0 hB0)
  rw [Real.sqrt_le_left (add_nonneg hA0 hB0)]
  nlinarith [hab.1, hA2, hB2]

/-- The Euclidean length scales with a non-negative factor. -/
theorem sqrt_scale (k u1 u2 u3 E : ℝ) (hk : 0 ≤ k)
    (hE : E = k ^ 2 * (u1 * u1 + u2 * u2 + u3 * u3)) :
    Real.sqrt E = k * Real.sqrt (u1 * u1 + u2 * u2 + u3 * u3) := by
  rw [hE, Real.sqrt_mul (sq_nonneg k), Real.sqrt_sq hk]

/-- Two balls around `c1` and `c2` share a point within the radii `r1`, `r2` (strictly or
not) only if the centres are that close. -/
theorem center_distance_le (p c1 c2 : Vector3f ℝ) :
    Real.sqrt ((c2.x - c1.x) * (c2.x - c1.x) + (c2.y - c1.y) * (c2.y - c1.y)
        + (c2.z - c1.z) * (c2.z - c1.z)) ≤
      Vector3f.dist Real.sqrt p c1 + Vector3f.dist Real.sqrt p c2 := by
  have h := sqrt_sub_le (p.x - c1.x) (p.y - c1.y) (p.z - c1.z) (p.x - c2.x) (p.y - c2.y)
    (p.z - c2.z)
  simp only [Vector3f.dist, Vector3f.sub, Vector3f.Length]
  have e : (c2.x - c1.x) * (c2.x - c1.x) + (c2.y - c1.y) * (c2.y - c1.y)
        + (c2.z - c1.z) * (c2.z - c1.z) =
      (p.x - c1.x - (p.x - c2.x)) * (p.x - c1.x - (p.x - c2.x))
        + (p.y - c1.y - (p.y - c2.y)) * (p.y - c1.y - (p.y - c2.y))
        + (p.z - c1.z - (p.z - c2.z)) * (p.z - c1.z - (p.z - c2.z)) := by ring
  rw [e]
  exact h

/-- The point at fraction `k` of the segment from `c1` to `c2` is at distance `k d` from
`c1` and `(1 - k) d` from `c2`, with `d` the distance of the centres. -/
theorem segment_point_dist (c1 c2 : Vector3f ℝ) (k : ℝ) (hk0 : 0 ≤ k) (hk1 : k ≤ 1) :
    Vector3f.dist Real.sqrt
        ⟨c1.x + k * (c2.x - c1.x), c1.y + k * (c2.y - c1.y), c1.z + k * (c2.z - c1.z)⟩ c1 =
      k * Real.sqrt ((c2.x - c1.x) * (c2.x - c1.x) + (c2.y - c1.y) * (c2.y - c1.y)
        + (c2.z - c1.z) * (c2.z - c1.z)) ∧
    Vector3f.dist Real.sqrt
        ⟨c1.x + k * (c2.x - c1.x), c1.y + k * (c2.y - c1.y), c1.z + k * (c2.z - c1.z)⟩ c2 =
      (1 - k) * Real.sqrt ((c2.x - c1.x) * (c2.x - c1.x) + (c2.y - c1.y) * (c2.y - c1.y)
        + (c2.z - c1.z) * (c2.z - c1.z)) := by
  simp only [Vector3f.dist, Vector3f.sub, Vector3f.Length]
  constructor
  · exact sqrt_scale k _ _ _ _ hk0 (by ring)
  · exact sqrt_scale (1 - k) _ _ _ _ (by linarith) (by ring)

/-- For radii with positive sum there is a point on the segment of the centres whose
distances from the centres are the radii's shares of the centre distance. -/
theorem exists_segment_point (c1 c2 : Vector3f ℝ) (r1 r2 : ℝ) (h1 : 0 ≤ r1) (h2 : 0 ≤ r2)
    (hpos : 0 < r1 + r2) :
    ∃ p : Vector3f ℝ,
      Vector3f.dist Real.sqrt p c1 =
        r1 / (r1 + r2) * Real.sqrt ((c2.x - c1.x) * (c2.x - c1.x)
          + (c2.y - c1.y) * (c2.y - c1.y) + (c2.z - c1.z) * (c2.z - c1.z)) ∧
      Vector3f.dist Real.sqrt p c2 =
        r2 / (r1 + r2) * Real.sqrt ((c2.x - c1.x) * (c2.x - c1.x)
          + (c2.y - c1.y) * (c2.y - c1.y) + (c2.z - c1.z) * (c2.z - c1.z)) := by
  have hk0 : 0 ≤ r1 / (r1 + r2) := div_nonneg h1 hpos.le
  have hk1 : r1 / (r1 + r2) ≤ 1 := by
    rw [div_le_one hpos]
    linarith
  obtain ⟨e1, e2⟩ := segment_point_dist c1 c2 (r1 / (r1 + r2)) hk0 hk1
  have hk : 1 - r1 / (r1 + r2) = r2 / (r1 + r2) := by
    field_simp
  rw [hk] at e2
  exact ⟨_, e1, e2⟩

/-- A share `r / s` of a length below `s` is below `r`, for positive `r`. -/
theorem share_lt (r s d : ℝ) (hr : 0 < r) (hs : 0 < s) (hd : d < s) : r / s * d < r := by
  calc r / s * d < r / s * s := mul_lt_mul_of_pos_left hd (div_pos hr hs)
    _ = r := div_mul_cancel₀ r hs.ne'

/-- A share `r / s` of a length at most `s` is at most `r`, for non-negative `r`. -/
theorem share_le (r s d : ℝ) (hr : 0 ≤ r) (hs : 0 < s) (hd : d ≤ s) : r / s * d ≤ r := by
  calc r / s * d ≤ r / s * s := mul_le_mul_of_nonneg_left hd (div_nonneg hr hs.le)
    _ = r := div_mul_cancel₀ r hs.ne'

/-- C19: for all real spheres, (1) if both radii are strictly positive, `doesIntersect`
is true if and only if some point `p` lies strictly inside both spheres
(`|p - c1| < r1` and `|p - c2| < r2`); (2) if both radii are `>= 0`, the returned
distance is `<= 0` if and only if the two closed balls have a common point. -/
theorem IntersectBoundingSphere_sound (S1 S2 : BoundingSphere ℝ) :
    (0 < S1.m_radius → 0 < S2.m_radius →
      ((S1.IntersectBoundingSphere Real.sqrt S2).m_doesIntersect = true ↔
        ∃ p : Vector3f ℝ, Vector3f.dist Real.sqrt p S1.m_center < S1.m_radius ∧
          Vector3f.dist Real.sqrt p S2.m_center < S2.m_radius)) ∧
    (0 ≤ S1.m_radius → 0 ≤ S2.m_radius →
      ((S1.IntersectBoundingSphere Real.sqrt S2).m_distance ≤ 0 ↔
        ∃ p : Vector3f ℝ, Vector3f.dist Real.sqrt p S1.m_center ≤ S1.m_radius ∧
          Vector3f.dist Real.sqrt p S2.m_center ≤ S2.m_radius)) := by
  obtain ⟨c1, r1⟩ := S1
  obtain ⟨c2, r2⟩ := S2
  simp only [IntersectBoundingSphere_m_doesIntersect, decide_eq_true_eq,
    IntersectBoundingSphere_m_distance]
  constructor
  · intro h1 h2
    constructor
    · intro hd
      obtain ⟨p, e1, e2⟩ := exists_segment_point c1 c2 r1 r2 h1.le h2.le (by linarith)
      refine ⟨p, ?_, ?_⟩
      · rw [e1]
        exact share_lt r1 (r1 + r2) _ h1 (by linarith) (by linarith)
      · rw [e2]
        exact share_lt r2 (r1 + r2) _ h2 (by linarith) (by linarith)
    · rintro ⟨p, hp1, hp2⟩
      have := center_distance_le p c1 c2
      linarith
  · intro h1 h2
    constructor
    · intro hd
      rcases (add_nonneg h1 h2).eq_or_lt with h0 | hpos
      · have hr1 : r1 = 0 := by linarith
        have hr2 : r2 = 0 := by linarith
        have hsq := Real.sqrt_nonneg ((c2.x - c1.x) * (c2.x - c1.x)
          + (c2.y - c1.y) * (c2.y - c1.y) + (c2.z - c1.z) * (c2.z - c1.z))
        obtain ⟨e1, e2⟩ := segment_point_dist c1 c2 0 le_rfl zero_le_one
        exact ⟨_, by rw [e1]; linarith, by rw [e2]; linarith⟩
      · obtain ⟨p, e1, e2⟩ := exists_segment_point c1 c2 r1 r2 h1 h2 hpos
        refine ⟨p, ?_, ?_⟩
        · rw [e1]
          exact share_le r1 (r1 + r2) _ h1 hpos (by linarith)
        · rw [e2]
          exact share_le r2 (r1 + r2) _ h2 hpos (by linarith)
    · rintro ⟨p, hp1, hp2⟩
      have := center_distance_le p c1 c2
      linarith

theorem IntersectBoundingSphere_sound_witness :
    ((BoundingSphere.IntersectBoundingSphere Real.sqrt (⟨⟨0, 0, 0⟩, 1⟩ : BoundingSphere ℝ)
        ⟨⟨3, 0, 0⟩, 1⟩).m_doesIntersect = true ↔
      ∃ p : Vector3f ℝ, Vector3f.dist Real.sqrt p ⟨0, 0, 0⟩ < 1 ∧
        Vector3f.dist Real.sqrt p ⟨3, 0, 0⟩ < 1) :=
  (IntersectBoundingSphere_sound ⟨⟨0, 0, 0⟩, 1⟩ ⟨⟨3, 0, 0⟩, 1⟩).1 one_pos one_pos

/-! ### Identity test -/

/-- The epsilon of `IsIdentity`, `10e-3`, is one hundredth. -/
theorem IsIdentity_epsilon (K : Type) [LinearOrderedField K] : (10e-3 : K) = 1 / 100 := by
  norm_num

/-- C20: for every matrix over an ordered field, `IsIdentity()` returns true if and only
if each of the twelve off-diagonal entries `e` satisfies `-1/100 <= e <= 1/100` and each of
the four diagonal entries `e` satisfies `99/100 <= e <= 101/100`; in particular the
default-constructed matrix is reported as identity. -/
theorem IsIdentity_iff {K : Type} [LinearOrderedField K] (M : aiMatrix4x4t K) :
    (M.IsIdentity = true ↔
      ((-1 / 100 ≤ M.a2 ∧ M.a2 ≤ 1 / 100) ∧ (-1 / 100 ≤ M.a3 ∧ M.a3 ≤ 1 / 100) ∧
       (-1 / 100 ≤ M.a4 ∧ M.a4 ≤ 1 / 100) ∧ (-1 / 100 ≤ M.b1 ∧ M.b1 ≤ 1 / 100) ∧
       (-1 / 100 ≤ M.b3 ∧ M.b3 ≤ 1 / 100) ∧ (-1 / 100 ≤ M.b4 ∧ M.b4 ≤ 1 / 100) ∧
       (-1 / 100 ≤ M.c1 ∧ M.c1 ≤ 1 / 100) ∧ (-1 / 100 ≤ M.c2 ∧ M.c2 ≤ 1 / 100) ∧
       (-1 / 100 ≤ M.c4 ∧ M.c4 ≤ 1 / 100) ∧ (-1 / 100 ≤ M.d1 ∧ M.d1 ≤ 1 / 100) ∧
       (-1 / 100 ≤ M.d2 ∧ M.d2 ≤ 1 / 100) ∧ (-1 / 100 ≤ M.d3 ∧ M.d3 ≤ 1 / 100)) ∧
      ((99 / 100 ≤ M.a1 ∧ M.a1 ≤ 101 / 100) ∧ (99 / 100 ≤ M.b2 ∧ M.b2 ≤ 101 / 100) ∧
       (99 / 100 ≤ M.c3 ∧ M.c3 ≤ 101 / 100) ∧ (99 / 100 ≤ M.d4 ∧ M.d4 ≤ 101 / 100))) ∧
    (identity : aiMatrix4x4t K).IsIdentity = true := by
  have e1 : (1 : K) + 1 / 100 = 101 / 100 := by norm_num
  have e2 : (1 : K) - 1 / 100 = 99 / 100 := by norm_num
  have e3 : -((1 : K) / 100) = -1 / 100 := by norm_num
  constructor
  · simp only [IsIdentity, IsIdentity_epsilon, decide_eq_true_eq, ge_iff_le, e1, e2, e3]
    tauto
  · simp only [IsIdentity, IsIdentity_epsilon, decide_eq_true_eq, ge_iff_le, e1, e2, e3,
      identity]
    norm_num

/-! ### Quaternion normalisation and constructors -/

/-- A magnitude that is not zero is positive and squares to the sum of the squares of the
four components. -/
theorem magnitude_pos (w x y z : ℝ) (h : Real.sqrt (x * x + y * y + z * z + w * w) ≠ 0) :
    0 < Real.sqrt (x * x + y * y + z * z + w * w) ∧
    Real.sqrt (x * x + y * y + z * z + w * w) ^ 2 = x * x + y * y + z * z + w * w := by
  refine ⟨lt_of_le_of_ne (Real.sqrt_nonneg _) (Ne.symm h), Real.sq_sqrt ?_⟩
  nlinarith [mul_self_nonneg x, mul_self_nonneg y, mul_self_nonneg z, mul_self_nonneg w]

/-- For a non-zero magnitude `Normalize()` scales by its reciprocal and the result has
squared norm 1. -/
theorem Normalize_of_ne_zero (q : aiQuaterniont ℝ)
    (h : Real.sqrt (q.x * q.x + q.y * q.y + q.z * q.z + q.w * q.w) ≠ 0) :
    q.Normalize Real.sqrt =
      ⟨1 / Real.sqrt (q.x * q.x + q.y * q.y + q.z * q.z + q.w * q.w) * q.w,
       1 / Real.sqrt (q.x * q.x + q.y * q.y + q.z * q.z + q.w * q.w) * q.x,
       1 / Real.sqrt (q.x * q.x + q.y * q.y + q.z * q.z + q.w * q.w) * q.y,
       1 / Real.sqrt (q.x * q.x + q.y * q.y + q.z * q.z + q.w * q.w) * q.z⟩ ∧
    (q.Normalize Real.sqrt).normSq = 1 := by
  obtain ⟨w, x, y, z⟩ := q
  simp only at h
  obtain ⟨hpos, hsq⟩ := magnitude_pos w x y z h
  have e : aiQuaterniont.Normalize Real.sqrt ⟨w, x, y, z⟩ =
      ⟨1 / Real.sqrt (x * x + y * y + z * z + w * w) * w,
       1 / Real.sqrt (x * x + y * y + z * z + w * w) * x,
       1 / Real.sqrt (x * x + y * y + z * z + w * w) * y,
       1 / Real.sqrt (x * x + y * y + z * z + w * w) * z⟩ := by
    simp only [aiQuaterniont.Normalize, if_pos h, aiQuaterniont.mk.injEq]
    refine ⟨?_, ?_, ?_, ?_⟩ <;> ring
  refine ⟨e, ?_⟩
  rw [e]
  simp only [aiQuaterniont.normSq]
  generalize Real.sqrt (x * x + y * y + z * z + w * w) = m at h hpos hsq
  field_simp
  linear_combination -hsq

/-- For a zero magnitude `Normalize()` leaves the quaternion as it is. -/
theorem Normalize_of_eq_zero (q : aiQuaterniont ℝ)
    (h : Real.sqrt (q.x * q.x + q.y * q.y + q.z * q.z + q.w * q.w) = 0) :
    q.Normalize Real.sqrt = q := by
  obtain ⟨w, x, y, z⟩ := q
  simp only at h
  simp only [aiQuaterniont.Normalize, h, ne_eq, not_true_eq_false, if_false]

/-- A quaternion of squared norm 1 is left as it is by `Normalize()`. -/
theorem Normalize_of_normSq_eq_one (q : aiQuaterniont ℝ) (h : q.normSq = 1) :
    q.Normalize Real.sqrt = q := by
  obtain ⟨w, x, y, z⟩ := q
  simp only [aiQuaterniont.normSq] at h
  have e : x * x + y * y + z * z + w * w = 1 := by linear_combination h
  simp only [aiQuaterniont.Normalize, e, Real.sqrt_one, ne_eq, one_ne_zero, not_false_eq_true,
    if_true, div_one, mul_one]

/-- C21: for a real quaternion of magnitude exactly 0, `Normalize()` returns it unchanged;
for every other quaternion the result is the input multiplied by the positive scalar
`1 / magnitude` and has `w^2 + x^2 + y^2 + z^2 = 1`; and `Normalize()` is idempotent. -/
theorem Normalize_spec (q : aiQuaterniont ℝ) :
    (Real.sqrt (q.x * q.x + q.y * q.y + q.z * q.z + q.w * q.w) = 0 →
      q.Normalize Real.sqrt = q) ∧
    (Real.sqrt (q.x * q.x + q.y * q.y + q.z * q.z + q.w * q.w) ≠ 0 →
      0 < 1 / Real.sqrt (q.x * q.x + q.y * q.y + q.z * q.z + q.w * q.w) ∧
      q.Normalize Real.sqrt =
        ⟨1 / Real.sqrt (q.x * q.x + q.y * q.y + q.z * q.z + q.w * q.w) * q.w,
         1 / Real.sqrt (q.x * q.x + q.y * q.y + q.z * q.z + q.w * q.w) * q.x,
         1 / Real.sqrt (q.x * q.x + q.y * q.y + q.z * q.z + q.w * q.w) * q.y,
         1 / Real.sqrt (q.x * q.x + q.y * q.y + q.z * q.z + q.w * q.w) * q.z⟩ ∧
      (q.Normalize Real.sqrt).normSq = 1) ∧
    (q.Normalize Real.sqrt).Normalize Real.sqrt = q.Normalize Real.sqrt := by
  refine ⟨Normalize_of_eq_zero q, ?_, ?_⟩
  · intro h
    have hpos := (magnitude_pos q.w q.x q.y q.z h).1
    exact ⟨one_div_pos.mpr hpos, Normalize_of_ne_zero q h⟩
  · by_cases h : Real.sqrt (q.x * q.x + q.y * q.y + q.z * q.z + q.w * q.w) = 0
    · rw [Normalize_of_eq_zero q h, Normalize_of_eq_zero q h]
    · exact Normalize_of_normSq_eq_one _ (Normalize_of_ne_zero q h).2

theorem Normalize_spec_witness :
    aiQuaterniont.Normalize Real.sqrt (⟨0, 0, 0, 0⟩ : aiQuaterniont ℝ) = ⟨0, 0, 0, 0⟩ ∧
    (aiQuaterniont.Normalize Real.sqrt (⟨0, 3, 0, 4⟩ : aiQuaterniont ℝ)).normSq = 1 := by
  constructor
  · exact (Normalize_spec ⟨0, 0, 0, 0⟩).1 (by norm_num)
  · have h25 : Real.sqrt (3 * 3 + 0 * 0 + 4 * 4 + 0 * 0) = 5 := by
      rw [show (3 : ℝ) * 3 + 0 * 0 + 4 * 4 + 0 * 0 = 5 ^ 2 by norm_num]
      exact Real.sqrt_sq (by norm_num)
    exact ((Normalize_spec ⟨0, 3, 0, 4⟩).2.1 (by rw [h25]; norm_num)).2.2
/-- A checked square root of a non-negative number succeeds. -/
theorem checkedSqrt_of_nonneg (x : ℝ) (h : 0 ≤ x) :
    checkedSqrt Real.sqrt x = some (Real.sqrt x) := by
  simp only [checkedSqrt, if_neg (not_lt.mpr h)]

/-- A checked division by a non-zero number succeeds. -/
theorem checkedDiv_of_ne_zero (a b : ℝ) (h : b ≠ 0) : checkedDiv a b = some (a / b) := by
  simp only [checkedDiv, if_neg h]

/-- C22: for every real input `(x, y, z)` the quaternion built from the compressed
encoding has the same `x, y, z`, has `w = sqrt(1 - x^2 - y^2 - z^2)` when that radicand is
`>= 0` and `w = 0` otherwise; hence `w >= 0`, no square root of a negative number is
taken (the constructor with its square root checked succeeds with the same result), and
the result has unit norm whenever `x^2 + y^2 + z^2 <= 1`. -/
theorem ofNormalized_spec (v : aiVector3t ℝ) :
    (aiQuaterniont.ofNormalized Real.sqrt v).x = v.x ∧
    (aiQuaterniont.ofNormalized Real.sqrt v).y = v.y ∧
    (aiQuaterniont.ofNormalized Real.sqrt v).z = v.z ∧
    (0 ≤ 1 - v.x ^ 2 - v.y ^ 2 - v.z ^ 2 →
      (aiQuaterniont.ofNormalized Real.sqrt v).w = Real.sqrt (1 - v.x ^ 2 - v.y ^ 2 - v.z ^ 2)) ∧
    (1 - v.x ^ 2 - v.y ^ 2 - v.z ^ 2 < 0 → (aiQuaterniont.ofNormalized Real.sqrt v).w = 0) ∧
    0 ≤ (aiQuaterniont.ofNormalized Real.sqrt v).w ∧
    aiQuaterniont.ofNormalizedChecked Real.sqrt v =
      some (aiQuaterniont.ofNormalized Real.sqrt v) ∧
    (v.x ^ 2 + v.y ^ 2 + v.z ^ 2 ≤ 1 → (aiQuaterniont.ofNormalized Real.sqrt v).normSq = 1) := by
  obtain ⟨x, y, z⟩ := v
  have e : 1 - x ^ 2 - y ^ 2 - z ^ 2 = 1 - x * x - y * y - z * z := by ring
  simp only [e]
  by_cases ht : 1 - x * x - y * y - z * z < 0
  · have hq : aiQuaterniont.ofNormalized Real.sqrt ⟨x, y, z⟩ = ⟨0, x, y, z⟩ := by
      simp only [aiQuaterniont.ofNormalized, if_pos ht]
    have hc : aiQuaterniont.ofNormalizedChecked Real.sqrt ⟨x, y, z⟩ = some ⟨0, x, y, z⟩ := by
      simp only [aiQuaterniont.ofNormalizedChecked, if_pos ht]
    rw [hq, hc]
    refine ⟨rfl, rfl, rfl, ?_, ?_, le_rfl, rfl, ?_⟩
    · intro h
      exact absurd ht (not_lt.mpr h)
    · intro _
      rfl
    · intro h
      nlinarith
  · have h0 : 0 ≤ 1 - x * x - y * y - z * z := not_lt.mp ht
    have hq : aiQuaterniont.ofNormalized Real.sqrt ⟨x, y, z⟩ =
        ⟨Real.sqrt (1 - x * x - y * y - z * z), x, y, z⟩ := by
      simp only [aiQuaterniont.ofNormalized, if_neg ht]
    have hc : aiQuaterniont.ofNormalizedChecked Real.sqrt ⟨x, y, z⟩ =
        some ⟨Real.sqrt (1 - x * x - y * y - z * z), x, y, z⟩ := by
      simp only [aiQuaterniont.ofNormalizedChecked, if_neg ht, checkedSqrt_of_nonneg _ h0]
      rfl
    rw [hq, hc]
    refine ⟨rfl, rfl, rfl, ?_, ?_, Real.sqrt_nonneg _, rfl, ?_⟩
    · intro _
      rfl
    · intro h
      exact absurd h ht
    · intro _
      simp only [aiQuaterniont.normSq]
      rw [Real.sq_sqrt h0]
      ring

theorem ofNormalized_spec_witness :
    aiQuaterniont.ofNormalized Real.sqrt ⟨3/5, 0, 4/5⟩ = ⟨0, 3/5, 0, 4/5⟩ ∧
    aiQuaterniont.ofNormalized Real.sqrt ⟨1, 1, 0⟩ = ⟨0, 1, 1, 0⟩ := by
  constructor
  · have h := ofNormalized_spec ⟨3/5, 0, 4/5⟩
    obtain ⟨hx, hy, hz, hw, -, -, -, -⟩ := h
    have hw0 := hw (by norm_num)
    rw [show (1 : ℝ) - (3/5) ^ 2 - 0 ^ 2 - (4/5) ^ 2 = 0 by norm_num, Real.sqrt_zero] at hw0
    cases hq : aiQuaterniont.ofNormalized Real.sqrt ⟨3/5, 0, 4/5⟩ with
    | mk w x y z =>
      rw [hq] at hx hy hz hw0
      simp only at hx hy hz hw0
      rw [hx, hy, hz, hw0]
  · have h := ofNormalized_spec ⟨1, 1, 0⟩
    obtain ⟨hx, hy, hz, -, hw, -, -, -⟩ := h
    have hw0 := hw (by norm_num)
    cases hq : aiQuaterniont.ofNormalized Real.sqrt ⟨1, 1, 0⟩ with
    | mk w x y z =>
      rw [hq] at hx hy hz hw0
      simp only at hx hy hz hw0
      rw [hx, hy, hz, hw0]

/-- The length of a non-zero real vector is positive. -/
theorem Length_pos_of_ne_zero (a : aiVector3t ℝ) (h : a ≠ ⟨0, 0, 0⟩) :
    0 < a.Length Real.sqrt := by
  obtain ⟨x, y, z⟩ := a
  simp only [aiVector3t.Length, aiVector3t.SquareLength]
  apply Real.sqrt_pos.mpr
  have hne : x ≠ 0 ∨ y ≠ 0 ∨ z ≠ 0 := by
    by_contra hc
    push_neg at hc
    obtain ⟨rfl, rfl, rfl⟩ := hc
    exact h rfl
  rcases hne with hx | hy | hz
  · have := mul_self_pos.mpr hx
    nlinarith [mul_self_nonneg y, mul_self_nonneg z]
  · have := mul_self_pos.mpr hy
    nlinarith [mul_self_nonneg x, mul_self_nonneg z]
  · have := mul_self_pos.mpr hz
    nlinarith [mul_self_nonneg x, mul_self_nonneg y]

/-- The length of a vector scaled by a non-negative factor. -/
theorem Length_scale (a : aiVector3t ℝ) (k : ℝ) (hk : 0 ≤ k) :
    aiVector3t.Length Real.sqrt (⟨k * a.x, k * a.y, k * a.z⟩ : aiVector3t ℝ) =
      k * a.Length Real.sqrt := by
  simp only [aiVector3t.Length, aiVector3t.SquareLength]
  exact sqrt_scale k _ _ _ _ hk (by ring)

/-- C23: for every non-zero real axis vector `a` and every angle, the axis-angle
constructor returns `w = cos(angle/2)` and `(x, y, z) = sin(angle/2) * a/|a|`; hence the
result has unit norm and is unchanged when the axis is multiplied by any positive
scalar. -/
theorem ofAxisAngle_spec (a : aiVector3t ℝ) (angle : ℝ) (h : a ≠ ⟨0, 0, 0⟩) :
    (aiQuaterniont.ofAxisAngle Real.sqrt Real.cos Real.sin a angle).w = Real.cos (angle / 2) ∧
    (aiQuaterniont.ofAxisAngle Real.sqrt Real.cos Real.sin a angle).x =
      Real.sin (angle / 2) * (a.x / a.Length Real.sqrt) ∧
    (aiQuaterniont.ofAxisAngle Real.sqrt Real.cos Real.sin a angle).y =
      Real.sin (angle / 2) * (a.y / a.Length Real.sqrt) ∧
    (aiQuaterniont.ofAxisAngle Real.sqrt Real.cos Real.sin a angle).z =
      Real.sin (angle / 2) * (a.z / a.Length Real.sqrt) ∧
    (aiQuaterniont.ofAxisAngle Real.sqrt Real.cos Real.sin a angle).normSq = 1 ∧
    ∀ k : ℝ, 0 < k →
      aiQuaterniont.ofAxisAngle Real.sqrt Real.cos Real.sin ⟨k * a.x, k * a.y, k * a.z⟩ angle =
        aiQuaterniont.ofAxisAngle Real.sqrt Real.cos Real.sin a angle := by
  have hL := Length_pos_of_ne_zero a h
  have hL2 : a.Length Real.sqrt ^ 2 = a.x * a.x + a.y * a.y + a.z * a.z := by
    simp only [aiVector3t.Length, aiVector3t.SquareLength]
    have h0 : 0 ≤ a.x * a.x + a.y * a.y + a.z * a.z := by
      nlinarith [mul_self_nonneg a.x, mul_self_nonneg a.y, mul_self_nonneg a.z]
    exact Real.sq_sqrt h0
  refine ⟨rfl, ?_, ?_, ?_, ?_, ?_⟩
  · simp only [aiQuaterniont.ofAxisAngle, aiVector3t.Normalize, aiVector3t.divAssign]
    ring
  · simp only [aiQuaterniont.ofAxisAngle, aiVector3t.Normalize, aiVector3t.divAssign]
    ring
  · simp only [aiQuaterniont.ofAxisAngle, aiVector3t.Normalize, aiVector3t.divAssign]
    ring
  · have hcs := Real.sin_sq_add_cos_sq (angle / 2)
    simp only [aiQuaterniont.ofAxisAngle, aiVector3t.Normalize, aiVector3t.divAssign,
      aiQuaterniont.normSq]
    generalize a.Length Real.sqrt = L at hL hL2
    field_simp
    linear_combination L ^ 2 * hcs - Real.sin (angle / 2) ^ 2 * hL2
  · intro k hk
    simp only [aiQuaterniont.ofAxisAngle, aiVector3t.Normalize, aiVector3t.divAssign,
      Length_scale a k hk.le, aiQuaterniont.mk.injEq]
    generalize a.Length Real.sqrt = L at hL hL2
    refine ⟨trivial, ?_, ?_, ?_⟩ <;> field_simp <;> ring

theorem ofAxisAngle_spec_witness :
    ((⟨0, 2, 0⟩ : aiVector3t ℝ) ≠ ⟨0, 0, 0⟩) ∧
    (aiQuaterniont.ofAxisAngle Real.sqrt Real.cos Real.sin ⟨0, 2, 0⟩ 1).normSq = 1 :=
  ⟨by simp, (ofAxisAngle_spec ⟨0, 2, 0⟩ 1 (by simp)).2.2.2.2.1⟩

/-- C24: over every commutative ring, operator `*` is the Hamilton product: read as
`w + x i + y j + z k`, the product `p * q` is the product in the quaternion algebra
(`i^2 = j^2 = k^2 = ijk = -1`); operator `*` is associative, and
`(w, x, y, z) = (1, 0, 0, 0)` is a two-sided identity. -/
theorem mul_eq_hamilton {R : Type} [CommRing R] (p q r : aiQuaterniont R) :
    (p.mul q).toQuaternion = p.toQuaternion * q.toQuaternion ∧
    (p.mul q).mul r = p.mul (q.mul r) ∧
    aiQuaterniont.mul ⟨1, 0, 0, 0⟩ p = p ∧
    p.mul ⟨1, 0, 0, 0⟩ = p := by
  obtain ⟨pw, px, py, pz⟩ := p
  obtain ⟨qw, qx, qy, qz⟩ := q
  obtain ⟨rw, rx, ry, rz⟩ := r
  refine ⟨?_, ?_, ?_, ?_⟩
  · apply Quaternion.ext <;>
      simp only [aiQuaterniont.mul, aiQuaterniont.toQuaternion, Quaternion.mul_re,
        Quaternion.mul_imI, Quaternion.mul_imJ, Quaternion.mul_imK] <;> ring
  · simp only [aiQuaterniont.mul, aiQuaterniont.mk.injEq]
    refine ⟨?_, ?_, ?_, ?_⟩ <;> ring
  · simp only [aiQuaterniont.mul, aiQuaterniont.mk.injEq]
    refine ⟨?_, ?_, ?_, ?_⟩ <;> ring
  · simp only [aiQuaterniont.mul, aiQuaterniont.mk.injEq]
    refine ⟨?_, ?_, ?_, ?_⟩ <;> ring
/-! ### Euler angles -/

/-- What `FromEulerAnglesXYZ(a, 0, 0)` makes of the identity matrix. -/
theorem FromEulerAnglesXYZ_identity_x (a : ℝ) :
    (identity : aiMatrix4x4t ℝ).FromEulerAnglesXYZ Real.cos Real.sin a 0 0 =
      ⟨1, 0, 0, 0,
       0, Real.cos a, Real.sin a, 0,
       0, -Real.sin a, Real.cos a, 0,
       0, 0, 0, 1⟩ := by
  simp [FromEulerAnglesXYZ, identity]

/-- What `RotationX(a, out)` writes. -/
theorem RotationX_eq (a : ℝ) :
    RotationX Real.cos Real.sin a =
      ⟨1, 0, 0, 0,
       0, Real.cos a, -Real.sin a, 0,
       0, Real.sin a, Real.cos a, 0,
       0, 0, 0, 1⟩ := by
  simp [RotationX, identity]

/-- The euler-angle builder and the single-axis factory agree exactly at the angles whose
sine is zero. -/
theorem FromEulerAnglesXYZ_eq_RotationX_iff (a : ℝ) :
    (identity : aiMatrix4x4t ℝ).FromEulerAnglesXYZ Real.cos Real.sin a 0 0 =
      RotationX Real.cos Real.sin a ↔ Real.sin a = 0 := by
  rw [FromEulerAnglesXYZ_identity_x, RotationX_eq]
  simp only [aiMatrix4x4t.mk.injEq, true_and, and_true]
  constructor
  · rintro ⟨h, -⟩
    linarith
  · intro h
    rw [h]
    simp

/-- C25 at a failing input: for the angle `pi / 2`, the identity matrix after
`FromEulerAnglesXYZ(pi/2, 0, 0)` has `b3 = 1` and `c2 = -1`, while `RotationX(pi/2, out)`
has `b3 = -1` and `c2 = 1`: each is the transpose of the other. -/
theorem FromEulerAnglesXYZ_ne_RotationX_at_input :
    (identity : aiMatrix4x4t ℝ).FromEulerAnglesXYZ Real.cos Real.sin (Real.pi / 2) 0 0 =
      ⟨1, 0, 0, 0,
       0, 0, 1, 0,
       0, -1, 0, 0,
       0, 0, 0, 1⟩ ∧
    RotationX Real.cos Real.sin (Real.pi / 2) =
      ⟨1, 0, 0, 0,
       0, 0, -1, 0,
       0, 1, 0, 0,
       0, 0, 0, 1⟩ ∧
    (identity : aiMatrix4x4t ℝ).FromEulerAnglesXYZ Real.cos Real.sin (Real.pi / 2) 0 0 ≠
      RotationX Real.cos Real.sin (Real.pi / 2) := by
  refine ⟨?_, ?_, ?_⟩
  · rw [FromEulerAnglesXYZ_identity_x, Real.cos_pi_div_two, Real.sin_pi_div_two]
  · rw [RotationX_eq, Real.cos_pi_div_two, Real.sin_pi_div_two]
  · rw [Ne, FromEulerAnglesXYZ_eq_RotationX_iff, Real.sin_pi_div_two]
    exact one_ne_zero

/-- What the three-angle constructor returns on `(a, 0, 0)`: the rotation by `a` about
the y axis. -/
theorem ofEulerAngles_first (a : ℝ) :
    aiQuaterniont.ofEulerAngles Real.cos Real.sin a 0 0 =
      ⟨Real.cos (a / 2), 0, Real.sin (a / 2), 0⟩ := by
  have e : a * 0.5 = a / 2 := by norm_num; ring
  simp [aiQuaterniont.ofEulerAngles, e]

/-- The three-angle constructor on `(a, 0, 0)` and the axis-angle constructor on the x
axis agree exactly at the angles with `sin(a/2) = 0`. -/
theorem ofEulerAngles_eq_ofAxisAngle_iff (a : ℝ) :
    aiQuaterniont.ofEulerAngles Real.cos Real.sin a 0 0 =
      aiQuaterniont.ofAxisAngle Real.sqrt Real.cos Real.sin ⟨1, 0, 0⟩ a ↔
    Real.sin (a / 2) = 0 := by
  rw [ofEulerAngles_first, ofAxisAngle_unit _ _ (by norm_num [aiVector3t.SquareLength])]
  simp only [aiQuaterniont.mk.injEq, one_mul, zero_mul, true_and, and_true]
  constructor
  · rintro ⟨h, -⟩
    exact h.symm
  · intro h
    exact ⟨h.symm, h⟩

/-- C26 at a failing input: for the angle `pi`, the three-angle constructor on
`(pi, 0, 0)` returns `(w, x, y, z) = (0, 0, 1, 0)`, the half turn about the y axis, while
the axis-angle quaternion of axis `(1, 0, 0)` and angle `pi` is `(0, 1, 0, 0)`. -/
theorem ofEulerAngles_ne_ofAxisAngle_at_input :
    aiQuaterniont.ofEulerAngles Real.cos Real.sin Real.pi 0 0 = ⟨0, 0, 1, 0⟩ ∧
    aiQuaterniont.ofAxisAngle Real.sqrt Real.cos Real.sin ⟨1, 0, 0⟩ Real.pi = ⟨0, 1, 0, 0⟩ ∧
    aiQuaterniont.ofEulerAngles Real.cos Real.sin Real.pi 0 0 ≠
      aiQuaterniont.ofAxisAngle Real.sqrt Real.cos Real.sin ⟨1, 0, 0⟩ Real.pi := by
  have h1 : aiQuaterniont.ofEulerAngles Real.cos Real.sin Real.pi 0 0 = ⟨0, 0, 1, 0⟩ := by
    rw [ofEulerAngles_first, Real.cos_pi_div_two, Real.sin_pi_div_two]
  have h2 : aiQuaterniont.ofAxisAngle Real.sqrt Real.cos Real.sin ⟨1, 0, 0⟩ Real.pi
      = ⟨0, 1, 0, 0⟩ := by
    rw [ofAxisAngle_unit _ _ (by norm_num [aiVector3t.SquareLength]), Real.cos_pi_div_two,
      Real.sin_pi_div_two]
    norm_num
  refine ⟨h1, h2, ?_⟩
  rw [h1, h2]
  intro e
  have := congrArg aiQuaterniont.x e
  norm_num at this

/-- C27: for every matrix `M` and all angles, after `M.FromEulerAnglesXYZ(x, y, z)` the
seven entries `a4, b4, c4, d1, d2, d3, d4` have their values from before the call, and
the nine entries `a1..c3` are the same whatever matrix `N` the call starts from. -/
theorem FromEulerAnglesXYZ_frame {R : Type} [CommRing R] (cos sin : R → R)
    (M N : aiMatrix4x4t R) (x y z : R) :
    ((M.FromEulerAnglesXYZ cos sin x y z).a4 = M.a4 ∧
     (M.FromEulerAnglesXYZ cos sin x y z).b4 = M.b4 ∧
     (M.FromEulerAnglesXYZ cos sin x y z).c4 = M.c4 ∧
     (M.FromEulerAnglesXYZ cos sin x y z).d1 = M.d1 ∧
     (M.FromEulerAnglesXYZ cos sin x y z).d2 = M.d2 ∧
     (M.FromEulerAnglesXYZ cos sin x y z).d3 = M.d3 ∧
     (M.FromEulerAnglesXYZ cos sin x y z).d4 = M.d4) ∧
    ((M.FromEulerAnglesXYZ cos sin x y z).a1 = (N.FromEulerAnglesXYZ cos sin x y z).a1 ∧
     (M.FromEulerAnglesXYZ cos sin x y z).a2 = (N.FromEulerAnglesXYZ cos sin x y z).a2 ∧
     (M.FromEulerAnglesXYZ cos sin x y z).a3 = (N.FromEulerAnglesXYZ cos sin x y z).a3 ∧
     (M.FromEulerAnglesXYZ cos sin x y z).b1 = (N.FromEulerAnglesXYZ cos sin x y z).b1 ∧
     (M.FromEulerAnglesXYZ cos sin x y z).b2 = (N.FromEulerAnglesXYZ cos sin x y z).b2 ∧
     (M.FromEulerAnglesXYZ cos sin x y z).b3 = (N.FromEulerAnglesXYZ cos sin x y z).b3 ∧
     (M.FromEulerAnglesXYZ cos sin x y z).c1 = (N.FromEulerAnglesXYZ cos sin x y z).c1 ∧
     (M.FromEulerAnglesXYZ cos sin x y z).c2 = (N.FromEulerAnglesXYZ cos sin x y z).c2 ∧
     (M.FromEulerAnglesXYZ cos sin x y z).c3 = (N.FromEulerAnglesXYZ cos sin x y z).c3) :=
  ⟨⟨rfl, rfl, rfl, rfl, rfl, rfl, rfl⟩, ⟨rfl, rfl, rfl, rfl, rfl, rfl, rfl, rfl, rfl⟩⟩

/-! ### Integer keys -/

/-- C28: for all unsigned `a`, `b` and every factor `d` in an ordered field,
`Interpolator<unsigned int>` writes `b` if `d > 0.5` and `a` otherwise, so `d = 0.5` and
`d = 0` yield `a` and `d = 1` yields `b`; `Interpolator<aiMeshKey>` gives the same result
on the keys' `mValue` members whatever their `mTime` members are. -/
theorem Interpolator_unsigned_step {T : Type} [LinearOrderedField T] (a b : Nat) (d : T) :
    (d > 0.5 → Interpolator_unsigned a b d = b) ∧
    (¬ d > 0.5 → Interpolator_unsigned a b d = a) ∧
    Interpolator_unsigned a b (0.5 : T) = a ∧
    Interpolator_unsigned a b (0 : T) = a ∧
    Interpolator_unsigned a b (1 : T) = b ∧
    (∀ ta tb : T, Interpolator_aiMeshKey ⟨ta, a⟩ ⟨tb, b⟩ d = Interpolator_unsigned a b d) := by
  refine ⟨?_, ?_, ?_, ?_, ?_, ?_⟩
  · intro h
    simp only [Interpolator_unsigned, if_pos h]
  · intro h
    simp only [Interpolator_unsigned, if_neg h]
  · simp only [Interpolator_unsigned, gt_iff_lt, lt_self_iff_false, if_false]
  · have h : ¬ (0 : T) > 0.5 := by norm_num
    simp only [Interpolator_unsigned, if_neg h]
  · have h : (1 : T) > 0.5 := by norm_num
    simp only [Interpolator_unsigned, if_pos h]
  · intro ta tb
    rfl

theorem Interpolator_unsigned_step_witness :
    Interpolator_unsigned 3 7 (0.75 : ℚ) = 7 ∧ Interpolator_unsigned 3 7 (0.5 : ℚ) = 3 ∧
    Interpolator_aiMeshKey (⟨10, 3⟩ : aiMeshKey ℚ) ⟨20, 7⟩ 0.25 = 3 :=
  ⟨(Interpolator_unsigned_step 3 7 (0.75 : ℚ)).1 (by norm_num),
   (Interpolator_unsigned_step 3 7 (0.5 : ℚ)).2.2.1,
   ((Interpolator_unsigned_step 3 7 (0.25 : ℚ)).2.2.2.2.2 10 20).trans
     ((Interpolator_unsigned_step 3 7 (0.25 : ℚ)).2.1 (by norm_num))⟩
/-! ### Scale factors of the decomposition, safety of the matrix constructor -/

/-- The scaling returned by `Decompose` for a non-negative determinant: the lengths of
the three columns of the upper-left block. -/
theorem Decompose_scaling_of_det_nonneg (M : aiMatrix4x4t ℝ) (h : 0 ≤ M.Determinant) :
    (Decompose Real.sqrt M).scaling =
      ⟨(⟨M.a1, M.b1, M.c1⟩ : aiVector3t ℝ).Length Real.sqrt,
       (⟨M.a2, M.b2, M.c2⟩ : aiVector3t ℝ).Length Real.sqrt,
       (⟨M.a3, M.b3, M.c3⟩ : aiVector3t ℝ).Length Real.sqrt⟩ := by
  simp only [Decompose, if_neg (not_lt.mpr h), vRows, entry]

/-- The length of the vector `(3, 4, 0)` is 5. -/
theorem Length_three_four : (⟨3, 4, 0⟩ : aiVector3t ℝ).Length Real.sqrt = 5 := by
  simp only [aiVector3t.Length, aiVector3t.SquareLength]
  rw [show (3 : ℝ) * 3 + 4 * 4 + 0 * 0 = 5 ^ 2 by norm_num]
  exact Real.sqrt_sq (by norm_num)

/-- The length of the vector `(3, 0, 0)` is 3. -/
theorem Length_three : (⟨3, 0, 0⟩ : aiVector3t ℝ).Length Real.sqrt = 3 := by
  simp only [aiVector3t.Length, aiVector3t.SquareLength]
  rw [show (3 : ℝ) * 3 + 0 * 0 + 0 * 0 = 3 ^ 2 by norm_num]
  exact Real.sqrt_sq (by norm_num)

/-- C29, as stated, fails: the matrix with rows `(3, 0, 0, 0)`, `(4, 1, 0, 0)`,
`(0, 0, 1, 0)`, `(0, 0, 0, 1)` has `Determinant() = 3 >= 0`, and `Decompose` returns
`scaling.x = 5`, the length of the first column `(3, 4, 0)`, while the first row
`(3, 0, 0)` of the upper-left block has length 3. -/
theorem Decompose_scaling_ne_row_lengths :
    (0 : ℝ) ≤ (⟨3, 0, 0, 0, 4, 1, 0, 0, 0, 0, 1, 0, 0, 0, 0, 1⟩ : aiMatrix4x4t ℝ).Determinant ∧
    (Decompose Real.sqrt
      (⟨3, 0, 0, 0, 4, 1, 0, 0, 0, 0, 1, 0, 0, 0, 0, 1⟩ : aiMatrix4x4t ℝ)).scaling.x = 5 ∧
    (⟨3, 0, 0⟩ : aiVector3t ℝ).Length Real.sqrt = 3 ∧
    (Decompose Real.sqrt
      (⟨3, 0, 0, 0, 4, 1, 0, 0, 0, 0, 1, 0, 0, 0, 0, 1⟩ : aiMatrix4x4t ℝ)).scaling ≠
      ⟨(⟨3, 0, 0⟩ : aiVector3t ℝ).Length Real.sqrt,
       (⟨4, 1, 0⟩ : aiVector3t ℝ).Length Real.sqrt,
       (⟨0, 0, 1⟩ : aiVector3t ℝ).Length Real.sqrt⟩ := by
  have hdet : (0 : ℝ) ≤
      (⟨3, 0, 0, 0, 4, 1, 0, 0, 0, 0, 1, 0, 0, 0, 0, 1⟩ : aiMatrix4x4t ℝ).Determinant := by
    norm_num [Determinant]
  have hx : (Decompose Real.sqrt
      (⟨3, 0, 0, 0, 4, 1, 0, 0, 0, 0, 1, 0, 0, 0, 0, 1⟩ : aiMatrix4x4t ℝ)).scaling.x = 5 := by
    rw [Decompose_scaling_of_det_nonneg _ hdet]
    exact Length_three_four
  refine ⟨hdet, hx, Length_three, ?_⟩
  intro e
  have hx2 := congrArg aiVector3t.x e
  rw [hx] at hx2
  simp only at hx2
  rw [Length_three] at hx2
  norm_num at hx2

/-- C29, amended: for every real matrix with `Determinant() >= 0`, the scaling returned
by `Decompose` is `(|(a1, b1, c1)|, |(a2, b2, c2)|, |(a3, b3, c3)|)`: `scaling.x` is the
Euclidean length of the first column, `scaling.y` of the second column and `scaling.z` of
the third column of the upper-left 3x3 block. -/
theorem Decompose_scaling_eq_column_lengths (M : aiMatrix4x4t ℝ) (h : 0 ≤ M.Determinant) :
    (Decompose Real.sqrt M).scaling =
      ⟨Real.sqrt (M.a1 * M.a1 + M.b1 * M.b1 + M.c1 * M.c1),
       Real.sqrt (M.a2 * M.a2 + M.b2 * M.b2 + M.c2 * M.c2),
       Real.sqrt (M.a3 * M.a3 + M.b3 * M.b3 + M.c3 * M.c3)⟩ :=
  Decompose_scaling_of_det_nonneg M h

theorem Decompose_scaling_eq_column_lengths_witness :
    (0 : ℝ) ≤ (⟨3, 0, 0, 0, 4, 1, 0, 0, 0, 0, 1, 0, 0, 0, 0, 1⟩ : aiMatrix4x4t ℝ).Determinant ∧
    (Decompose Real.sqrt
      (⟨3, 0, 0, 0, 4, 1, 0, 0, 0, 0, 1, 0, 0, 0, 0, 1⟩ : aiMatrix4x4t ℝ)).scaling =
      ⟨Real.sqrt (3 * 3 + 4 * 4 + 0 * 0), Real.sqrt (0 * 0 + 1 * 1 + 0 * 0),
       Real.sqrt (0 * 0 + 0 * 0 + 1 * 1)⟩ :=
  ⟨by norm_num [Determinant],
   Decompose_scaling_eq_column_lengths _ (by norm_num [Determinant])⟩

/-- Under the conditions of a diagonal branch the radicand is positive: the selected
diagonal entry `p` is at least the other two, and the trace test has failed. -/
theorem radicand_pos (p q r : ℝ) (ht : ¬ (1 + p + q + r > 0.001)) (hq : q ≤ p) (hr : r ≤ p) :
    0 < 1 + p - q - r := by
  have h := not_lt.mp ht
  norm_num at h
  linarith

/-- The checked constructor succeeds once the radicand is positive. -/
theorem sqrt_mul_two_pos (x : ℝ) (h : 0 < x) : 0 < Real.sqrt x * 2 :=
  mul_pos (Real.sqrt_pos.mpr h) two_pos

/-- C30: for any real 3x3 input, the quaternion-from-matrix constructor never takes the
square root of a negative number and never divides by zero (the constructor with every
square root and division checked succeeds, with the same result); in the trace branch
the divisor `s` satisfies `s^2 = 4 t > 0.004`, and in each of the three diagonal branches
the radicand `1 + (selected diagonal entry) - (the other two)` is strictly positive
under the branch conditions, so `s > 0`. -/
theorem ofMatrix_safe (m : aiMatrix3x3t ℝ) :
    aiQuaterniont.ofMatrixChecked Real.sqrt m = some (aiQuaterniont.ofMatrix Real.sqrt m) ∧
    (1 + m.a1 + m.b2 + m.c3 > 0.001 →
      (Real.sqrt (1 + m.a1 + m.b2 + m.c3) * 2) ^ 2 = 4 * (1 + m.a1 + m.b2 + m.c3) ∧
      4 * (1 + m.a1 + m.b2 + m.c3) > 0.004) ∧
    (¬ (1 + m.a1 + m.b2 + m.c3 > 0.001) → m.a1 > m.b2 ∧ m.a1 > m.c3 →
      0 < 1 + m.a1 - m.b2 - m.c3 ∧ 0 < Real.sqrt (1 + m.a1 - m.b2 - m.c3) * 2) ∧
    (¬ (1 + m.a1 + m.b2 + m.c3 > 0.001) → ¬ (m.a1 > m.b2 ∧ m.a1 > m.c3) → m.b2 > m.c3 →
      0 < 1 + m.b2 - m.a1 - m.c3 ∧ 0 < Real.sqrt (1 + m.b2 - m.a1 - m.c3) * 2) ∧
    (¬ (1 + m.a1 + m.b2 + m.c3 > 0.001) → ¬ (m.a1 > m.b2 ∧ m.a1 > m.c3) → ¬ (m.b2 > m.c3) →
      0 < 1 + m.c3 - m.a1 - m.b2 ∧ 0 < Real.sqrt (1 + m.c3 - m.a1 - m.b2) * 2) := by
  have b2pos : ¬ (1 + m.a1 + m.b2 + m.c3 > 0.001) → m.a1 > m.b2 ∧ m.a1 > m.c3 →
      0 < 1 + m.a1 - m.b2 - m.c3 := fun ht h =>
    radicand_pos m.a1 m.b2 m.c3 ht h.1.le h.2.le
  have b3pos : ¬ (1 + m.a1 + m.b2 + m.c3 > 0.001) → ¬ (m.a1 > m.b2 ∧ m.a1 > m.c3) →
      m.b2 > m.c3 → 0 < 1 + m.b2 - m.a1 - m.c3 := by
    intro ht h2 h3
    have ha : m.a1 ≤ m.b2 := by
      rcases not_and_or.mp h2 with h | h
      · exact not_lt.mp h
      · exact (not_lt.mp h).trans h3.le
    have ht2 : ¬ (1 + m.b2 + m.a1 + m.c3 > 0.001) := by
      intro hc
      apply ht
      linarith
    exact radicand_pos m.b2 m.a1 m.c3 ht2 ha h3.le
  have b4pos : ¬ (1 + m.a1 + m.b2 + m.c3 > 0.001) → ¬ (m.a1 > m.b2 ∧ m.a1 > m.c3) →
      ¬ (m.b2 > m.c3) → 0 < 1 + m.c3 - m.a1 - m.b2 := by
    intro ht h2 h3
    have hb : m.b2 ≤ m.c3 := not_lt.mp h3
    have ha : m.a1 ≤ m.c3 := by
      rcases not_and_or.mp h2 with h | h
      · exact (not_lt.mp h).trans hb
      · exact not_lt.mp h
    have ht2 : ¬ (1 + m.c3 + m.a1 + m.b2 > 0.001) := by
      intro hc
      apply ht
      linarith
    exact radicand_pos m.c3 m.a1 m.b2 ht2 ha hb
  refine ⟨?_, ?_, ?_, ?_, ?_⟩
  · simp only [aiQuaterniont.ofMatrixChecked, aiQuaterniont.ofMatrix]
    split_ifs with h1 h2 h3
    · have hp : 0 < 1 + m.a1 + m.b2 + m.c3 := by
        have : (0 : ℝ) < 0.001 := by norm_num
        exact this.trans h1
      have hs := (sqrt_mul_two_pos _ hp).ne'
      simp [checkedSqrt_of_nonneg _ hp.le, checkedDiv_of_ne_zero _ _ hs]
    · have hp := b2pos h1 h2
      have hs := (sqrt_mul_two_pos _ hp).ne'
      simp [checkedSqrt_of_nonneg _ hp.le, checkedDiv_of_ne_zero _ _ hs]
    · have hp := b3pos h1 h2 h3
      have hs := (sqrt_mul_two_pos _ hp).ne'
      simp [checkedSqrt_of_nonneg _ hp.le, checkedDiv_of_ne_zero _ _ hs]
    · have hp := b4pos h1 h2 h3
      have hs := (sqrt_mul_two_pos _ hp).ne'
      simp [checkedSqrt_of_nonneg _ hp.le, checkedDiv_of_ne_zero _ _ hs]
  · intro h1
    have hp : 0 < 1 + m.a1 + m.b2 + m.c3 := by
      have : (0 : ℝ) < 0.001 := by norm_num
      exact this.trans h1
    constructor
    · rw [mul_pow, Real.sq_sqrt hp.le]
      ring
    · norm_num at h1 ⊢
      linarith
  · intro h1 h2
    exact ⟨b2pos h1 h2, sqrt_mul_two_pos _ (b2pos h1 h2)⟩
  · intro h1 h2 h3
    exact ⟨b3pos h1 h2 h3, sqrt_mul_two_pos _ (b3pos h1 h2 h3)⟩
  · intro h1 h2 h3
    exact ⟨b4pos h1 h2 h3, sqrt_mul_two_pos _ (b4pos h1 h2 h3)⟩

theorem ofMatrix_safe_witness :
    aiQuaterniont.ofMatrixChecked Real.sqrt (⟨-1, 0, 0, 0, -1, 0, 0, 0, -1⟩ : aiMatrix3x3t ℝ) =
      some (aiQuaterniont.ofMatrix Real.sqrt ⟨-1, 0, 0, 0, -1, 0, 0, 0, -1⟩) ∧
    (0 : ℝ) < 1 + (-1) - (-1) - (-1) :=
  ⟨(ofMatrix_safe ⟨-1, 0, 0, 0, -1, 0, 0, 0, -1⟩).1,
   ((ofMatrix_safe ⟨-1, 0, 0, 0, -1, 0, 0, 0, -1⟩).2.2.2.2 (by norm_num) (by norm_num)
     (by norm_num)).1⟩

/-! ### Interpolate and Decompose: no division by zero -/

/-- A checked arc cosine of a number in `[-1, 1]` succeeds. -/
theorem checkedAcos_of_mem (x : ℝ) (h0 : -1 ≤ x) (h1 : x ≤ 1) :
    checkedAcos Real.arccos x = some (Real.arccos x) := by
  have h : ¬ (x < -1 ∨ 1 < x) := by
    rintro (h | h) <;> linarith
  simp only [checkedAcos, if_neg h]

/-- In the slerp branch the adjusted cosine lies in `[0, 0.9999)`, the angle in
`(0, pi/2]`, and the divisor is positive. -/
theorem slerp_branch_bounds (c : ℝ) (h0 : 0 ≤ c) (h1 : 1 - c > 0.0001) :
    c < 0.9999 ∧ 0 < Real.arccos c ∧ Real.arccos c ≤ Real.pi / 2 ∧
      0 < Real.sin (Real.arccos c) := by
  have hc : c < 0.9999 := by
    norm_num at h1 ⊢
    linarith
  have hc1 : c < 1 := by
    norm_num at hc
    linarith
  refine ⟨hc, Real.arccos_pos.mpr hc1, Real.arccos_le_pi_div_two.mpr h0, ?_⟩
  rw [Real.sin_arccos]
  apply Real.sqrt_pos.mpr
  nlinarith

/-- The checked `Interpolate` succeeds with the result of `Interpolate`. -/
theorem InterpolateChecked_eq (pStart pEnd : aiQuaterniont ℝ) (pFactor : ℝ) :
    aiQuaterniont.InterpolateChecked Real.arccos Real.sin pStart pEnd pFactor =
      some (aiQuaterniont.Interpolate Real.arccos Real.sin pStart pEnd pFactor) := by
  have hc := adjusted_cosom_nonneg
    (pStart.x * pEnd.x + pStart.y * pEnd.y + pStart.z * pEnd.z + pStart.w * pEnd.w)
  simp only [aiQuaterniont.InterpolateChecked, aiQuaterniont.Interpolate]
  by_cases hs : 1 - (if pStart.x * pEnd.x + pStart.y * pEnd.y + pStart.z * pEnd.z
        + pStart.w * pEnd.w < 0
      then -(pStart.x * pEnd.x + pStart.y * pEnd.y + pStart.z * pEnd.z + pStart.w * pEnd.w)
      else pStart.x * pEnd.x + pStart.y * pEnd.y + pStart.z * pEnd.z + pStart.w * pEnd.w)
      > 0.0001
  · obtain ⟨hlt, -, -, hsin⟩ := slerp_branch_bounds _ hc hs
    have hle : (if pStart.x * pEnd.x + pStart.y * pEnd.y + pStart.z * pEnd.z
        + pStart.w * pEnd.w < 0
      then -(pStart.x * pEnd.x + pStart.y * pEnd.y + pStart.z * pEnd.z + pStart.w * pEnd.w)
      else pStart.x * pEnd.x + pStart.y * pEnd.y + pStart.z * pEnd.z + pStart.w * pEnd.w)
      ≤ 1 := by
      norm_num at hlt
      linarith
    simp only [if_pos hs, checkedAcos_of_mem _ (by linarith) hle,
      checkedDiv_of_ne_zero _ _ hsin.ne', Option.bind_eq_bind, Option.some_bind]
  · simp only [if_neg hs]

/-- C31: for all real quaternions `start` and `end`, unit or not, and every factor,
`Interpolate` never divides by zero and never calls `acos` outside `[-1, 1]` (the version
with these operations checked succeeds, with the same result; its linear branch has no
division); whenever the slerp branch is taken (`1 - cosom > 0.0001` after the sign
adjustment) the adjusted `cosom` lies in `[0, 0.9999)`, `omega = acos(cosom)` lies in
`(0, pi/2]`, and the divisor `sinom = sin(omega)` is strictly positive. -/
theorem Interpolate_safe (pStart pEnd : aiQuaterniont ℝ) (pFactor : ℝ) :
    aiQuaterniont.InterpolateChecked Real.arccos Real.sin pStart pEnd pFactor =
      some (aiQuaterniont.Interpolate Real.arccos Real.sin pStart pEnd pFactor) ∧
    (1 - aiQuaterniont.Interpolate_cosom pStart pEnd > 0.0001 →
      0 ≤ aiQuaterniont.Interpolate_cosom pStart pEnd ∧
      aiQuaterniont.Interpolate_cosom pStart pEnd < 0.9999 ∧
      0 < Real.arccos (aiQuaterniont.Interpolate_cosom pStart pEnd) ∧
      Real.arccos (aiQuaterniont.Interpolate_cosom pStart pEnd) ≤ Real.pi / 2 ∧
      0 < Real.sin (Real.arccos (aiQuaterniont.Interpolate_cosom pStart pEnd))) := by
  refine ⟨InterpolateChecked_eq pStart pEnd pFactor, ?_⟩
  intro h
  have hc : 0 ≤ aiQuaterniont.Interpolate_cosom pStart pEnd := adjusted_cosom_nonneg _
  exact ⟨hc, slerp_branch_bounds _ hc h⟩

theorem Interpolate_safe_witness :
    (1 - aiQuaterniont.Interpolate_cosom (⟨1, 0, 0, 0⟩ : aiQuaterniont ℝ) ⟨0, 1, 0, 0⟩ > 0.0001) ∧
    0 < Real.sin (Real.arccos
      (aiQuaterniont.Interpolate_cosom (⟨1, 0, 0, 0⟩ : aiQuaterniont ℝ) ⟨0, 1, 0, 0⟩)) :=
  ⟨by norm_num [aiQuaterniont.Interpolate_cosom],
   ((Interpolate_safe ⟨1, 0, 0, 0⟩ ⟨0, 1, 0, 0⟩ 0.5).2
     (by norm_num [aiQuaterniont.Interpolate_cosom])).2.2.2.2⟩

/-- A checked division of a vector by a non-zero scalar succeeds. -/
theorem checkedDivAssign_of_ne_zero (v : aiVector3t ℝ) (f : ℝ) (h : f ≠ 0) :
    v.checkedDivAssign f = some (v.divAssign f) := by
  simp only [aiVector3t.checkedDivAssign, checkedDiv_of_ne_zero _ _ h, Option.bind_eq_bind,
    Option.some_bind, aiVector3t.divAssign]

/-- The checked `Decompose` succeeds with the result of `Decompose`. -/
theorem DecomposeChecked_eq (M : aiMatrix4x4t ℝ) :
    DecomposeChecked Real.sqrt M = some (Decompose Real.sqrt M) := by
  simp only [DecomposeChecked, Decompose]
  split_ifs <;> simp_all [checkedDivAssign_of_ne_zero]

/-- The scale components returned by `Decompose` are the lengths of the axis vectors up to
a common sign. -/
theorem Decompose_scaling_eq_or_neg (M : aiMatrix4x4t ℝ) :
    ((Decompose Real.sqrt M).scaling.x = (M.vRows 0).Length Real.sqrt ∨
      (Decompose Real.sqrt M).scaling.x = -(M.vRows 0).Length Real.sqrt) ∧
    ((Decompose Real.sqrt M).scaling.y = (M.vRows 1).Length Real.sqrt ∨
      (Decompose Real.sqrt M).scaling.y = -(M.vRows 1).Length Real.sqrt) ∧
    ((Decompose Real.sqrt M).scaling.z = (M.vRows 2).Length Real.sqrt ∨
      (Decompose Real.sqrt M).scaling.z = -(M.vRows 2).Length Real.sqrt) := by
  simp only [Decompose]
  split_ifs
  · exact ⟨Or.inr rfl, Or.inr rfl, Or.inr rfl⟩
  · exact ⟨Or.inl rfl, Or.inl rfl, Or.inl rfl⟩

/-- The columns of the local `m` of `Decompose`: each axis vector, divided by its scale
component if that is not zero. -/
theorem Decompose_m_col (M : aiMatrix4x4t ℝ) :
    (Decompose_m Real.sqrt M).col 0 =
      (if (Decompose Real.sqrt M).scaling.x ≠ 0
        then (M.vRows 0).divAssign (Decompose Real.sqrt M).scaling.x else M.vRows 0) ∧
    (Decompose_m Real.sqrt M).col 1 =
      (if (Decompose Real.sqrt M).scaling.y ≠ 0
        then (M.vRows 1).divAssign (Decompose Real.sqrt M).scaling.y else M.vRows 1) ∧
    (Decompose_m Real.sqrt M).col 2 =
      (if (Decompose Real.sqrt M).scaling.z ≠ 0
        then (M.vRows 2).divAssign (Decompose Real.sqrt M).scaling.z else M.vRows 2) :=
  ⟨rfl, rfl, rfl⟩

/-- An axis vector and a scale that is its length up to sign: a zero vector has scale 0
and stays as it is, a non-zero vector is divided and gets squared length 1. -/
theorem guarded_divAssign_spec (v : aiVector3t ℝ) (s : ℝ)
    (hs : s = v.Length Real.sqrt ∨ s = -v.Length Real.sqrt) :
    (v = ⟨0, 0, 0⟩ → s = 0 ∧ (if s ≠ 0 then v.divAssign s else v) = ⟨0, 0, 0⟩) ∧
    (v ≠ ⟨0, 0, 0⟩ → s ≠ 0 ∧ (if s ≠ 0 then v.divAssign s else v).SquareLength = 1) := by
  constructor
  · rintro rfl
    have h0 : s = 0 := by
      rcases hs with h | h <;>
        simp [h, aiVector3t.Length, aiVector3t.SquareLength]
    exact ⟨h0, by rw [h0]; simp⟩
  · intro hv
    have hL := Length_pos_of_ne_zero v hv
    have hL2 : v.Length Real.sqrt ^ 2 = v.x * v.x + v.y * v.y + v.z * v.z := by
      have h0 : 0 ≤ v.x * v.x + v.y * v.y + v.z * v.z := by
        nlinarith [mul_self_nonneg v.x, mul_self_nonneg v.y, mul_self_nonneg v.z]
      simp only [aiVector3t.Length, aiVector3t.SquareLength]
      exact Real.sq_sqrt h0
    have hs0 : s ≠ 0 := by
      rcases hs with h | h <;> rw [h] <;> simp [hL.ne']
    have hs2 : s ^ 2 = v.x * v.x + v.y * v.y + v.z * v.z := by
      rcases hs with h | h
      · rw [h, ← hL2]
      · rw [h, ← hL2]
        ring
    refine ⟨hs0, ?_⟩
    rw [if_pos hs0]
    simp only [aiVector3t.divAssign, aiVector3t.SquareLength]
    field_simp
    linear_combination -hs2

/-- C32: for every real matrix, `Decompose` divides an axis vector by its scale component
only when that component is non-zero (the version with these divisions checked succeeds,
with the same result); the quaternion is built from the matrix `m` whose columns are the
axis vectors `vRows[i]` after that step; if an axis vector is the zero vector, its scale
component is 0 and its column of `m` is all zeros; every non-zero axis vector has a
non-zero scale component and its column of `m` has length 1. -/
theorem Decompose_safe (M : aiMatrix4x4t ℝ) :
    DecomposeChecked Real.sqrt M = some (Decompose Real.sqrt M) ∧
    (Decompose Real.sqrt M).rotation = aiQuaterniont.ofMatrix Real.sqrt (Decompose_m Real.sqrt M) ∧
    (M.vRows 0 = ⟨0, 0, 0⟩ →
      (Decompose Real.sqrt M).scaling.x = 0 ∧ (Decompose_m Real.sqrt M).col 0 = ⟨0, 0, 0⟩) ∧
    (M.vRows 1 = ⟨0, 0, 0⟩ →
      (Decompose Real.sqrt M).scaling.y = 0 ∧ (Decompose_m Real.sqrt M).col 1 = ⟨0, 0, 0⟩) ∧
    (M.vRows 2 = ⟨0, 0, 0⟩ →
      (Decompose Real.sqrt M).scaling.z = 0 ∧ (Decompose_m Real.sqrt M).col 2 = ⟨0, 0, 0⟩) ∧
    (M.vRows 0 ≠ ⟨0, 0, 0⟩ →
      (Decompose Real.sqrt M).scaling.x ≠ 0 ∧
      ((Decompose_m Real.sqrt M).col 0).SquareLength = 1) ∧
    (M.vRows 1 ≠ ⟨0, 0, 0⟩ →
      (Decompose Real.sqrt M).scaling.y ≠ 0 ∧
      ((Decompose_m Real.sqrt M).col 1).SquareLength = 1) ∧
    (M.vRows 2 ≠ ⟨0, 0, 0⟩ →
      (Decompose Real.sqrt M).scaling.z ≠ 0 ∧
      ((Decompose_m Real.sqrt M).col 2).SquareLength = 1) := by
  obtain ⟨sx, sy, sz⟩ := Decompose_scaling_eq_or_neg M
  obtain ⟨cx, cy, cz⟩ := Decompose_m_col M
  rw [cx, cy, cz]
  exact ⟨DecomposeChecked_eq M, rfl,
    (guarded_divAssign_spec _ _ sx).1, (guarded_divAssign_spec _ _ sy).1,
    (guarded_divAssign_spec _ _ sz).1, (guarded_divAssign_spec _ _ sx).2,
    (guarded_divAssign_spec _ _ sy).2, (guarded_divAssign_spec _ _ sz).2⟩

theorem Decompose_safe_witness :
    (Decompose Real.sqrt
      (⟨0, 0, 0, 5, 0, 2, 0, 6, 0, 0, 1, 7, 0, 0, 0, 1⟩ : aiMatrix4x4t ℝ)).scaling.x = 0 ∧
    (Decompose_m Real.sqrt
      (⟨0, 0, 0, 5, 0, 2, 0, 6, 0, 0, 1, 7, 0, 0, 0, 1⟩ : aiMatrix4x4t ℝ)).col 0 = ⟨0, 0, 0⟩ ∧
    ((Decompose_m Real.sqrt
      (⟨0, 0, 0, 5, 0, 2, 0, 6, 0, 0, 1, 7, 0, 0, 0, 1⟩ : aiMatrix4x4t ℝ)).col 1).SquareLength
        = 1 :=
  ⟨((Decompose_safe ⟨0, 0, 0, 5, 0, 2, 0, 6, 0, 0, 1, 7, 0, 0, 0, 1⟩).2.2.1 rfl).1,
   ((Decompose_safe ⟨0, 0, 0, 5, 0, 2, 0, 6, 0, 0, 1, 7, 0, 0, 0, 1⟩).2.2.1 rfl).2,
   ((Decompose_safe ⟨0, 0, 0, 5, 0, 2, 0, 6, 0, 0, 1, 7, 0, 0, 0, 1⟩).2.2.2.2.2.2.1
     (by simp [vRows, entry])).2⟩

/-! ### Rotation factories, composition, and the rotation of a quaternion -/

/-- C33: over every commutative ring and for every angle, `Rotation(a, (1,0,0), out)`
writes the matrix of `RotationX(a, out)`, `Rotation(a, (0,1,0), out)` that of
`RotationY(a, out)` and `Rotation(a, (0,0,1), out)` that of `RotationZ(a, out)`, entry for
entry. All four functions assign every member of `out`, so its previous contents play no
part. -/
theorem Rotation_axis_eq {R : Type} [CommRing R] (cos sin : R → R) (a : R) :
    Rotation cos sin a ⟨1, 0, 0⟩ = RotationX cos sin a ∧
    Rotation cos sin a ⟨0, 1, 0⟩ = RotationY cos sin a ∧
    Rotation cos sin a ⟨0, 0, 1⟩ = RotationZ cos sin a := by
  refine ⟨?_, ?_, ?_⟩
  · simp only [Rotation, RotationX, identity, aiMatrix4x4t.mk.injEq]
    refine ⟨?_, ?_, ?_, ?_, ?_, ?_, ?_, ?_, ?_, ?_, ?_, ?_, ?_, ?_, ?_, ?_⟩ <;>
      first | trivial | ring1
  · simp only [Rotation, RotationY, identity, aiMatrix4x4t.mk.injEq]
    refine ⟨?_, ?_, ?_, ?_, ?_, ?_, ?_, ?_, ?_, ?_, ?_, ?_, ?_, ?_, ?_, ?_⟩ <;>
      first | trivial | ring1
  · simp only [Rotation, RotationZ, identity, aiMatrix4x4t.mk.injEq]
    refine ⟨?_, ?_, ?_, ?_, ?_, ?_, ?_, ?_, ?_, ?_, ?_, ?_, ?_, ?_, ?_, ?_⟩ <;>
      first | trivial | ring1

/-- Transforming by a product is transforming by the right factor first, when the right
factor is affine. -/
theorem mul_mulVec_of_affine {R : Type} [CommRing R] (A B : aiMatrix4x4t R)
    (v : aiVector3t R) (hB : B.IsAffine) :
    (A.mul B).mulVec v = A.mulVec (B.mulVec v) := by
  obtain ⟨a1, a2, a3, a4, b1, b2, b3, b4, c1, c2, c3, c4, d1, d2, d3, d4⟩ := A
  obtain ⟨h1, h2, h3, h4⟩ := hB
  simp only [mul, mulAssign, aiMatrix4x4t.mulVec, h1, h2, h3, h4, aiVector3t.mk.injEq]
  refine ⟨?_, ?_, ?_⟩ <;> ring

/-- C34: for all affine matrices `A` and `B` (bottom row `0, 0, 0, 1`) over a commutative
ring and every vector `v`, `(A * B) * v == A * (B * v)` with the 4x4 transform of
`vector3.inl`: in `A * B` the right operand is applied to the vector first. -/
theorem mul_mulVec {R : Type} [CommRing R] (A B : aiMatrix4x4t R) (v : aiVector3t R)
    (_hA : A.IsAffine) (hB : B.IsAffine) :
    (A.mul B).mulVec v = A.mulVec (B.mulVec v) :=
  mul_mulVec_of_affine A B v hB

theorem mul_mulVec_witness :
    (Translation ⟨1, 0, 0⟩ : aiMatrix4x4t ℚ).IsAffine ∧
    (Scaling ⟨2, 2, 2⟩ : aiMatrix4x4t ℚ).IsAffine ∧
    ((Translation ⟨1, 0, 0⟩ : aiMatrix4x4t ℚ).mul (Scaling ⟨2, 2, 2⟩)).mulVec ⟨1, 1, 1⟩ =
      (Translation ⟨1, 0, 0⟩ : aiMatrix4x4t ℚ).mulVec
        ((Scaling ⟨2, 2, 2⟩ : aiMatrix4x4t ℚ).mulVec ⟨1, 1, 1⟩) :=
  ⟨by simp [aiMatrix4x4t.IsAffine, Translation, identity],
   by simp [aiMatrix4x4t.IsAffine, Scaling, identity],
   mul_mulVec _ _ _ (by simp [aiMatrix4x4t.IsAffine, Translation, identity])
     (by simp [aiMatrix4x4t.IsAffine, Scaling, identity])⟩

/-- For a unit quaternion, `GetMatrix() * v` is the vector part of
`q * (0, v) * conjugate(q)`. -/
theorem GetMatrix_mulVec_eq_sandwich {R : Type} [CommRing R] (q : aiQuaterniont R)
    (v : aiVector3t R) (hq : q.normSq = 1) :
    q.GetMatrix.mulVec v = ((q.mul (aiQuaterniont.pure v)).mul q.Conjugate).vectorPart := by
  obtain ⟨w, x, y, z⟩ := q
  simp only [aiQuaterniont.normSq] at hq
  simp only [aiQuaterniont.GetMatrix, aiMatrix3x3t.mulVec, aiQuaterniont.mul,
    aiQuaterniont.Conjugate, aiQuaterniont.pure, aiQuaterniont.vectorPart, aiVector3t.mk.injEq]
  refine ⟨?_, ?_, ?_⟩
  · linear_combination (-v.x) * hq
  · linear_combination (-v.y) * hq
  · linear_combination (-v.z) * hq

/-- C35 at a failing input: for the unit quaternion `q = (w, x, y, z) = (3/5, 0, 0, 4/5)`
and `v = (0, 1, 0)`, `Rotate` returns `(24/25, -7/25, 0)` while `q.GetMatrix() * v` is
`(-24/25, -7/25, 0)`. -/
theorem Rotate_ne_GetMatrix_mulVec_at_input :
    (⟨3/5, 0, 0, 4/5⟩ : aiQuaterniont ℚ).normSq = 1 ∧
    (⟨3/5, 0, 0, 4/5⟩ : aiQuaterniont ℚ).Rotate ⟨0, 1, 0⟩ = ⟨24/25, -7/25, 0⟩ ∧
    (⟨3/5, 0, 0, 4/5⟩ : aiQuaterniont ℚ).GetMatrix.mulVec ⟨0, 1, 0⟩ = ⟨-24/25, -7/25, 0⟩ ∧
    (⟨3/5, 0, 0, 4/5⟩ : aiQuaterniont ℚ).Rotate ⟨0, 1, 0⟩ ≠
      (⟨3/5, 0, 0, 4/5⟩ : aiQuaterniont ℚ).GetMatrix.mulVec ⟨0, 1, 0⟩ := by
  refine ⟨?_, ?_, ?_, ?_⟩ <;>
    norm_num [aiQuaterniont.Rotate, aiQuaterniont.mul, aiQuaterniont.Conjugate,
      aiQuaterniont.normSq, aiQuaterniont.GetMatrix, aiMatrix3x3t.mulVec]

/-- What `Rotate` computes for a unit quaternion: the transform by the matrix of the
conjugate quaternion, that is the opposite rotation. -/
theorem Rotate_eq_GetMatrix_Conjugate_mulVec {R : Type} [CommRing R] (q : aiQuaterniont R)
    (v : aiVector3t R) (hq : q.normSq = 1) :
    q.Rotate v = q.Conjugate.GetMatrix.mulVec v := by
  obtain ⟨w, x, y, z⟩ := q
  simp only [aiQuaterniont.normSq] at hq
  simp only [aiQuaterniont.GetMatrix, aiMatrix3x3t.mulVec, aiQuaterniont.mul,
    aiQuaterniont.Conjugate, aiQuaterniont.Rotate, aiVector3t.mk.injEq]
  refine ⟨?_, ?_, ?_⟩
  · linear_combination v.x * hq
  · linear_combination v.y * hq
  · linear_combination v.z * hq

/-- C36: for every real axis of length 1 and every angle, `Quaternion(axis, angle)
.GetMatrix()` equals the upper-left 3x3 block of the matrix written by
`Rotation(angle, axis, out)`, entry for entry. -/
theorem GetMatrix_ofAxisAngle_eq_Rotation_block (axis : aiVector3t ℝ) (angle : ℝ)
    (haxis : axis.Length Real.sqrt = 1) :
    (aiQuaterniont.ofAxisAngle Real.sqrt Real.cos Real.sin axis angle).GetMatrix =
      (Rotation Real.cos Real.sin angle axis).block3 :=
  GetMatrix_ofAxisAngle axis angle (SquareLength_of_Length_eq_one axis haxis)

theorem GetMatrix_ofAxisAngle_eq_Rotation_block_witness :
    (⟨0, 1, 0⟩ : aiVector3t ℝ).Length Real.sqrt = 1 ∧
    (aiQuaterniont.ofAxisAngle Real.sqrt Real.cos Real.sin ⟨0, 1, 0⟩ 2).GetMatrix =
      (Rotation Real.cos Real.sin 2 ⟨0, 1, 0⟩).block3 :=
  ⟨by norm_num [aiVector3t.Length, aiVector3t.SquareLength],
   GetMatrix_ofAxisAngle_eq_Rotation_block ⟨0, 1, 0⟩ 2
     (by norm_num [aiVector3t.Length, aiVector3t.SquareLength])⟩

/-! ### The matrix of a unit quaternion -/

/-- The squared norm is multiplicative. -/
theorem normSq_mul {R : Type} [CommRing R] (p q : aiQuaterniont R) :
    (p.mul q).normSq = p.normSq * q.normSq := by
  obtain ⟨pw, px, py, pz⟩ := p
  simp only [aiQuaterniont.mul, aiQuaterniont.normSq]
  ring

/-- The sandwich by a product is the sandwich by the right factor followed by the
sandwich by the left factor. -/
theorem sandwich_mul {R : Type} [CommRing R] (p q : aiQuaterniont R) (v : aiVector3t R) :
    (((p.mul q).mul (aiQuaterniont.pure v)).mul (p.mul q).Conjugate).vectorPart =
      ((p.mul (aiQuaterniont.pure
        ((q.mul (aiQuaterniont.pure v)).mul q.Conjugate).vectorPart)).mul
          p.Conjugate).vectorPart := by
  obtain ⟨pw, px, py, pz⟩ := p
  obtain ⟨qw, qx, qy, qz⟩ := q
  simp only [aiQuaterniont.mul, aiQuaterniont.Conjugate, aiQuaterniont.pure,
    aiQuaterniont.vectorPart, aiVector3t.mk.injEq]
  refine ⟨?_, ?_, ?_⟩ <;> ring

/-- C37: for all unit quaternions `p` and `q` over a commutative ring and every vector
`v`, `(p * q).GetMatrix() * v == p.GetMatrix() * (q.GetMatrix() * v)`. -/
theorem GetMatrix_mul_mulVec {R : Type} [CommRing R] (p q : aiQuaterniont R)
    (v : aiVector3t R) (hp : p.normSq = 1) (hq : q.normSq = 1) :
    (p.mul q).GetMatrix.mulVec v = p.GetMatrix.mulVec (q.GetMatrix.mulVec v) := by
  have hpq : (p.mul q).normSq = 1 := by rw [normSq_mul, hp, hq, one_mul]
  rw [GetMatrix_mulVec_eq_sandwich _ _ hpq, GetMatrix_mulVec_eq_sandwich q _ hq,
    GetMatrix_mulVec_eq_sandwich p _ hp, sandwich_mul]

theorem GetMatrix_mul_mulVec_witness :
    (⟨3/5, 4/5, 0, 0⟩ : aiQuaterniont ℚ).normSq = 1 ∧
    (⟨0, 0, 3/5, 4/5⟩ : aiQuaterniont ℚ).normSq = 1 ∧
    ((⟨3/5, 4/5, 0, 0⟩ : aiQuaterniont ℚ).mul ⟨0, 0, 3/5, 4/5⟩).GetMatrix.mulVec ⟨1, 2, 3⟩ =
      (⟨3/5, 4/5, 0, 0⟩ : aiQuaterniont ℚ).GetMatrix.mulVec
        ((⟨0, 0, 3/5, 4/5⟩ : aiQuaterniont ℚ).GetMatrix.mulVec ⟨1, 2, 3⟩) :=
  ⟨by norm_num [aiQuaterniont.normSq], by norm_num [aiQuaterniont.normSq],
   GetMatrix_mul_mulVec _ _ _ (by norm_num [aiQuaterniont.normSq])
     (by norm_num [aiQuaterniont.normSq])⟩

/-- The rows of the matrix of a unit quaternion are orthonormal. -/
theorem GetMatrix_rows_orthonormal {R : Type} [CommRing R] (q : aiQuaterniont R)
    (hq : q.normSq = 1) :
    ((q.GetMatrix.row 0).dot (q.GetMatrix.row 0) = 1 ∧
     (q.GetMatrix.row 1).dot (q.GetMatrix.row 1) = 1 ∧
     (q.GetMatrix.row 2).dot (q.GetMatrix.row 2) = 1) ∧
    ((q.GetMatrix.row 0).dot (q.GetMatrix.row 1) = 0 ∧
     (q.GetMatrix.row 0).dot (q.GetMatrix.row 2) = 0 ∧
     (q.GetMatrix.row 1).dot (q.GetMatrix.row 2) = 0) := by
  obtain ⟨w, x, y, z⟩ := q
  simp only [aiQuaterniont.normSq] at hq
  simp only [aiQuaterniont.GetMatrix, aiMatrix3x3t.row, aiVector3t.dot]
  refine ⟨⟨?_, ?_, ?_⟩, ⟨?_, ?_, ?_⟩⟩
  · linear_combination (4 * (y ^ 2 + z ^ 2)) * hq
  · linear_combination (4 * (x ^ 2 + z ^ 2)) * hq
  · linear_combination (4 * (x ^ 2 + y ^ 2)) * hq
  · linear_combination (-4 * x * y) * hq
  · linear_combination (-4 * x * z) * hq
  · linear_combination (-4 * y * z) * hq

/-- The determinant of a 3x3 matrix given by its nine entries. -/
theorem det_three {R : Type} [CommRing R] (a b c d e f g h i : R) :
    Matrix.det !![a, b, c; d, e, f; g, h, i] =
      a * e * i - a * f * h - b * d * i + b * f * g + c * d * h - c * e * g := by
  rw [Matrix.det_fin_three]
  simp

/-- The matrix of a unit quaternion has determinant 1. -/
theorem GetMatrix_det {R : Type} [CommRing R] (q : aiQuaterniont R) (hq : q.normSq = 1) :
    Matrix.det !![q.GetMatrix.a1, q.GetMatrix.a2, q.GetMatrix.a3;
                  q.GetMatrix.b1, q.GetMatrix.b2, q.GetMatrix.b3;
                  q.GetMatrix.c1, q.GetMatrix.c2, q.GetMatrix.c3] = 1 := by
  obtain ⟨w, x, y, z⟩ := q
  simp only [aiQuaterniont.normSq] at hq
  rw [det_three]
  simp only [aiQuaterniont.GetMatrix]
  linear_combination (4 * (x ^ 2 + y ^ 2 + z ^ 2)) * hq

/-- The matrix of a unit quaternion keeps the squared length of every vector. -/
theorem GetMatrix_mulVec_SquareLength {R : Type} [CommRing R] (q : aiQuaterniont R)
    (v : aiVector3t R) (hq : q.normSq = 1) :
    (q.GetMatrix.mulVec v).SquareLength = v.SquareLength := by
  obtain ⟨w, x, y, z⟩ := q
  obtain ⟨a, b, c⟩ := v
  simp only [aiQuaterniont.normSq] at hq
  simp only [aiQuaterniont.GetMatrix, aiMatrix3x3t.mulVec, aiVector3t.SquareLength]
  linear_combination
    (4 * ((x ^ 2 + y ^ 2 + z ^ 2) * (a ^ 2 + b ^ 2 + c ^ 2) - (x * a + y * b + z * c) ^ 2)) * hq

/-- C38: for every real unit quaternion `q`, the 3x3 matrix `q.GetMatrix()` has orthonormal
rows (each row has squared length 1, distinct rows have dot product 0) and determinant
1, and `q.GetMatrix() * v` has the same length as `v` for every vector `v`. -/
theorem GetMatrix_is_rotation (q : aiQuaterniont ℝ) (hq : q.normSq = 1) :
    ((q.GetMatrix.row 0).dot (q.GetMatrix.row 0) = 1 ∧
     (q.GetMatrix.row 1).dot (q.GetMatrix.row 1) = 1 ∧
     (q.GetMatrix.row 2).dot (q.GetMatrix.row 2) = 1) ∧
    ((q.GetMatrix.row 0).dot (q.GetMatrix.row 1) = 0 ∧
     (q.GetMatrix.row 0).dot (q.GetMatrix.row 2) = 0 ∧
     (q.GetMatrix.row 1).dot (q.GetMatrix.row 2) = 0) ∧
    Matrix.det !![q.GetMatrix.a1, q.GetMatrix.a2, q.GetMatrix.a3;
                  q.GetMatrix.b1, q.GetMatrix.b2, q.GetMatrix.b3;
                  q.GetMatrix.c1, q.GetMatrix.c2, q.GetMatrix.c3] = 1 ∧
    ∀ v : aiVector3t ℝ, (q.GetMatrix.mulVec v).Length Real.sqrt = v.Length Real.sqrt := by
  refine ⟨(GetMatrix_rows_orthonormal q hq).1, (GetMatrix_rows_orthonormal q hq).2,
    GetMatrix_det q hq, ?_⟩
  intro v
  simp only [aiVector3t.Length, GetMatrix_mulVec_SquareLength q v hq]

theorem GetMatrix_is_rotation_witness :
    (⟨3/5, 0, 4/5, 0⟩ : aiQuaterniont ℝ).normSq = 1 ∧
    Matrix.det !![(⟨3/5, 0, 4/5, 0⟩ : aiQuaterniont ℝ).GetMatrix.a1,
                  (⟨3/5, 0, 4/5, 0⟩ : aiQuaterniont ℝ).GetMatrix.a2,
                  (⟨3/5, 0, 4/5, 0⟩ : aiQuaterniont ℝ).GetMatrix.a3;
                  (⟨3/5, 0, 4/5, 0⟩ : aiQuaterniont ℝ).GetMatrix.b1,
                  (⟨3/5, 0, 4/5, 0⟩ : aiQuaterniont ℝ).GetMatrix.b2,
                  (⟨3/5, 0, 4/5, 0⟩ : aiQuaterniont ℝ).GetMatrix.b3;
                  (⟨3/5, 0, 4/5, 0⟩ : aiQuaterniont ℝ).GetMatrix.c1,
                  (⟨3/5, 0, 4/5, 0⟩ : aiQuaterniont ℝ).GetMatrix.c2,
                  (⟨3/5, 0, 4/5, 0⟩ : aiQuaterniont ℝ).GetMatrix.c3] = 1 :=
  ⟨by norm_num [aiQuaterniont.normSq],
   (GetMatrix_is_rotation ⟨3/5, 0, 4/5, 0⟩ (by norm_num [aiQuaterniont.normSq])).2.2.1⟩

/-! ### Slerp on the unit sphere, symmetry of the box test -/

/-- The identity behind slerp: with `a + b` the whole angle,
`sin^2 a + sin^2 b + 2 sin a sin b cos (a + b) = sin^2 (a + b)`. -/
theorem slerp_identity (a b : ℝ) :
    Real.sin a ^ 2 + Real.sin b ^ 2 + 2 * Real.sin a * Real.sin b * Real.cos (a + b) =
      Real.sin (a + b) ^ 2 := by
  rw [Real.cos_add, Real.sin_add]
  have ha := Real.sin_sq_add_cos_sq a
  have hb := Real.sin_sq_add_cos_sq b
  linear_combination (-(Real.sin b) ^ 2) * ha + (-(Real.sin a) ^ 2) * hb

/-- The squared norm of a blend `k1 * s + k2 * e` of two unit quaternions with dot
product `c`. -/
theorem normSq_blend (s e : aiQuaterniont ℝ) (k1 k2 c : ℝ) (hs : s.normSq = 1)
    (he : e.normSq = 1) (hc : s.x * e.x + s.y * e.y + s.z * e.z + s.w * e.w = c) :
    (⟨k1 * s.w + k2 * e.w, k1 * s.x + k2 * e.x, k1 * s.y + k2 * e.y, k1 * s.z + k2 * e.z⟩ :
      aiQuaterniont ℝ).normSq = k1 ^ 2 + k2 ^ 2 + 2 * k1 * k2 * c := by
  simp only [aiQuaterniont.normSq] at hs he ⊢
  linear_combination k1 ^ 2 * hs + k2 ^ 2 * he + 2 * k1 * k2 * hc

/-- The slerp blend of two unit quaternions with dot product `c` in `[0, 0.9999)` is a
unit quaternion. -/
theorem slerp_blend_normSq (s e : aiQuaterniont ℝ) (f c : ℝ) (hs : s.normSq = 1)
    (he : e.normSq = 1) (hc : s.x * e.x + s.y * e.y + s.z * e.z + s.w * e.w = c)
    (h0 : 0 ≤ c) (h1 : 1 - c > 0.0001) :
    (⟨Real.sin ((1 - f) * Real.arccos c) / Real.sin (Real.arccos c) * s.w +
        Real.sin (f * Real.arccos c) / Real.sin (Real.arccos c) * e.w,
      Real.sin ((1 - f) * Real.arccos c) / Real.sin (Real.arccos c) * s.x +
        Real.sin (f * Real.arccos c) / Real.sin (Real.arccos c) * e.x,
      Real.sin ((1 - f) * Real.arccos c) / Real.sin (Real.arccos c) * s.y +
        Real.sin (f * Real.arccos c) / Real.sin (Real.arccos c) * e.y,
      Real.sin ((1 - f) * Real.arccos c) / Real.sin (Real.arccos c) * s.z +
        Real.sin (f * Real.arccos c) / Real.sin (Real.arccos c) * e.z⟩ :
      aiQuaterniont ℝ).normSq = 1 := by
  rw [normSq_blend s e _ _ c hs he hc]
  have hS := sin_arccos_ne_zero c h0 h1
  have hcos : Real.cos (Real.arccos c) = c :=
    Real.cos_arccos (by linarith) (by norm_num at h1; linarith)
  have hid := slerp_identity ((1 - f) * Real.arccos c) (f * Real.arccos c)
  have hsum : (1 - f) * Real.arccos c + f * Real.arccos c = Real.arccos c := by ring
  rw [hsum, hcos] at hid
  field_simp
  linear_combination Real.sin (Real.arccos c) ^ 2 * hid

/-- C39: for all real unit quaternions `pStart` and `pEnd` with
`1 - |dot(pStart, pEnd)| > 0.0001` (the trigonometric branch) and every factor, the
quaternion written by `Interpolate` has `w^2 + x^2 + y^2 + z^2 = 1`. -/
theorem Interpolate_normSq (pStart pEnd : aiQuaterniont ℝ) (pFactor : ℝ)
    (hs : pStart.normSq = 1) (he : pEnd.normSq = 1)
    (hbranch : 1 - |pStart.x * pEnd.x + pStart.y * pEnd.y + pStart.z * pEnd.z +
      pStart.w * pEnd.w| > 0.0001) :
    (aiQuaterniont.Interpolate Real.arccos Real.sin pStart pEnd pFactor).w ^ 2 +
    (aiQuaterniont.Interpolate Real.arccos Real.sin pStart pEnd pFactor).x ^ 2 +
    (aiQuaterniont.Interpolate Real.arccos Real.sin pStart pEnd pFactor).y ^ 2 +
    (aiQuaterniont.Interpolate Real.arccos Real.sin pStart pEnd pFactor).z ^ 2 = 1 := by
  change (aiQuaterniont.Interpolate Real.arccos Real.sin pStart pEnd pFactor).normSq = 1
  simp only [aiQuaterniont.Interpolate]
  by_cases hd : pStart.x * pEnd.x + pStart.y * pEnd.y + pStart.z * pEnd.z +
      pStart.w * pEnd.w < 0
  · rw [abs_of_neg hd] at hbranch
    simp only [if_pos hd, if_pos hbranch]
    have hn : (⟨-pEnd.w, -pEnd.x, -pEnd.y, -pEnd.z⟩ : aiQuaterniont ℝ).normSq = 1 := by
      simp only [aiQuaterniont.normSq] at he ⊢
      linear_combination he
    exact slerp_blend_normSq pStart ⟨-pEnd.w, -pEnd.x, -pEnd.y, -pEnd.z⟩ pFactor _ hs hn
      (by ring) (by linarith) hbranch
  · rw [abs_of_nonneg (not_lt.mp hd)] at hbranch
    simp only [if_neg hd, if_pos hbranch]
    exact slerp_blend_normSq pStart pEnd pFactor _ hs he rfl (not_lt.mp hd) hbranch

theorem Interpolate_normSq_witness :
    (⟨1, 0, 0, 0⟩ : aiQuaterniont ℝ).normSq = 1 ∧
    (⟨0, 1, 0, 0⟩ : aiQuaterniont ℝ).normSq = 1 ∧
    (aiQuaterniont.Interpolate Real.arccos Real.sin ⟨1, 0, 0, 0⟩ ⟨0, 1, 0, 0⟩ (1 / 3)).w ^ 2 +
    (aiQuaterniont.Interpolate Real.arccos Real.sin ⟨1, 0, 0, 0⟩ ⟨0, 1, 0, 0⟩ (1 / 3)).x ^ 2 +
    (aiQuaterniont.Interpolate Real.arccos Real.sin ⟨1, 0, 0, 0⟩ ⟨0, 1, 0, 0⟩ (1 / 3)).y ^ 2 +
    (aiQuaterniont.Interpolate Real.arccos Real.sin ⟨1, 0, 0, 0⟩ ⟨0, 1, 0, 0⟩ (1 / 3)).z ^ 2 = 1 :=
  ⟨by norm_num [aiQuaterniont.normSq], by norm_num [aiQuaterniont.normSq],
   Interpolate_normSq ⟨1, 0, 0, 0⟩ ⟨0, 1, 0, 0⟩ (1 / 3) (by norm_num [aiQuaterniont.normSq])
     (by norm_num [aiQuaterniont.normSq]) (by norm_num)⟩

/-- C40: for all boxes `A` and `B`, well-formed or not, `A.IntersectAABB(B)` and
`B.IntersectAABB(A)` return the same `doesIntersect` flag and the same distance. -/
theorem IntersectAABB_symm {K : Type} [LinearOrderedField K] (A B : AABB K) :
    (A.IntersectAABB B).m_doesIntersect = (B.IntersectAABB A).m_doesIntersect ∧
    (A.IntersectAABB B).m_distance = (B.IntersectAABB A).m_distance := by
  have h : (A.IntersectAABB B).m_distance = (B.IntersectAABB A).m_distance := by
    rw [IntersectAABB_m_distance, IntersectAABB_m_distance,
      max_comm (B.m_minExtents.x - A.m_maxExtents.x), max_comm (B.m_minExtents.y - A.m_maxExtents.y),
      max_comm (B.m_minExtents.z - A.m_maxExtents.z)]
  refine ⟨?_, h⟩
  rw [IntersectAABB_m_doesIntersect, IntersectAABB_m_doesIntersect, h]

end Assimp
